import Mathlib

/-!
# Specification analyzer of mcp-zero: embedding and verified properties

The development embeds `internal/analyzer` (`api_parser.go`, `proto_parser.go`,
`project_scanner.go`), the analysis cache and entry point of
`tools/analyze_project.go`, and `internal/validation` (`service_name.go`,
`port.go`, `config.go`) as pure Lean functions.

* Text is a list of Unicode code points (`Str`); a Go `string` holding valid
  UTF-8 is such a list.
* The patterns given to Go's `regexp` package are written as terms of `Re`
  and run by `Re.run`, a backtracking matcher that lists the ways a pattern
  matches a prefix of the input in priority order; the first one is the
  leftmost-first match that `regexp` reports.
* The file system is a record of the answers the scanner gets from it; the
  clock, the network stack and the Unicode tables of the Go release are
  arguments in the same way.
-/

namespace Analyzer

/-- Text: a sequence of Unicode code points. -/
abbrev Str := List Char

/-- Submatches of one match: index 0 is the whole match, index `i` the text of
capture group `i` (empty when the group took no part in the match). -/
abbrev Caps := List Str

/-! ## Character classes used by the patterns -/

/-- Perl class `\s` of Go regexp: `[\t\n\f\r ]`. -/
def isSpaceRe (c : Char) : Bool :=
  c.toNat == 9 || c.toNat == 10 || c.toNat == 12 || c.toNat == 13 || c.toNat == 32

/-- Range `[A-Z]`. -/
def isUpperAZ (c : Char) : Bool := decide (65 ≤ c.toNat) && decide (c.toNat ≤ 90)

/-- Range `[a-z]`. -/
def isLowerAZ (c : Char) : Bool := decide (97 ≤ c.toNat) && decide (c.toNat ≤ 122)

/-- Range `[0-9]`. -/
def isDigit09 (c : Char) : Bool := decide (48 ≤ c.toNat) && decide (c.toNat ≤ 57)

/-- Perl class `\w` of Go regexp: `[0-9A-Za-z_]`; also the class `[a-zA-Z0-9_]`. -/
def isWord (c : Char) : Bool :=
  isDigit09 c || isUpperAZ c || isLowerAZ c || c.toNat == 95

/-- Class `[a-zA-Z0-9_-]` of the HTTP service name. -/
def isApiNameChar (c : Char) : Bool := isWord c || c.toNat == 45

/-- Class `[^\x7d]`: anything but a closing brace. -/
def notRBrace (c : Char) : Bool := !(c.toNat == 125)

/-- Class `[^)]`: anything but a closing parenthesis. -/
def notRParen (c : Char) : Bool := !(c.toNat == 41)

/-- Class `[^\s(]`: neither white space nor an opening parenthesis. -/
def notSpaceLParen (c : Char) : Bool := !(isSpaceRe c) && !(c.toNat == 40)

/-! ## Regular expressions -/

/-- The fragment of Go regexp syntax the analyzer uses. Repetition is only
ever applied to a character class in the source patterns. -/
inductive Re where
  /-- A literal string. -/
  | lit (s : Str)
  /-- One character of a class. -/
  | cls (p : Char → Bool)
  /-- Greedy `c*` over a class. -/
  | star (p : Char → Bool)
  /-- Greedy `c+` over a class. -/
  | plus (p : Char → Bool)
  /-- Concatenation. -/
  | seq (a b : Re)
  /-- Capture group number `i`. -/
  | group (i : Nat) (r : Re)
  /-- Greedy `(?:r)?`. -/
  | opt (r : Re)

/-- The ways `p*` can split the input, longest run first. -/
def starSplits (p : Char → Bool) : Str → List (Str × Str)
  | [] => [([], [])]
  | x :: xs =>
    if p x then (starSplits p xs).map (fun wr => (x :: wr.1, wr.2)) ++ [([], x :: xs)]
    else [([], x :: xs)]

/-- The ways `p+` can split the input, longest run first. -/
def plusSplits (p : Char → Bool) : Str → List (Str × Str)
  | [] => []
  | x :: xs => if p x then (starSplits p xs).map (fun wr => (x :: wr.1, wr.2)) else []

/-- Backtracking matcher: every way the pattern matches a prefix of the input,
as (matched text, remaining input, captures), in the order a backtracking
search finds them. -/
def Re.run : Re → Str → Caps → List (Str × Str × Caps)
  | .lit s, inp, c => if s.isPrefixOf inp then [(s, inp.drop s.length, c)] else []
  | .cls p, inp, c =>
    match inp with
    | [] => []
    | x :: xs => if p x then [([x], xs, c)] else []
  | .star p, inp, c => (starSplits p inp).map (fun wr => (wr.1, wr.2, c))
  | .plus p, inp, c => (plusSplits p inp).map (fun wr => (wr.1, wr.2, c))
  | .seq a b, inp, c =>
    (a.run inp c).flatMap (fun r1 => (b.run r1.2.1 r1.2.2).map (fun r2 => (r1.1 ++ r2.1, r2.2.1, r2.2.2)))
  | .group i r, inp, c => (r.run inp c).map (fun m => (m.1, m.2.1, m.2.2.set i m.1))
  | .opt r, inp, c => r.run inp c ++ [([], inp, c)]

/-- A compiled pattern: the expression and its number of capture groups. -/
structure Regexp where
  re : Re
  ngroups : Nat
  /-- The pattern starts with `^`: it can only match at the start of the text. -/
  anchored : Bool := false

/-- The leftmost-first match of the pattern at the very start of the input:
(submatches, remaining input), with the whole match stored at index 0. -/
def Regexp.matchHere (r : Regexp) (inp : Str) : Option (Caps × Str) :=
  match r.re.run inp (List.replicate (r.ngroups + 1) []) with
  | [] => none
  | m :: _ => some (m.2.2.set 0 m.1, m.2.1)

/-- Go `(*Regexp).FindStringSubmatch`: the submatches of the leftmost match,
`none` (a nil slice) when the pattern matches nowhere. -/
def Regexp.FindStringSubmatch (r : Regexp) : Str → Option Caps
  | [] => (r.matchHere []).map (fun m => m.1)
  | x :: xs =>
    match r.matchHere (x :: xs) with
    | some m => some m.1
    | none => if r.anchored then none else r.FindStringSubmatch xs

/-- Scanning loop of `FindAllStringSubmatch`. `skip` counts the characters of
the current match still to be passed; `adj` says that the previous match ended
exactly here (Go drops an empty match right after a previous match). -/
def Regexp.findAllAux (r : Regexp) : Str → Nat → Bool → List Caps
  | [], skip, adj =>
    if skip = 0 then
      match r.matchHere [] with
      | some m => if adj then [] else [m.1]
      | none => []
    else []
  | _ :: xs, skip + 1, _ => r.findAllAux xs skip (skip == 0)
  | x :: xs, 0, adj =>
    match r.matchHere (x :: xs) with
    | none => r.findAllAux xs 0 false
    | some m =>
      let len := (x :: xs).length - m.2.length
      if len = 0 then
        (if adj then [] else [m.1]) ++ r.findAllAux xs 0 false
      else m.1 :: r.findAllAux xs (len - 1) (len == 1)

/-- Go `(*Regexp).FindAllStringSubmatch(s, -1)`: the submatches of the
successive non-overlapping leftmost matches. -/
def Regexp.FindAllStringSubmatch (r : Regexp) (s : Str) : List Caps :=
  if r.anchored then (r.matchHere s).toList.map (fun m => m.1) else r.findAllAux s 0 false

/-! ## Helpers from package `strings` -/

/-- Go `strings.TrimSuffix`. -/
def TrimSuffix (s suffix : Str) : Str :=
  if suffix.isSuffixOf s then s.take (s.length - suffix.length) else s

/-- Go `unicode.IsSpace`. -/
def isUnicodeSpace (c : Char) : Bool :=
  c.toNat == 9 || c.toNat == 10 || c.toNat == 11 || c.toNat == 12 || c.toNat == 13 ||
  c.toNat == 32 || c.toNat == 0x85 || c.toNat == 0xA0 || c.toNat == 0x1680 ||
  (decide (0x2000 ≤ c.toNat) && decide (c.toNat ≤ 0x200a)) ||
  c.toNat == 0x2028 || c.toNat == 0x2029 || c.toNat == 0x202f || c.toNat == 0x205f ||
  c.toNat == 0x3000

/-- Go `strings.TrimSpace`. -/
def TrimSpace (s : Str) : Str :=
  ((s.dropWhile isUnicodeSpace).reverse.dropWhile isUnicodeSpace).reverse

/-- Upper-case mapping of one code point: `a`-`z` go to `A`-`Z`, dotless i
(U+0131) to `I` and long s (U+017F) to `S`; these are all the code points
whose upper case is ASCII. Other code points are kept: the only text the
analyzer upper-cases is matched by `\w+`, hence ASCII. -/
def upperChar (c : Char) : Char :=
  if isLowerAZ c then Char.ofNat (c.toNat - 32)
  else if c.toNat == 0x131 then Char.ofNat 73
  else if c.toNat == 0x17F then Char.ofNat 83
  else c

/-- Go `strings.ToUpper` (see `upperChar`). -/
def ToUpper (s : Str) : Str := s.map upperChar

/-- Go `strings.Contains`. -/
def Contains (s sub : Str) : Bool :=
  match s with
  | [] => sub.isPrefixOf []
  | x :: xs => sub.isPrefixOf (x :: xs) || Contains xs sub

/-! ## `api_parser.go` -/

/-- One HTTP endpoint of an `.api` file. -/
structure Endpoint where
  Method : Str
  Path : Str
  Handler : Str
  Request : Str
  Response : Str
deriving DecidableEq, Repr

/-- Result of parsing an `.api` file. -/
structure APISpecification where
  FilePath : Str
  ServiceName : Str
  Endpoints : List Endpoint
  Types : List Str
deriving DecidableEq, Repr

/-- The errors of the analyzer. -/
inductive Err where
  /-- Error "failed to read API file" or "failed to read proto file". -/
  | readFailed
  /-- Error "no service name found". -/
  | noServiceName
  /-- Error "failed to resolve project path". -/
  | resolveFailed
  /-- Error "project path does not exist". -/
  | pathNotFound
  /-- Error "project path is not a directory". -/
  | notADirectory
  /-- Error "failed to read go.mod". -/
  | goModUnreadable
deriving DecidableEq, Repr

/-- Literal `service`. -/
def kwService : Str := ['s', 'e', 'r', 'v', 'i', 'c', 'e']

/-- Literal opening brace. -/
def lbrace : Str := [Char.ofNat 123]

/-- Literal closing brace. -/
def rbrace : Str := [Char.ofNat 125]

/-- Pattern ``service\s+([a-zA-Z0-9_-]+)\s*{`` of `extractServiceName`. -/
def apiServiceNameRegex : Regexp where
  ngroups := 1
  re :=
    .seq (.lit kwService) <| .seq (.plus isSpaceRe) <| .seq (.group 1 (.plus isApiNameChar)) <|
    .seq (.star isSpaceRe) (.lit lbrace)

/-- Pattern ``service\s+[a-zA-Z0-9_-]+\s*{([^}]+)}`` of `extractEndpoints`. -/
def apiServiceBlockRegex : Regexp where
  ngroups := 1
  re :=
    .seq (.lit kwService) <| .seq (.plus isSpaceRe) <| .seq (.plus isApiNameChar) <|
    .seq (.star isSpaceRe) <| .seq (.lit lbrace) <| .seq (.group 1 (.plus notRBrace)) (.lit rbrace)

/-- Sub-pattern ``(?:\(([^)]+)\))?`` of the endpoint pattern. -/
def endpointRequestRe : Re :=
  .opt (.seq (.lit ['(']) <| .seq (.group 4 (.plus notRParen)) (.lit [')']))

/-- Sub-pattern ``(?:returns\s*\(([^)]+)\))?`` of the endpoint pattern. -/
def endpointReturnsRe : Re :=
  .opt (.seq (.lit ['r', 'e', 't', 'u', 'r', 'n', 's']) <| .seq (.star isSpaceRe) <|
    .seq (.lit ['(']) <| .seq (.group 5 (.plus notRParen)) (.lit [')']))

/-- Pattern
``@handler\s+(\w+)\s+(\w+)\s+(/[^\s(]*)\s*(?:\(([^)]+)\))?\s*(?:returns\s*\(([^)]+)\))?``
of `extractEndpoints`. -/
def endpointRegex : Regexp where
  ngroups := 5
  re :=
    .seq (.lit ['@', 'h', 'a', 'n', 'd', 'l', 'e', 'r']) <| .seq (.plus isSpaceRe) <|
    .seq (.group 1 (.plus isWord)) <| .seq (.plus isSpaceRe) <|
    .seq (.group 2 (.plus isWord)) <| .seq (.plus isSpaceRe) <|
    .seq (.group 3 (.seq (.lit ['/']) (.star notSpaceLParen))) <|
    .seq (.star isSpaceRe) <| .seq endpointRequestRe <| .seq (.star isSpaceRe) endpointReturnsRe

/-- Pattern ``type\s+(\w+)\s+(?:struct\s*)?{`` of `extractTypes`. -/
def typeRegex : Regexp where
  ngroups := 1
  re :=
    .seq (.lit ['t', 'y', 'p', 'e']) <| .seq (.plus isSpaceRe) <| .seq (.group 1 (.plus isWord)) <|
    .seq (.plus isSpaceRe) <|
    .seq (.opt (.seq (.lit ['s', 't', 'r', 'u', 'c', 't']) (.star isSpaceRe))) (.lit lbrace)

/-- Element `i` of a submatch slice (only read below a length check). -/
def sub (m : Caps) (i : Nat) : Str := m.getD i []

/-- Go `extractServiceName`. -/
def extractServiceName (content : Str) : Str :=
  match apiServiceNameRegex.FindStringSubmatch content with
  | some found => if found.length > 1 then TrimSuffix (sub found 1) ['-', 'a', 'p', 'i'] else []
  | none => []

/-- Loop body of `extractEndpoints`: the endpoint built from one match. -/
def endpointOfMatch (m : Caps) : Option Endpoint :=
  if m.length > 3 then
    some { Handler := sub m 1, Method := ToUpper (sub m 2), Path := sub m 3,
           Request := if m.length > 4 then TrimSpace (sub m 4) else [],
           Response := if m.length > 5 then TrimSpace (sub m 5) else [] }
  else none

/-- Go `extractEndpoints`. -/
def extractEndpoints (content : Str) : List Endpoint :=
  match apiServiceBlockRegex.FindStringSubmatch content with
  | none => []
  | some serviceMatches =>
    if serviceMatches.length < 2 then []
    else (endpointRegex.FindAllStringSubmatch (sub serviceMatches 1)).filterMap endpointOfMatch

/-- Go `extractTypes`. -/
def extractTypes (content : Str) : List Str :=
  (typeRegex.FindAllStringSubmatch content).filterMap
    (fun m => if m.length > 1 then some (sub m 1) else none)

/-- Go `ParseAPISpecification`, given the result of `os.ReadFile(apiFile)`
(`none` when the read fails). -/
def ParseAPISpecification (apiFile : Str) (readResult : Option Str) : Except Err APISpecification :=
  match readResult with
  | none => .error .readFailed
  | some fileContent =>
    let serviceName := extractServiceName fileContent
    if serviceName = [] then .error .noServiceName
    else .ok { FilePath := apiFile, ServiceName := serviceName,
               Endpoints := extractEndpoints fileContent, Types := extractTypes fileContent }

/-! ## `proto_parser.go` -/

/-- One method of a `.proto` service. -/
structure RPCMethod where
  Name : Str
  Request : Str
  Response : Str
  Stream : Str
deriving DecidableEq, Repr

/-- Result of parsing a `.proto` file. -/
structure RPCService where
  FilePath : Str
  ServiceName : Str
  Methods : List RPCMethod
  Messages : List Str
deriving DecidableEq, Repr

/-- Sub-pattern ``[A-Z][a-zA-Z0-9_]*``. -/
def upperIdentRe : Re := .seq (.cls isUpperAZ) (.star isWord)

/-- Pattern ``service\s+([A-Z][a-zA-Z0-9_]*)\s*{`` of `extractRPCServiceName`. -/
def rpcServiceNameRegex : Regexp where
  ngroups := 1
  re :=
    .seq (.lit kwService) <| .seq (.plus isSpaceRe) <| .seq (.group 1 upperIdentRe) <|
    .seq (.star isSpaceRe) (.lit lbrace)

/-- Pattern ``service\s+[A-Z][a-zA-Z0-9_]*\s*{([^}]+)}`` of `extractRPCMethods`. -/
def rpcServiceBlockRegex : Regexp where
  ngroups := 1
  re :=
    .seq (.lit kwService) <| .seq (.plus isSpaceRe) <| .seq upperIdentRe <|
    .seq (.star isSpaceRe) <| .seq (.lit lbrace) <| .seq (.group 1 (.plus notRBrace)) (.lit rbrace)

/-- Pattern ``rpc\s+([A-Z][a-zA-Z0-9_]*)\s*\(([^)]+)\)\s*returns\s*\(([^)]+)\)``
of `extractRPCMethods`. -/
def rpcMethodRegex : Regexp where
  ngroups := 3
  re :=
    .seq (.lit ['r', 'p', 'c']) <| .seq (.plus isSpaceRe) <| .seq (.group 1 upperIdentRe) <|
    .seq (.star isSpaceRe) <| .seq (.lit ['(']) <| .seq (.group 2 (.plus notRParen)) <|
    .seq (.lit [')']) <| .seq (.star isSpaceRe) <| .seq (.lit ['r', 'e', 't', 'u', 'r', 'n', 's']) <|
    .seq (.star isSpaceRe) <| .seq (.lit ['(']) <| .seq (.group 3 (.plus notRParen)) (.lit [')'])

/-- Pattern ``message\s+([A-Z][a-zA-Z0-9_]*)\s*{`` of `extractMessages`. -/
def messageRegex : Regexp where
  ngroups := 1
  re :=
    .seq (.lit ['m', 'e', 's', 's', 'a', 'g', 'e']) <| .seq (.plus isSpaceRe) <|
    .seq (.group 1 upperIdentRe) <| .seq (.star isSpaceRe) (.lit lbrace)

/-- Literal `stream`. -/
def kwStream : Str := ['s', 't', 'r', 'e', 'a', 'm']

/-- Go `extractRPCServiceName`. -/
def extractRPCServiceName (content : Str) : Str :=
  match rpcServiceNameRegex.FindStringSubmatch content with
  | some found => if found.length > 1 then sub found 1 else []
  | none => []

/-- Loop body of `extractRPCMethods`: the method built from one match. -/
def rpcMethodOfMatch (m : Caps) : Option RPCMethod :=
  if m.length > 3 then
    let stream1 : Str := if Contains (sub m 2) kwStream then "request".toList else []
    let stream2 : Str :=
      if Contains (sub m 3) kwStream then
        (if stream1 = "request".toList then "bidirectional".toList else "response".toList)
      else stream1
    some { Name := sub m 1, Request := TrimSpace (sub m 2), Response := TrimSpace (sub m 3),
           Stream := stream2 }
  else none

/-- Go `extractRPCMethods`. -/
def extractRPCMethods (content : Str) : List RPCMethod :=
  match rpcServiceBlockRegex.FindStringSubmatch content with
  | none => []
  | some serviceMatches =>
    if serviceMatches.length < 2 then []
    else (rpcMethodRegex.FindAllStringSubmatch (sub serviceMatches 1)).filterMap rpcMethodOfMatch

/-- Go `extractMessages`. -/
def extractMessages (content : Str) : List Str :=
  (messageRegex.FindAllStringSubmatch content).filterMap
    (fun m => if m.length > 1 then some (sub m 1) else none)

/-- Go `ParseProtoSpecification`, given the result of `os.ReadFile(protoFile)`
(`none` when the read fails). -/
def ParseProtoSpecification (protoFile : Str) (readResult : Option Str) : Except Err RPCService :=
  match readResult with
  | none => .error .readFailed
  | some fileContent =>
    let serviceName := extractRPCServiceName fileContent
    if serviceName = [] then .error .noServiceName
    else .ok { FilePath := protoFile, ServiceName := serviceName,
               Methods := extractRPCMethods fileContent, Messages := extractMessages fileContent }

/-! ## `project_scanner.go` -/

/-- Information about a service of the project. -/
structure EndpointInfo where
  Method : Str
  Path : Str
  Handler : Str
deriving DecidableEq, Repr

/-- An RPC method of a service. -/
structure RPCMethodInfo where
  Name : Str
  Request : Str
  Response : Str
  Stream : Bool
deriving DecidableEq, Repr

/-- A service found in the project; `Type_` (Go `Type`) is "api", "rpc" or "model". -/
structure ServiceInfo where
  Name : Str
  Type_ : Str
  Path : Str
  SpecFile : Str
  Endpoints : List EndpointInfo
  RPCMethods : List RPCMethodInfo
deriving DecidableEq, Repr

/-- A dependency of the project; `Type_` (Go `Type`) is "direct" or "indirect". -/
structure Dependency where
  Name : Str
  Version : Str
  Type_ : Str
deriving DecidableEq, Repr

/-- A configuration file; `Type_` (Go `Type`) is "yaml", "json" or "toml". -/
structure ConfigFile where
  Path : Str
  Type_ : Str
deriving DecidableEq, Repr

/-- High-level statistics. Go `int` counters are modelled by `Nat`: they
count list elements and never wrap. -/
structure ProjectSummary where
  TotalServices : Nat := 0
  APIServices : Nat := 0
  RPCServices : Nat := 0
  ModelServices : Nat := 0
  TotalEndpoints : Nat := 0
  TotalRPCMethods : Nat := 0
  TotalDependencies : Nat := 0
  GoZeroVersion : Str := []
deriving DecidableEq, Repr

/-- Result of `ScanProject`. -/
structure ProjectAnalysis where
  ProjectPath : Str
  Services : List ServiceInfo
  Dependencies : List Dependency
  Configs : List ConfigFile
  Summary : ProjectSummary
deriving DecidableEq, Repr

/-- A directory tree as `filepath.Walk` sees it: entries of a directory in
the (lexical) order in which `Walk` visits them. An entry that cannot be
examined is reported to the callback with an error, for which all three
callbacks return nil without recording anything, so such entries are left
out of the tree. -/
inductive Tree where
  | file (name : Str)
  | dir (name : Str) (entries : List Tree)

/-- Name of a tree node (`info.Name()`). -/
def Tree.name : Tree → Str
  | .file n => n
  | .dir n _ => n

/-- The answers the scanner gets from the operating system. -/
structure FileSystem where
  /-- Go `filepath.Abs`; `none` when it fails. -/
  Abs : Str → Option Str
  /-- Go `os.Stat`: `some isDir`, or `none` when it fails. -/
  Stat : Str → Option Bool
  /-- The tree below a path, `none` when `os.Lstat` of the root fails. -/
  tree : Str → Option Tree
  /-- Go `os.ReadFile`; `none` when it fails. -/
  ReadFile : Str → Option Str

/-- Go `filepath.IsAbs` (Unix). -/
def IsAbs (path : Str) : Bool := ['/'].isPrefixOf path

/-- The elements of a path: the texts between its slashes. -/
def splitSlash : Str → List Str
  | [] => [[]]
  | x :: xs =>
    if x = '/' then [] :: splitSlash xs
    else
      match splitSlash xs with
      | [] => [[x]]
      | l :: ls => (x :: l) :: ls

/-- One element in the loop of `filepath.Clean`, on the elements kept so far
(the last one first): an empty element and `.` are dropped; `..` removes the
last element kept, is dropped at the root, and is kept at the start of a
relative path; any other element is kept. -/
def cleanStep (rooted : Bool) (out : List Str) (elem : Str) : List Str :=
  if elem = [] ∨ elem = ['.'] then out
  else if elem = ['.', '.'] then
    match out with
    | top :: below => if top = ['.', '.'] then elem :: out else below
    | [] => if rooted then [] else [elem]
  else elem :: out

/-- Go `filepath.Clean` (Unix). -/
def Clean (path : Str) : Str :=
  if path = [] then ['.']
  else
    let rooted := ['/'].isPrefixOf path
    let out := ((splitSlash path).foldl (cleanStep rooted) []).reverse
    let cleaned := (if rooted then ['/'] else []) ++ ['/'].intercalate out
    if cleaned = [] then ['.'] else cleaned

/-- Go `filepath.Join` of two elements: the elements from the first
non-empty one on, joined by a slash and cleaned. -/
def Join (dir name : Str) : Str :=
  if dir ≠ [] then Clean (dir ++ '/' :: name)
  else if name ≠ [] then Clean name
  else []

/-- Text before the last slash of a path, slash excluded. -/
def beforeLastSlash : Str → Str
  | [] => []
  | x :: xs => if xs.contains '/' then x :: beforeLastSlash xs else []

/-- Go `filepath.Dir` for the clean paths `filepath.Walk` produces. -/
def Dir (path : Str) : Str :=
  if path.contains '/' then
    (if beforeLastSlash path = [] then ['/'] else beforeLastSlash path)
  else ['.']

/-- Go `filepath.Base` for a path that does not end in a slash. -/
def Base (path : Str) : Str :=
  if path = [] then ['.'] else (path.reverse.takeWhile (fun c => c != '/')).reverse

/-- Go `filepath.Ext`: the suffix from the last dot of the last path element. -/
def Ext (path : Str) : Str :=
  let last := (path.reverse.takeWhile (fun c => c != '/')).reverse
  if last.contains '.' then '.' :: (last.reverse.takeWhile (fun c => c != '.')).reverse else []

/-- Lower-case mapping of one code point: `A`-`Z` go to `a`-`z`, U+0130 to
`i` and the Kelvin sign U+212A to `k`; these are all the code points whose
lower case is ASCII. Other code points are kept: the analyzer only compares
lower-cased text with ASCII text. -/
def lowerChar (c : Char) : Char :=
  if isUpperAZ c then Char.ofNat (c.toNat + 32)
  else if c.toNat == 0x130 then Char.ofNat 105
  else if c.toNat == 0x212A then Char.ofNat 107
  else c

/-- Go `strings.ToLower` (see `lowerChar`). -/
def ToLower (s : Str) : Str := s.map lowerChar

/-- Go `strings.HasPrefix`. -/
def HasPrefix (s pre : Str) : Bool := pre.isPrefixOf s

/-- Go `strings.HasSuffix`. -/
def HasSuffix (s suf : Str) : Bool := suf.isSuffixOf s

/-- Go `strings.TrimPrefix`. -/
def TrimPrefix (s pre : Str) : Str := if pre.isPrefixOf s then s.drop pre.length else s

/-- Go `strings.Split(s, "\n")`. -/
def splitLines : Str → List Str
  | [] => [[]]
  | x :: xs =>
    if x = '\n' then [] :: splitLines xs
    else
      match splitLines xs with
      | [] => [[x]]
      | l :: ls => (x :: l) :: ls

mutual
/-- Go `filepath.Walk` below one node. The callback gets the path, whether the
node is a directory and its name, and answers with the new state and whether it
returned `filepath.SkipDir`; the result says whether `SkipDir` is passed up. -/
def walkNode {σ : Type} (fn : Str → Bool → Str → σ → σ × Bool) (path : Str) : Tree → σ → σ × Bool
  | .file name, s => fn path false name s
  | .dir name entries, s =>
    let r := fn path true name s
    if r.2 then (r.1, true) else (walkEntries fn path entries r.1, false)
/-- The entries of one directory: `SkipDir` from a directory skips that
directory, `SkipDir` from a file skips the rest of the containing directory. -/
def walkEntries {σ : Type} (fn : Str → Bool → Str → σ → σ × Bool) (path : Str) : List Tree → σ → σ
  | [], s => s
  | .file name :: ts, s =>
    let r := walkNode fn (Join path name) (.file name) s
    if r.2 then r.1 else walkEntries fn path ts r.1
  | .dir name entries :: ts, s =>
    let r := walkNode fn (Join path name) (.dir name entries) s
    walkEntries fn path ts r.1
end

/-- Go `filepath.Walk`: with the callbacks of the scanner the walk itself
never fails; a root that cannot be examined is passed to the callback with an
error, which the callbacks ignore. -/
def Walk {σ : Type} (fs : FileSystem) (root : Str) (fn : Str → Bool → Str → σ → σ × Bool)
    (init : σ) : σ :=
  match fs.tree root with
  | none => init
  | some t => (walkNode fn root t init).1

/-- Directory test shared by the three callbacks: hidden, `vendor` and
`node_modules` directories are skipped. -/
def skipDirName (name : Str) : Bool :=
  HasPrefix name ['.'] || name == "vendor".toList || name == "node_modules".toList

/-- Go `discoverAPIFiles`; the second component is the error (always nil). -/
def discoverAPIFiles (fs : FileSystem) (projectPath : Str) : List Str × Option Err :=
  (Walk fs projectPath (fun path isDir name (apiFiles : List Str) =>
    if isDir then (apiFiles, skipDirName name)
    else (if HasSuffix path ".api".toList then apiFiles ++ [path] else apiFiles, false)) [], none)

/-- Go `discoverProtoFiles`; the second component is the error (always nil). -/
def discoverProtoFiles (fs : FileSystem) (projectPath : Str) : List Str × Option Err :=
  (Walk fs projectPath (fun path isDir name (protoFiles : List Str) =>
    if isDir then (protoFiles, skipDirName name)
    else (if HasSuffix path ".proto".toList then protoFiles ++ [path] else protoFiles, false)) [], none)

/-- The `switch ext` of `discoverConfigFiles`. -/
def configTypeOfExt (ext : Str) : Option Str :=
  if ext = ".yaml".toList ∨ ext = ".yml".toList then some "yaml".toList
  else if ext = ".json".toList then some "json".toList
  else if ext = ".toml".toList then some "toml".toList
  else none

/-- Go `discoverConfigFiles`; the second component is the error (always nil). -/
def discoverConfigFiles (fs : FileSystem) (projectPath : Str) : List ConfigFile × Option Err :=
  (Walk fs projectPath (fun path isDir name (configs : List ConfigFile) =>
    if isDir then (configs, skipDirName name)
    else
      match configTypeOfExt (ToLower (Ext path)) with
      | none => (configs, false)
      | some configType =>
        let name := ToLower (Base path)
        if Contains name "config".toList || Contains name "settings".toList ||
            name == "etc.yaml".toList || name == "etc.json".toList then
          (configs ++ [{ Path := path, Type_ := configType }], false)
        else (configs, false)) [], none)

/-- Class ``[a-zA-Z0-9\-\._/]`` of a module path. -/
def isDepNameChar (c : Char) : Bool :=
  isWord c || c.toNat == 45 || c.toNat == 46 || c.toNat == 47

/-- Class ``[0-9\.\-+a-zA-Z]`` of a version. -/
def isDepVersionChar (c : Char) : Bool :=
  isDigit09 c || c.toNat == 46 || c.toNat == 45 || c.toNat == 43 || isLowerAZ c || isUpperAZ c

/-- Pattern ``^\s*([a-zA-Z0-9\-\._/]+)\s+v([0-9\.\-+a-zA-Z]+)`` of `parseDependencies`. -/
def directDepRegex : Regexp where
  ngroups := 2
  anchored := true
  re :=
    .seq (.star isSpaceRe) <| .seq (.group 1 (.plus isDepNameChar)) <| .seq (.plus isSpaceRe) <|
    .seq (.lit ['v']) (.group 2 (.plus isDepVersionChar))

/-- Loop state of `parseDependencies`. -/
structure DepState where
  deps : List Dependency := []
  goZeroVersion : Str := []
  inRequire : Bool := false
deriving DecidableEq, Repr

/-- Literal `go-zero`. -/
def kwGoZero : Str := ['g', 'o', '-', 'z', 'e', 'r', 'o']

/-- One iteration of the line loop of `parseDependencies`. -/
def parseDepLine (st : DepState) (rawLine : Str) : DepState :=
  let line := TrimSpace rawLine
  if HasPrefix line "require (".toList then { st with inRequire := true }
  else if line = [')'] then { st with inRequire := false }
  else if HasPrefix line "require ".toList then
    let line := TrimPrefix line "require ".toList
    match directDepRegex.FindStringSubmatch line with
    | some found =>
      if found.length = 3 then
        let dep : Dependency := { Name := sub found 1, Version := sub found 2, Type_ := "direct".toList }
        { st with deps := st.deps ++ [dep],
                  goZeroVersion := if Contains dep.Name kwGoZero then dep.Version else st.goZeroVersion }
      else st
    | none => st
  else if st.inRequire then
    match directDepRegex.FindStringSubmatch line with
    | some found =>
      if found.length = 3 then
        let depType : Str := if Contains line "// indirect".toList then "indirect".toList else "direct".toList
        let dep : Dependency := { Name := sub found 1, Version := sub found 2, Type_ := depType }
        { st with deps := st.deps ++ [dep],
                  goZeroVersion :=
                    if Contains dep.Name kwGoZero && st.goZeroVersion == [] then dep.Version
                    else st.goZeroVersion }
      else st
    | none => st
  else st

/-- Go `parseDependencies`: dependencies and go-zero version read from
`go.mod` at the project root. -/
def parseDependencies (fs : FileSystem) (projectPath : Str) : Except Err (List Dependency × Str) :=
  match fs.ReadFile (Join projectPath "go.mod".toList) with
  | none => .error .goModUnreadable
  | some content =>
    let st := (splitLines content).foldl parseDepLine {}
    .ok (st.deps, st.goZeroVersion)

/-- Body of the loop over `apiFiles` in `ScanProject`. -/
def scanAPIFile (fs : FileSystem) (analysis : ProjectAnalysis) (apiFile : Str) : ProjectAnalysis :=
  let service : ServiceInfo :=
    { Name := [], Type_ := "api".toList, Path := Dir apiFile, SpecFile := apiFile,
      Endpoints := [], RPCMethods := [] }
  let service : ServiceInfo :=
    match ParseAPISpecification apiFile (fs.ReadFile apiFile) with
    | .ok spec =>
      { service with
        Name := spec.ServiceName,
        Endpoints := spec.Endpoints.foldl (fun acc endpoint =>
          acc ++ [{ Method := endpoint.Method, Path := endpoint.Path, Handler := endpoint.Handler }])
          service.Endpoints }
    | .error _ => service
  { analysis with
    Services := analysis.Services ++ [service],
    Summary := { analysis.Summary with
      APIServices := analysis.Summary.APIServices + 1,
      TotalEndpoints := analysis.Summary.TotalEndpoints + service.Endpoints.length } }

/-- Body of the loop over `protoFiles` in `ScanProject`. -/
def scanProtoFile (fs : FileSystem) (analysis : ProjectAnalysis) (protoFile : Str) : ProjectAnalysis :=
  let service : ServiceInfo :=
    { Name := [], Type_ := "rpc".toList, Path := Dir protoFile, SpecFile := protoFile,
      Endpoints := [], RPCMethods := [] }
  let service : ServiceInfo :=
    match ParseProtoSpecification protoFile (fs.ReadFile protoFile) with
    | .ok spec =>
      { service with
        Name := spec.ServiceName,
        RPCMethods := spec.Methods.foldl (fun acc method =>
          let isStream := Contains method.Stream kwStream
          acc ++ [{ Name := method.Name, Request := method.Request, Response := method.Response,
                    Stream := isStream }])
          service.RPCMethods }
    | .error _ => service
  { analysis with
    Services := analysis.Services ++ [service],
    Summary := { analysis.Summary with
      RPCServices := analysis.Summary.RPCServices + 1,
      TotalRPCMethods := analysis.Summary.TotalRPCMethods + service.RPCMethods.length } }

/-- The part of `ScanProject` after the checks of the project path. -/
def scanDirectory (fs : FileSystem) (projectPath : Str) : ProjectAnalysis :=
  let analysis : ProjectAnalysis :=
    { ProjectPath := projectPath, Services := [], Dependencies := [], Configs := [], Summary := {} }
  let analysis :=
    match discoverAPIFiles fs projectPath with
    | (apiFiles, none) => apiFiles.foldl (scanAPIFile fs) analysis
    | (_, some _) => analysis
  let analysis :=
    match discoverProtoFiles fs projectPath with
    | (protoFiles, none) => protoFiles.foldl (scanProtoFile fs) analysis
    | (_, some _) => analysis
  let analysis :=
    match discoverConfigFiles fs projectPath with
    | (configs, none) => { analysis with Configs := configs }
    | (_, some _) => analysis
  let analysis :=
    match parseDependencies fs projectPath with
    | .ok (deps, goZeroVersion) =>
      { analysis with
        Dependencies := deps,
        Summary := { analysis.Summary with
          TotalDependencies := deps.length, GoZeroVersion := goZeroVersion } }
    | .error _ => analysis
  { analysis with
    Summary := { analysis.Summary with
      TotalServices := analysis.Services.length, ModelServices := 0 } }

/-- Go `ScanProject`. -/
def ScanProject (fs : FileSystem) (projectPath : Str) : Except Err ProjectAnalysis :=
  match (if IsAbs projectPath then some projectPath else fs.Abs projectPath) with
  | none => .error .resolveFailed
  | some projectPath =>
    match fs.Stat projectPath with
    | none => .error .pathNotFound
    | some isDir =>
      if !isDir then .error .notADirectory
      else .ok (scanDirectory fs projectPath)

/-! ## Notions used to state the properties -/

/-- The input starts with a service declaration of the HTTP DSL: the keyword
`service`, white space, a name made of letters, digits, `_` and `-`, optional
white space and an opening brace; `rest` is what follows the brace. -/
def ApiServiceDecl (inp name rest : Str) : Prop :=
  ∃ ws1 ws2, inp = kwService ++ (ws1 ++ (name ++ (ws2 ++ (lbrace ++ rest)))) ∧
    ws1 ≠ [] ∧ (∀ a ∈ ws1, isSpaceRe a = true) ∧ name ≠ [] ∧
    (∀ a ∈ name, isApiNameChar a = true) ∧ (∀ a ∈ ws2, isSpaceRe a = true)

/-- Number of services of a kind. -/
def countType (ty : Str) (services : List ServiceInfo) : Nat :=
  (services.filter (fun s => s.Type_ = ty)).length

/-- The counters that the scan loops maintain agree with the service list. -/
def CountersAgree (a : ProjectAnalysis) : Prop :=
  a.Summary.APIServices = countType "api".toList a.Services ∧
  a.Summary.RPCServices = countType "rpc".toList a.Services ∧
  a.Services.length = a.Summary.APIServices + a.Summary.RPCServices ∧
  a.Summary.TotalEndpoints = (a.Services.map (fun s => s.Endpoints.length)).sum ∧
  a.Summary.TotalRPCMethods = (a.Services.map (fun s => s.RPCMethods.length)).sum

/-- The service entry that `scanAPIFile` appends. -/
def apiServiceEntry (fs : FileSystem) (apiFile : Str) : ServiceInfo :=
  match ParseAPISpecification apiFile (fs.ReadFile apiFile) with
  | .ok spec =>
    { Name := spec.ServiceName, Type_ := "api".toList, Path := Dir apiFile, SpecFile := apiFile,
      Endpoints := spec.Endpoints.map (fun e => { Method := e.Method, Path := e.Path, Handler := e.Handler }),
      RPCMethods := [] }
  | .error _ =>
    { Name := [], Type_ := "api".toList, Path := Dir apiFile, SpecFile := apiFile,
      Endpoints := [], RPCMethods := [] }

/-- The service entry that `scanProtoFile` appends. -/
def rpcServiceEntry (fs : FileSystem) (protoFile : Str) : ServiceInfo :=
  match ParseProtoSpecification protoFile (fs.ReadFile protoFile) with
  | .ok spec =>
    { Name := spec.ServiceName, Type_ := "rpc".toList, Path := Dir protoFile, SpecFile := protoFile,
      Endpoints := [],
      RPCMethods := spec.Methods.map (fun m =>
        { Name := m.Name, Request := m.Request, Response := m.Response,
          Stream := Contains m.Stream kwStream }) }
  | .error _ =>
    { Name := [], Type_ := "rpc".toList, Path := Dir protoFile, SpecFile := protoFile,
      Endpoints := [], RPCMethods := [] }

/-- The analysis after the two loops over the discovered files. -/
def afterLoops (fs : FileSystem) (projectPath : Str) : ProjectAnalysis :=
  (discoverProtoFiles fs projectPath).1.foldl (scanProtoFile fs)
    ((discoverAPIFiles fs projectPath).1.foldl (scanAPIFile fs)
      { ProjectPath := projectPath, Services := [], Dependencies := [], Configs := [], Summary := {} })

/-- Literal `-api`. -/
def dashApi : Str := ['-', 'a', 'p', 'i']

/-- Some service declaration of the HTTP DSL occurs in the text. -/
def HasApiServiceDecl (content : Str) : Prop :=
  ∃ pre suf name rest, content = pre ++ suf ∧ ApiServiceDecl suf name rest

/-- The first service declaration of the HTTP DSL in the text starts after
`pre`, has the given name and is followed by `rest`: no declaration starts
at an earlier position. -/
def FirstApiServiceDecl (content pre name rest : Str) : Prop :=
  ∃ suf, content = pre ++ suf ∧ ApiServiceDecl suf name rest ∧
    ∀ p1 p2, pre = p1 ++ p2 → p2 ≠ [] → ∀ n r, ¬ ApiServiceDecl (p2 ++ suf) n r

/-- A project with a single `.api` file that declares no service. -/
def brokenApiFS : FileSystem where
  Abs := fun p => some p
  Stat := fun _ => some true
  tree := fun _ => some (.dir "proj".toList [.file "bad.api".toList])
  ReadFile := fun p => if p = "/proj/bad.api".toList then some "type Req \x7b\x7d".toList else none

/-- A project with one `.api` file and one `.proto` file. -/
def sampleFS : FileSystem where
  Abs := fun p => some p
  Stat := fun _ => some true
  tree := fun _ => some (.dir "proj".toList [.file "user.api".toList, .file "user.proto".toList])
  ReadFile := fun p =>
    if p = "/proj/user.api".toList then
      some "service foo-api \x7b @handler H\n get /x \x7d".toList
    else if p = "/proj/user.proto".toList then
      some "service Foo \x7b rpc M(stream Req) returns (Resp) \x7d".toList
    else none

/-- No occurrence of the keyword `service` in the text is followed, after any
white space, by an upper-case letter `A`-`Z`: whatever identifier follows the
keyword starts with something else, such as a lower-case letter. -/
def noUpperServiceIdent : Str → Bool
  | [] => true
  | x :: xs =>
    (!(kwService.isPrefixOf (x :: xs)) ||
      !((((x :: xs).drop 7).dropWhile isSpaceRe).head?.any isUpperAZ)) &&
    noUpperServiceIdent xs

/-- The input starts with a service declaration of the RPC DSL that the name
pattern accepts: the keyword `service`, white space, an identifier made of an
upper-case letter `A`-`Z` and word characters, optional white space and an
opening brace; `rest` is what follows the brace. -/
def RpcServiceDecl (inp name rest : Str) : Prop :=
  ∃ ws1 ws2 u ident, inp = kwService ++ (ws1 ++ (name ++ (ws2 ++ (lbrace ++ rest)))) ∧
    ws1 ≠ [] ∧ (∀ a ∈ ws1, isSpaceRe a = true) ∧ name = u :: ident ∧ isUpperAZ u = true ∧
    (∀ a ∈ ident, isWord a = true) ∧ (∀ a ∈ ws2, isSpaceRe a = true)

/-- Some service declaration with an upper-case identifier occurs in the
text, at any position (inside a comment too). -/
def HasRpcServiceDecl (content : Str) : Prop :=
  ∃ pre suf name rest, content = pre ++ suf ∧ RpcServiceDecl suf name rest

/-- Literal `@handler`. -/
def kwHandler : Str := ['@', 'h', 'a', 'n', 'd', 'l', 'e', 'r']

/-- The pattern contains capture group `j`. -/
def Re.hasGroup : Re → Nat → Bool
  | .lit _, _ => false
  | .cls _, _ => false
  | .star _, _ => false
  | .plus _, _ => false
  | .seq a b, j => a.hasGroup j || b.hasGroup j
  | .group i r, j => i == j || r.hasGroup j
  | .opt r, j => r.hasGroup j

/-- The input starts with a service block of the HTTP DSL: a service
declaration, a non-empty body without closing brace, and the closing brace;
`rest` is what follows the closing brace. -/
def ApiServiceBlock (inp name body rest : Str) : Prop :=
  ∃ ws1 ws2, inp = kwService ++ (ws1 ++ (name ++ (ws2 ++ (lbrace ++ (body ++ (rbrace ++ rest)))))) ∧
    ws1 ≠ [] ∧ (∀ a ∈ ws1, isSpaceRe a = true) ∧ name ≠ [] ∧
    (∀ a ∈ name, isApiNameChar a = true) ∧ (∀ a ∈ ws2, isSpaceRe a = true) ∧
    body ≠ [] ∧ (∀ a ∈ body, notRBrace a = true)

/-- The service block of the example: `service foo-api { @handler H\n get /x }`. -/
def fooApiBlock : Str := "service foo-api \x7b @handler H\n get /x \x7d".toList

/-- No service declaration of the HTTP DSL starts inside `pre` when `pre` is
followed by `suf`. -/
def NoApiServiceDeclBefore (pre suf : Str) : Prop :=
  ∀ p1 p2, pre = p1 ++ p2 → p2 ≠ [] → ∀ n r, ¬ ApiServiceDecl (p2 ++ suf) n r

/-- Reading a text from left to right for items: `P inp a rest` says that the
text `inp` starts with the item `a`, followed by `rest`. Where an item starts
it is taken and reading goes on after it; elsewhere one character is passed.
`Scan P s out` says that reading `s` this way yields the items `out`, in
order. -/
inductive Scan {α : Type} (P : Str → α → Str → Prop) : Str → List α → Prop
  | done : Scan P [] []
  | skip (x : Char) (xs : Str) (out : List α) :
      (∀ a r, ¬ P (x :: xs) a r) → Scan P xs out → Scan P (x :: xs) out
  | take (inp : Str) (a : α) (rest : Str) (out : List α) :
      P inp a rest → Scan P rest out → Scan P inp (a :: out)

/-- Every match of the pattern is non-empty. -/
def NonEmptyMatches (r : Regexp) : Prop :=
  ∀ inp caps rest, r.matchHere inp = some (caps, rest) → rest.length < inp.length

/-- Literal `type`. -/
def kwType : Str := ['t', 'y', 'p', 'e']

/-- Literal `struct`. -/
def kwStruct : Str := ['s', 't', 'r', 'u', 'c', 't']

/-- The input starts with a type declaration of the HTTP DSL, `type Name {` or
`type Name struct {`: the keyword `type`, white space, a name of word
characters, white space, optionally the keyword `struct` and optional white
space, and an opening brace; `rest` is what follows the brace. -/
def TypeDecl (inp name rest : Str) : Prop :=
  ∃ ws1 ws2 kw, inp = kwType ++ (ws1 ++ (name ++ (ws2 ++ (kw ++ (lbrace ++ rest))))) ∧
    ws1 ≠ [] ∧ (∀ a ∈ ws1, isSpaceRe a = true) ∧ name ≠ [] ∧ (∀ a ∈ name, isWord a = true) ∧
    ws2 ≠ [] ∧ (∀ a ∈ ws2, isSpaceRe a = true) ∧
    (kw = [] ∨ ∃ ws3, kw = kwStruct ++ ws3 ∧ ∀ a ∈ ws3, isSpaceRe a = true)

/-- Some service block of the HTTP DSL occurs in the text. -/
def HasApiServiceBlock (content : Str) : Prop :=
  ∃ pre suf name body rest, content = pre ++ suf ∧ ApiServiceBlock suf name body rest

/-- The first service block of the HTTP DSL in the text starts after `pre`,
has the given name and body and is followed by `rest`: no service block
starts at an earlier position. -/
def FirstApiServiceBlock (content pre name body rest : Str) : Prop :=
  ∃ suf, content = pre ++ suf ∧ ApiServiceBlock suf name body rest ∧
    ∀ p1 p2, pre = p1 ++ p2 → p2 ≠ [] → ∀ n b r, ¬ ApiServiceBlock (p2 ++ suf) n b r

/-- The input starts with a handler declaration that yields endpoint `e`:
the handler pattern matches at the start of the input, leaving `rest`, and
`e` is the endpoint built from the match. -/
def HandlerDecl (inp : Str) (e : Endpoint) (rest : Str) : Prop :=
  ∃ caps, endpointRegex.matchHere inp = some (caps, rest) ∧ endpointOfMatch caps = some e

/-! ## `tools/analyze_project.go`: the analysis cache -/

/-- Go `cacheEntry`: a cached analysis and the time it was stored. Times are
instants of the clock in nanoseconds. -/
structure CacheEntry where
  analysis : ProjectAnalysis
  timestamp : Int

/-- The map `cache.entries`, from project path to entry. The lock `cache.mu`
serialises the operations; each is modelled as one atomic step on the map. -/
abbrev CacheEntries := Str → Option CacheEntry

/-- Go `cacheTTL = 5 * time.Minute`, in nanoseconds. -/
def cacheTTL : Int := 5 * 60 * 1000000000

/-- Go `getCachedAnalysis`, at clock reading `now`: `time.Since(entry.timestamp)`
is `now - entry.timestamp`; `none` is the nil result. -/
def getCachedAnalysis (entries : CacheEntries) (now : Int) (projectPath : Str) :
    Option ProjectAnalysis :=
  match entries projectPath with
  | none => none
  | some entry => if now - entry.timestamp > cacheTTL then none else some entry.analysis

/-- Go `cacheAnalysis`, at clock reading `now`: the new map. -/
def cacheAnalysis (entries : CacheEntries) (now : Int) (projectPath : Str)
    (analysis : ProjectAnalysis) : CacheEntries :=
  fun path => if path = projectPath then some { analysis := analysis, timestamp := now }
    else entries path

/-! ## More notions used to state the properties -/

/-- The line loop of `parseDependencies` on the text of `go.mod`: dependencies
and go-zero version. -/
def parseManifest (content : Str) : List Dependency × Str :=
  (((splitLines content).foldl parseDepLine {}).deps,
   ((splitLines content).foldl parseDepLine {}).goZeroVersion)

/-- A file system that holds the given text in every file. -/
def manifestFS (text : Str) : FileSystem where
  Abs := fun p => some p
  Stat := fun _ => some true
  tree := fun _ => none
  ReadFile := fun _ => some text

mutual
/-- The files that a pruning walk visits below a node, in order: nothing below
a directory whose name is skipped. -/
def visibleFiles (path : Str) : Tree → List Str
  | .file _ => [path]
  | .dir name entries => if skipDirName name then [] else visibleEntries path entries
/-- The files that a pruning walk visits in the entries of a directory. -/
def visibleEntries (path : Str) : List Tree → List Str
  | [] => []
  | .file name :: ts => visibleFiles (Join path name) (.file name) ++ visibleEntries path ts
  | .dir name entries :: ts =>
    visibleFiles (Join path name) (.dir name entries) ++ visibleEntries path ts
end

/-- The files that the walks of the scanner visit from a root path. -/
def visibleFrom (fs : FileSystem) (root : Str) : List Str :=
  match fs.tree root with
  | none => []
  | some t => visibleFiles root t

/-- `FileBelow path t dirs file`: the tree `t`, found at `path`, holds a file
with path `file`, and `dirs` are the names of the directories passed on the
way down to it, `t` itself included when it is a directory. -/
inductive FileBelow : Str → Tree → List Str → Str → Prop
  | file (path name : Str) : FileBelow path (.file name) [] path
  | dir (path name : Str) (entries : List Tree) (t : Tree) (dirs : List Str) (file : Str) :
      t ∈ entries → FileBelow (Join path t.name) t dirs file →
      FileBelow path (.dir name entries) (name :: dirs) file

/-- The test of `discoverConfigFiles` on the path of a file: the type of the
configuration file, if it is one. -/
def configFileType (path : Str) : Option Str :=
  match configTypeOfExt (ToLower (Ext path)) with
  | none => none
  | some configType =>
    if Contains (ToLower (Base path)) "config".toList ||
        Contains (ToLower (Base path)) "settings".toList ||
        ToLower (Base path) == "etc.yaml".toList || ToLower (Base path) == "etc.json".toList then
      some configType
    else none

/-- A file system in which path resolution and `os.Stat` answer as given and
nothing else exists. -/
def statFS (abs : Option Str) (stat : Option Bool) : FileSystem where
  Abs := fun _ => abs
  Stat := fun _ => stat
  tree := fun _ => none
  ReadFile := fun _ => none

/-- An analysis of an empty project at `/p`. -/
def emptyAnalysis : ProjectAnalysis :=
  { ProjectPath := "/p".toList, Services := [], Dependencies := [], Configs := [], Summary := {} }

/-- A cache with one entry, for `/p`, stored at time 0. -/
def oneEntryCache : CacheEntries :=
  cacheAnalysis (fun _ => none) 0 "/p".toList emptyAnalysis

/-- Streaming direction in the words of the specification, from the texts of
the request and response parentheses: "request" when only the request text
contains `stream`, "response" when only the response text does,
"bidirectional" when both do, and no direction (the empty string) when neither
does. -/
def specStreamDirection (req resp : Str) : Str :=
  if Contains req kwStream then
    (if Contains resp kwStream then "bidirectional".toList else "request".toList)
  else (if Contains resp kwStream then "response".toList else [])

/-- Literal `rpc`. -/
def kwRpc : Str := ['r', 'p', 'c']

/-- Literal `returns`. -/
def kwReturns : Str := ['r', 'e', 't', 'u', 'r', 'n', 's']

/-- The input starts with a method declaration of the RPC DSL:
`rpc Name (req) returns (resp)`, with optional white space around the
parentheses; `rest` is what follows. -/
def RpcMethodDecl (inp name req resp rest : Str) : Prop :=
  ∃ ws1 ws2 ws3 ws4,
    inp = kwRpc ++ (ws1 ++ (name ++ (ws2 ++ ('(' :: (req ++ (')' :: (ws3 ++ (kwReturns ++
      (ws4 ++ ('(' :: (resp ++ (')' :: rest)))))))))))) ∧
    ws1 ≠ [] ∧ (∀ a ∈ ws1, isSpaceRe a = true) ∧
    (∃ u ident, name = u :: ident ∧ isUpperAZ u = true ∧ ∀ a ∈ ident, isWord a = true) ∧
    (∀ a ∈ ws2, isSpaceRe a = true) ∧
    req ≠ [] ∧ (∀ a ∈ req, notRParen a = true) ∧
    (∀ a ∈ ws3, isSpaceRe a = true) ∧ (∀ a ∈ ws4, isSpaceRe a = true) ∧
    resp ≠ [] ∧ (∀ a ∈ resp, notRParen a = true)

/-- The shape shared by the three walk callbacks: a directory with a skipped
name is pruned, a file updates the state. -/
def pruneFn {σ : Type} (onFile : Str → σ → σ) : Str → Bool → Str → σ → σ × Bool :=
  fun path isDir name s => if isDir then (s, skipDirName name) else (onFile path s, false)

/-- A project with spec and config files at the top, in a sub-directory, and
below `vendor`, `node_modules` and a hidden directory. -/
def vendoredFS : FileSystem where
  Abs := fun p => some p
  Stat := fun _ => some true
  tree := fun _ => some (.dir "proj".toList
    [.file "a.api".toList,
     .file "config.yaml".toList,
     .dir ".git".toList [.file "config.json".toList],
     .dir "node_modules".toList [.dir "pkg".toList [.file "settings.json".toList]],
     .dir "sub".toList [.file "b.proto".toList, .dir "vendor".toList [.file "d.api".toList]],
     .dir "vendor".toList [.file "c.api".toList, .dir "deep".toList [.file "e.proto".toList]]])
  ReadFile := fun _ => none

/-- The project of the configuration test: `config.yaml`, `settings.json` and
`etc.yaml` at the top of the project, next to a file that is no configuration
file. -/
def configFS : FileSystem where
  Abs := fun p => some p
  Stat := fun _ => some true
  tree := fun _ => some (.dir "proj".toList
    [.file "config.yaml".toList, .file "etc.yaml".toList, .file "notes.yaml".toList,
     .file "settings.json".toList])
  ReadFile := fun _ => none

/-! ## `tools/analyze_project.go`: the tool -/

/-- Go `AnalyzeProjectParams`. -/
structure AnalyzeProjectParams where
  ProjectPath : Str

/-- The `data` map that `formatAnalysisResult` builds, one field per key. -/
structure AnalysisData where
  project_path : Str
  total_services : Nat
  api_services : Nat
  rpc_services : Nat
  total_endpoints : Nat
  total_rpc_methods : Nat
  dependencies : Nat
  go_zero_version : Str
  from_cache : Bool
deriving DecidableEq, Repr

/-- Go `formatAnalysisResult`: the `data` map of the result, which
`responses.FormatSuccessWithData` returns as it is (a map of strings, numbers
and a boolean always serialises). The text message, built from the same two
arguments, is left out. -/
def formatAnalysisResult (analysis : ProjectAnalysis) (fromCache : Bool) : AnalysisData :=
  { project_path := analysis.ProjectPath,
    total_services := analysis.Summary.TotalServices,
    api_services := analysis.Summary.APIServices,
    rpc_services := analysis.Summary.RPCServices,
    total_endpoints := analysis.Summary.TotalEndpoints,
    total_rpc_methods := analysis.Summary.TotalRPCMethods,
    dependencies := analysis.Summary.TotalDependencies,
    go_zero_version := analysis.Summary.GoZeroVersion,
    from_cache := fromCache }

/-- What `AnalyzeProject` returns: one of the two `responses.FormatError`
results or the data of `formatAnalysisResult`. -/
inductive AnalyzeOutcome where
  /-- Result "failed to resolve project path". -/
  | resolveFailed
  /-- Result "failed to analyze project", with the error of `ScanProject`. -/
  | analyzeFailed (err : Err)
  /-- Result of `formatAnalysisResult`. -/
  | success (data : AnalysisData)
deriving DecidableEq, Repr

/-- One call of `AnalyzeProject`: what it returns, the cache map it leaves,
and whether the call reached `analyzer.ScanProject`. -/
structure AnalyzeStep where
  outcome : AnalyzeOutcome
  entries : CacheEntries
  scanned : Bool

/-- Go `AnalyzeProject`. `cwd` is the answer of `os.Getwd` (empty when it
fails), `entries` the cache map before the call, `tGet` the clock reading of
`time.Since` in `getCachedAnalysis` and `tPut` that of `time.Now` in
`cacheAnalysis`. -/
def AnalyzeProject (fs : FileSystem) (cwd : Str) (entries : CacheEntries) (tGet tPut : Int)
    (params : AnalyzeProjectParams) : AnalyzeStep :=
  let projectPath := if params.ProjectPath = [] then cwd else params.ProjectPath
  match (if !IsAbs projectPath then fs.Abs projectPath else some projectPath) with
  | none => { outcome := .resolveFailed, entries := entries, scanned := false }
  | some projectPath =>
    match getCachedAnalysis entries tGet projectPath with
    | some cachedAnalysis =>
      { outcome := .success (formatAnalysisResult cachedAnalysis true), entries := entries,
        scanned := false }
    | none =>
      match ScanProject fs projectPath with
      | .error err => { outcome := .analyzeFailed err, entries := entries, scanned := true }
      | .ok analysis =>
        { outcome := .success (formatAnalysisResult analysis false),
          entries := cacheAnalysis entries tPut projectPath analysis, scanned := true }

/-! ## Notions used to state the cache properties -/

/-- The cache map after a sequence of calls of `cacheAnalysis`, given as
(clock reading, path, analysis), on the empty map that `cache` starts with. -/
def cacheAfter (puts : List (Int × Str × ProjectAnalysis)) : CacheEntries :=
  puts.foldl (fun entries put => cacheAnalysis entries put.1 put.2.1 put.2.2) (fun _ => none)

/-- The path that `AnalyzeProject` looks up in the cache and scans: the
parameter, or the working directory when the parameter is empty, made
absolute; `none` when `filepath.Abs` fails. -/
def resolvedPath (fs : FileSystem) (cwd : Str) (params : AnalyzeProjectParams) : Option Str :=
  let projectPath := if params.ProjectPath = [] then cwd else params.ProjectPath
  if !IsAbs projectPath then fs.Abs projectPath else some projectPath

/-! ## `internal/validation/service_name.go` -/

/-- The range tables `unicode.Letter` and `unicode.Digit` of Go's package
`unicode`, as predicates. Go consults them for code points above U+00FF
only; their content depends on the Unicode version of the Go release. -/
structure UnicodeTables where
  Letter : Char → Bool
  Digit : Char → Bool

/-- The letters of Latin-1 (categories Lu, Ll and Lo in Go's `properties`
table): `A`-`Z`, `a`-`z`, U+00AA, U+00B5, U+00BA, U+00C0-U+00D6,
U+00D8-U+00F6 and U+00F8-U+00FF. -/
def isLatin1Letter (c : Char) : Bool :=
  isUpperAZ c || isLowerAZ c || c.toNat == 0xAA || c.toNat == 0xB5 || c.toNat == 0xBA ||
  (decide (0xC0 ≤ c.toNat) && decide (c.toNat ≤ 0xD6)) ||
  (decide (0xD8 ≤ c.toNat) && decide (c.toNat ≤ 0xF6)) ||
  (decide (0xF8 ≤ c.toNat) && decide (c.toNat ≤ 0xFF))

/-- Tables without entries. Text made of code points up to U+00FF is
classified without the tables, so results on such text are the same for all
tables. -/
def emptyTables : UnicodeTables := { Letter := fun _ => false, Digit := fun _ => false }

/-- Go `unicode.IsLetter`. -/
def IsLetter (u : UnicodeTables) (r : Char) : Bool :=
  if r.toNat ≤ 0xFF then isLatin1Letter r else u.Letter r

/-- Go `unicode.IsDigit`. -/
def IsDigit (u : UnicodeTables) (r : Char) : Bool :=
  if r.toNat ≤ 0xFF then isDigit09 r else u.Digit r

/-- The first byte of the UTF-8 encoding of a code point. -/
def utf8FirstByte (c : Char) : Nat :=
  if c.toNat < 0x80 then c.toNat
  else if c.toNat < 0x800 then 0xC0 + c.toNat / 0x40
  else if c.toNat < 0x10000 then 0xE0 + c.toNat / 0x1000
  else 0xF0 + c.toNat / 0x40000

/-- Replacement loop of `strings.ReplaceAll` for a non-empty `old`; `skip`
counts the characters of the current occurrence still to be passed. -/
def replaceAux (old new : Str) : Str → Nat → Str
  | [], _ => []
  | _ :: xs, skip + 1 => replaceAux old new xs skip
  | x :: xs, 0 =>
    if old.isPrefixOf (x :: xs) then new ++ replaceAux old new xs (old.length - 1)
    else x :: replaceAux old new xs 0

/-- Go `strings.ReplaceAll`. An empty `old` matches before every code point
and at the end of the text. -/
def ReplaceAll (s old new : Str) : Str :=
  if old = [] then new ++ s.flatMap (fun c => c :: new) else replaceAux old new s 0

/-- Class `[a-zA-Z]`. -/
def isLetterAZ (c : Char) : Bool := isUpperAZ c || isLowerAZ c

/-- The pattern ``^[a-zA-Z][a-zA-Z0-9_]*$`` of `ValidateServiceName`, between
its anchors. -/
def validIdentifier : Re := .seq (.cls isLetterAZ) (.star isWord)

/-- Go `(*Regexp).MatchString` for a pattern `^re$`, anchored at both ends of
the text: some way of matching `re` takes the whole text. -/
def Re.MatchString (re : Re) (s : Str) : Bool :=
  (re.run s []).any (fun m => m.2.1.isEmpty)

/-- The errors of `ValidateServiceName`, one per `fmt.Errorf`. -/
inductive NameError where
  /-- Message "service name cannot be empty". -/
  | empty
  /-- Message "service name must start with a letter, got ...". -/
  | notLetter (firstRune : Char)
  /-- Message "service name cannot contain hyphens, try: ...". -/
  | hyphen (suggestion : Str)
  /-- Message "service name must be a valid Go identifier ...". -/
  | notIdentifier
deriving DecidableEq, Repr

/-- Go `ValidateServiceName`; `none` is the nil error. `name[0]` is the first
byte of the name. -/
def ValidateServiceName (u : UnicodeTables) (name : Str) : Option NameError :=
  match name with
  | [] => some .empty
  | c :: _ =>
    let firstRune := Char.ofNat (utf8FirstByte c)
    if !IsLetter u firstRune then some (.notLetter firstRune)
    else if Contains name ['-'] then some (.hyphen (ReplaceAll name ['-'] ['_']))
    else if !validIdentifier.MatchString name then some .notIdentifier
    else none

/-- Body of the loop of `SuggestServiceName`, for the code point `r` at byte
offset `i`, on the text written so far. -/
def suggestRune (u : UnicodeTables) (result : Str) (i : Nat) (r : Char) : Str :=
  if i = 0 then
    if IsLetter u r then result ++ [r]
    else
      let result := result ++ ['s']
      if IsDigit u r || r = '_' then result ++ [r] else result
  else
    if IsLetter u r || IsDigit u r || r = '_' then result ++ [r] else result

/-- The loop `for i, r := range suggested` of `SuggestServiceName`: `i` is
the byte offset of the code point `r`. -/
def suggestLoop (u : UnicodeTables) : Str → Nat → Str → Str
  | [], _, result => result
  | r :: rest, i, result => suggestLoop u rest (i + r.utf8Size) (suggestRune u result i r)

/-- Go `SuggestServiceName`. -/
def SuggestServiceName (u : UnicodeTables) (name : Str) : Str :=
  suggestLoop u (ReplaceAll name ['-'] ['_']) 0 []

/-! ## `internal/validation/port.go` -/

/-- The answers of the network stack: whether `net.Listen("tcp", ":port")`
succeeds. -/
structure Network where
  Listen : Int → Bool

/-- The errors of `ValidatePort`. -/
inductive PortError where
  /-- Message "port must be between 1024 and 65535, got ...". -/
  | outOfRange (port : Int)
  /-- Message "port ... is already in use". -/
  | inUse (port : Int)
deriving DecidableEq, Repr

/-- Go `isPortInUse`. -/
def isPortInUse (net : Network) (port : Int) : Bool :=
  if !net.Listen port then true else false

/-- Go `ValidatePort`; `none` is the nil error. -/
def ValidatePort (net : Network) (port : Int) : Option PortError :=
  if port < 1024 ∨ port > 65535 then some (.outOfRange port)
  else if isPortInUse net port then some (.inUse port)
  else none

/-! ## `internal/validation/config.go` -/

/-- A `float64` as the comparisons of the validators see it: not a number,
an infinity, or a finite value (a rational number). -/
inductive Float64 where
  | nan
  | negInf
  | posInf
  | finite (q : ℚ)

/-- Go `x < c` for a `float64` `x` and a constant `c`; false for NaN. -/
def Float64.lt (x : Float64) (c : ℚ) : Bool :=
  match x with
  | .nan => false
  | .negInf => true
  | .posInf => false
  | .finite q => decide (q < c)

/-- Go `x > c` for a `float64` `x` and a constant `c`; false for NaN. -/
def Float64.gt (x : Float64) (c : ℚ) : Bool :=
  match x with
  | .nan => false
  | .negInf => false
  | .posInf => true
  | .finite q => decide (q > c)

/-- Go `x <= c` for a `float64` `x` and a constant `c`; false for NaN. -/
def Float64.le (x : Float64) (c : ℚ) : Bool :=
  match x with
  | .nan => false
  | .negInf => true
  | .posInf => false
  | .finite q => decide (q ≤ c)

/-- A value of type `interface{}` in a configuration map, by dynamic type:
the types that the validators assert, and `other` for the nil interface and
every other dynamic type, for which all their assertions fail. -/
inductive Value where
  | string (s : Str)
  | float64 (x : Float64)
  | int (n : Int)
  | map (m : List (Str × Value))
  | slice (xs : List Value)
  | other

/-- A configuration map `map[string]interface{}` as a list of key-value
pairs; the first pair of a key is its entry. -/
abbrev Config := List (Str × Value)

/-- Go `ConfigError`; `Value` is `none` where the source sets no value. -/
structure ConfigError where
  Field : Str
  Message : Str
  Value : Option Value := none

/-- Go `ConfigWarning`. -/
structure ConfigWarning where
  Field : Str
  Message : Str
  Suggestion : Str

/-- Go `ConfigValidationResult`. -/
structure ConfigValidationResult where
  Valid : Bool
  Errors : List ConfigError
  Warnings : List ConfigWarning

/-- Go `contains`. -/
def contains (slice : List Str) (item : Str) : Bool :=
  match slice with
  | [] => false
  | s :: rest => if s = item then true else contains rest item

/-- The loop over `requiredFields` of both validators ("Check required
fields"). -/
def checkRequiredFields (config : Config) (requiredFields : List Str)
    (result : ConfigValidationResult) : ConfigValidationResult :=
  requiredFields.foldl (fun result field =>
    match config.lookup field with
    | none =>
      { result with
        Valid := false,
        Errors := result.Errors ++
          [{ Field := field,
             Message := "required field '".toList ++ field ++ "' is missing".toList }] }
    | some _ => result) result

/-- Section "Validate Name" of `ValidateAPIConfig`. -/
def validateNameField (config : Config) (result : ConfigValidationResult) : ConfigValidationResult :=
  match config.lookup "Name".toList with
  | some (.string name) =>
    if name = [] then
      { result with
        Valid := false,
        Errors := result.Errors ++
          [{ Field := "Name".toList, Message := "service name cannot be empty".toList }] }
    else result
  | _ => result

/-- Section "Validate Host" of `ValidateAPIConfig`. -/
def validateHostField (config : Config) (result : ConfigValidationResult) : ConfigValidationResult :=
  match config.lookup "Host".toList with
  | some (.string host) =>
    if host = [] then
      { result with
        Warnings := result.Warnings ++
          [{ Field := "Host".toList, Message := "host is empty, will default to 0.0.0.0".toList,
             Suggestion := "Set explicit host value for production".toList }] }
    else result
  | _ => result

/-- Section "Validate Port" of `ValidateAPIConfig`. -/
def validatePortField (config : Config) (result : ConfigValidationResult) : ConfigValidationResult :=
  match config.lookup "Port".toList with
  | some (.float64 port) =>
    if port.lt 1 || port.gt 65535 then
      { result with
        Valid := false,
        Errors := result.Errors ++
          [{ Field := "Port".toList, Message := "port must be between 1 and 65535".toList,
             Value := some (.float64 port) }] }
    else if port.lt 1024 then
      { result with
        Warnings := result.Warnings ++
          [{ Field := "Port".toList, Message := "using privileged port (< 1024)".toList,
             Suggestion := "Consider using port > 1024 for non-root services".toList }] }
    else result
  | some (.int portInt) =>
    if portInt < 1 ∨ portInt > 65535 then
      { result with
        Valid := false,
        Errors := result.Errors ++
          [{ Field := "Port".toList, Message := "port must be between 1 and 65535".toList,
             Value := some (.int portInt) }] }
    else result
  | _ => result

/-- Section "Check Timeout settings" of `ValidateAPIConfig`. -/
def checkTimeout (config : Config) (result : ConfigValidationResult) : ConfigValidationResult :=
  match config.lookup "Timeout".toList with
  | some (.float64 timeout) =>
    if timeout.le 0 then
      { result with
        Warnings := result.Warnings ++
          [{ Field := "Timeout".toList, Message := "timeout is zero or negative".toList,
             Suggestion := "Set a reasonable timeout (e.g., 3000ms)".toList }] }
    else result
  | _ => result

/-- Section "Check Log settings" of `ValidateAPIConfig`. -/
def checkLog (config : Config) (result : ConfigValidationResult) : ConfigValidationResult :=
  match config.lookup "Log".toList with
  | some (.map log) =>
    match log.lookup "Mode".toList with
    | some (.string mode) =>
      if !contains ["console".toList, "file".toList, "volume".toList] mode then
        { result with
          Warnings := result.Warnings ++
            [{ Field := "Log.Mode".toList,
               Message := "log mode '".toList ++ mode ++ "' may not be valid".toList,
               Suggestion := "Use 'console', 'file', or 'volume'".toList }] }
      else result
    | _ => result
  | _ => result

/-- The check "development settings in production" of `ValidateAPIConfig`. -/
def checkProductionMode (config : Config) (result : ConfigValidationResult) :
    ConfigValidationResult :=
  match config.lookup "Mode".toList with
  | some (.string mode) =>
    if mode = "dev".toList then
      { result with
        Warnings := result.Warnings ++
          [{ Field := "Mode".toList,
             Message := "development mode in production environment".toList,
             Suggestion := "Set Mode to 'prod' for production".toList }] }
    else result
  | _ => result

/-- The check "verbose logging" of `ValidateAPIConfig`. -/
def checkProductionLog (config : Config) (result : ConfigValidationResult) :
    ConfigValidationResult :=
  match config.lookup "Log".toList with
  | some (.map log) =>
    match log.lookup "Level".toList with
    | some (.string level) =>
      if level = "debug".toList then
        { result with
          Warnings := result.Warnings ++
            [{ Field := "Log.Level".toList, Message := "debug logging in production".toList,
               Suggestion := "Use 'info' or 'error' level for production".toList }] }
      else result
    | _ => result
  | _ => result

/-- Section "Production environment checks" of `ValidateAPIConfig`. -/
def checkProduction (config : Config) (result : ConfigValidationResult) :
    ConfigValidationResult :=
  match config.lookup "Environment".toList with
  | some (.string env) =>
    if ToLower env = "production".toList ∨ ToLower env = "prod".toList then
      checkProductionLog config (checkProductionMode config result)
    else result
  | _ => result

/-- Go `ValidateAPIConfig`: the sections of the function in order. -/
def ValidateAPIConfig (config : Config) : ConfigValidationResult :=
  let result : ConfigValidationResult := { Valid := true, Errors := [], Warnings := [] }
  let result :=
    checkRequiredFields config ["Name".toList, "Host".toList, "Port".toList] result
  let result := validateNameField config result
  let result := validateHostField config result
  let result := validatePortField config result
  let result := checkTimeout config result
  let result := checkLog config result
  checkProduction config result

/-- Section "Validate ListenOn format" of `ValidateRPCConfig`. -/
def validateListenOn (config : Config) (result : ConfigValidationResult) :
    ConfigValidationResult :=
  match config.lookup "ListenOn".toList with
  | some (.string listenOn) =>
    if !Contains listenOn [':'] then
      { result with
        Valid := false,
        Errors := result.Errors ++
          [{ Field := "ListenOn".toList,
             Message := "ListenOn must be in format 'host:port'".toList,
             Value := some (.string listenOn) }] }
    else result
  | _ => result

/-- Section "Check Etcd settings if present" of `ValidateRPCConfig`. -/
def checkEtcd (config : Config) (result : ConfigValidationResult) : ConfigValidationResult :=
  match config.lookup "Etcd".toList with
  | some (.map etcd) =>
    match etcd.lookup "Hosts".toList with
    | some (.slice hosts) =>
      if hosts.length = 0 then
        { result with
          Warnings := result.Warnings ++
            [{ Field := "Etcd.Hosts".toList, Message := "etcd hosts list is empty".toList,
               Suggestion := "Provide at least one etcd host for service discovery".toList }] }
      else result
    | _ => result
  | _ => result

/-- Go `ValidateRPCConfig`: the sections of the function in order. -/
def ValidateRPCConfig (config : Config) : ConfigValidationResult :=
  let result : ConfigValidationResult := { Valid := true, Errors := [], Warnings := [] }
  let result := checkRequiredFields config ["Name".toList, "ListenOn".toList] result
  let result := validateListenOn config result
  checkEtcd config result

/-- The flag `Valid` of a result agrees with its list of errors. -/
def ValidIffNoErrors (result : ConfigValidationResult) : Prop :=
  result.Valid = true ↔ result.Errors = []

/-! ## Notions used to state the validation properties -/

/-- The test of `SuggestServiceName` on a code point after the first: a
letter, a digit or an underscore. -/
def keepRune (u : UnicodeTables) (r : Char) : Bool :=
  IsLetter u r || IsDigit u r || decide (r = '_')

/-- The shape of the text that `SuggestServiceName` writes: empty, or a
letter followed by letters, digits and underscores. -/
def SuggestedShape (u : UnicodeTables) (t : Str) : Prop :=
  t = [] ∨ ∃ h tl, t = h :: tl ∧ IsLetter u h = true ∧ ∀ a ∈ tl, keepRune u a = true

/-- A network stack on which port 8080 is taken and every other port is free. -/
def busy8080 : Network := { Listen := fun port => decide (port ≠ 8080) }

/-- A configuration of an HTTP service with an empty host and a zero
timeout. -/
def warnedConfig : Config :=
  [("Name".toList, .string "svc".toList), ("Host".toList, .string []),
   ("Port".toList, .int 80), ("Timeout".toList, .float64 (.finite 0))]

/-- A configuration of an RPC service with a `ListenOn` without colon and an
empty list of etcd hosts. -/
def brokenRpcConfig : Config :=
  [("Name".toList, .string "svc".toList), ("ListenOn".toList, .string "8080".toList),
   ("Etcd".toList, .map [("Hosts".toList, .slice [])])]

/-! # Properties -/

/-! ## Auxiliary facts -/

/-! ## Facts about the matcher -/

theorem mem_starSplits {p : Char → Bool} {inp w r : Str} :
    (w, r) ∈ starSplits p inp ↔ inp = w ++ r ∧ ∀ a ∈ w, p a = true := by
  induction inp generalizing w r with
  | nil =>
    simp only [starSplits, List.mem_singleton, Prod.mk.injEq]
    constructor
    · rintro ⟨rfl, rfl⟩; simp
    · rintro ⟨h, -⟩
      have := List.append_eq_nil.mp h.symm
      exact this
  | cons x xs ih =>
    unfold starSplits
    split
    · rename_i hx
      simp only [List.mem_append, List.mem_map, List.mem_singleton, Prod.mk.injEq, Prod.exists]
      constructor
      · rintro (⟨w1, r1, hm, rfl, rfl⟩ | ⟨rfl, rfl⟩)
        · obtain ⟨h1, h2⟩ := ih.mp hm
          refine ⟨by simp [h1], ?_⟩
          intro a ha
          rcases List.mem_cons.mp ha with rfl | ha
          · exact hx
          · exact h2 a ha
        · simp
      · rintro ⟨h, hall⟩
        cases w with
        | nil => right; simp at h; exact ⟨rfl, h.symm⟩
        | cons y ys =>
          left
          simp only [List.cons_append, List.cons.injEq] at h
          obtain ⟨rfl, h⟩ := h
          exact ⟨ys, r, ih.mpr ⟨h, fun a ha => hall a (List.mem_cons_of_mem _ ha)⟩, rfl, rfl⟩
    · rename_i hx
      simp only [List.mem_singleton, Prod.mk.injEq]
      constructor
      · rintro ⟨rfl, rfl⟩; simp
      · rintro ⟨h, hall⟩
        cases w with
        | nil => simp at h; exact ⟨rfl, h.symm⟩
        | cons y ys =>
          simp only [List.cons_append, List.cons.injEq] at h
          obtain ⟨rfl, -⟩ := h
          exact absurd (hall _ (List.mem_cons_self _ _)) hx

theorem mem_plusSplits {p : Char → Bool} {inp w r : Str} :
    (w, r) ∈ plusSplits p inp ↔ inp = w ++ r ∧ w ≠ [] ∧ ∀ a ∈ w, p a = true := by
  cases inp with
  | nil =>
    simp only [plusSplits, List.not_mem_nil, false_iff]
    rintro ⟨h, hne, -⟩
    exact hne (List.append_eq_nil.mp h.symm).1
  | cons x xs =>
    rw [plusSplits]
    by_cases hx : p x = true
    · simp only [hx, if_true, List.mem_map, Prod.mk.injEq, Prod.exists]
      constructor
      · rintro ⟨w1, r1, hm, rfl, rfl⟩
        obtain ⟨h1, h2⟩ := mem_starSplits.mp hm
        refine ⟨by simp [h1], by simp, ?_⟩
        intro a ha
        rcases List.mem_cons.mp ha with rfl | ha
        · exact hx
        · exact h2 a ha
      · rintro ⟨h, hne, hall⟩
        cases w with
        | nil => exact absurd rfl hne
        | cons y ys =>
          simp only [List.cons_append, List.cons.injEq] at h
          obtain ⟨rfl, h⟩ := h
          exact ⟨ys, r, mem_starSplits.mpr ⟨h, fun a ha => hall a (List.mem_cons_of_mem _ ha)⟩, rfl, rfl⟩
    · rw [if_neg hx]
      simp only [List.not_mem_nil, false_iff]
      rintro ⟨h, hne, hall⟩
      cases w with
      | nil => exact hne rfl
      | cons y ys =>
        simp only [List.cons_append, List.cons.injEq] at h
        obtain ⟨rfl, -⟩ := h
        exact hx (hall _ (List.mem_cons_self _ _))

theorem mem_run_lit {s inp m r : Str} {c c' : Caps} :
    (m, r, c') ∈ (Re.lit s).run inp c ↔ m = s ∧ inp = s ++ r ∧ c' = c := by
  unfold Re.run
  split
  · rename_i h
    have hp : s <+: inp := List.isPrefixOf_iff_prefix.mp h
    obtain ⟨t, rfl⟩ := hp
    simp only [List.mem_singleton, Prod.mk.injEq, List.drop_left, List.append_cancel_left_eq]
    constructor
    · rintro ⟨rfl, rfl, rfl⟩; exact ⟨rfl, rfl, rfl⟩
    · rintro ⟨rfl, rfl, rfl⟩; exact ⟨rfl, rfl, rfl⟩
  · rename_i h
    simp only [List.not_mem_nil, false_iff]
    rintro ⟨-, rfl, -⟩
    exact h (List.isPrefixOf_iff_prefix.mpr (List.prefix_append _ _))

theorem mem_run_cls {p : Char → Bool} {inp m r : Str} {c c' : Caps} :
    (m, r, c') ∈ (Re.cls p).run inp c ↔ ∃ x, p x = true ∧ m = [x] ∧ inp = x :: r ∧ c' = c := by
  unfold Re.run
  cases inp with
  | nil => simp
  | cons x xs =>
    by_cases hx : p x = true
    · simp only [hx, if_true, List.mem_singleton, Prod.mk.injEq, List.cons.injEq]
      constructor
      · rintro ⟨rfl, rfl, rfl⟩; exact ⟨x, hx, rfl, ⟨rfl, rfl⟩, rfl⟩
      · rintro ⟨y, -, rfl, ⟨rfl, rfl⟩, rfl⟩; exact ⟨rfl, rfl, rfl⟩
    · simp only [if_neg hx, List.not_mem_nil, false_iff, List.cons.injEq]
      rintro ⟨y, hy, -, ⟨rfl, -⟩, -⟩
      exact hx hy

theorem mem_run_star {p : Char → Bool} {inp m r : Str} {c c' : Caps} :
    (m, r, c') ∈ (Re.star p).run inp c ↔ inp = m ++ r ∧ (∀ a ∈ m, p a = true) ∧ c' = c := by
  unfold Re.run
  simp only [List.mem_map, Prod.mk.injEq, Prod.exists]
  constructor
  · rintro ⟨w, r1, hm, rfl, rfl, rfl⟩
    obtain ⟨h1, h2⟩ := mem_starSplits.mp hm
    exact ⟨h1, h2, rfl⟩
  · rintro ⟨h1, h2, rfl⟩
    exact ⟨m, r, mem_starSplits.mpr ⟨h1, h2⟩, rfl, rfl, rfl⟩

theorem mem_run_plus {p : Char → Bool} {inp m r : Str} {c c' : Caps} :
    (m, r, c') ∈ (Re.plus p).run inp c ↔
      inp = m ++ r ∧ m ≠ [] ∧ (∀ a ∈ m, p a = true) ∧ c' = c := by
  unfold Re.run
  simp only [List.mem_map, Prod.mk.injEq, Prod.exists]
  constructor
  · rintro ⟨w, r1, hm, rfl, rfl, rfl⟩
    obtain ⟨h1, h2, h3⟩ := mem_plusSplits.mp hm
    exact ⟨h1, h2, h3, rfl⟩
  · rintro ⟨h1, h2, h3, rfl⟩
    exact ⟨m, r, mem_plusSplits.mpr ⟨h1, h2, h3⟩, rfl, rfl, rfl⟩

theorem mem_run_seq {a b : Re} {inp m r : Str} {c c' : Caps} :
    (m, r, c') ∈ (Re.seq a b).run inp c ↔
      ∃ m1 mid c1 m2, (m1, mid, c1) ∈ a.run inp c ∧ (m2, r, c') ∈ b.run mid c1 ∧ m = m1 ++ m2 := by
  simp only [Re.run, List.mem_flatMap, List.mem_map, Prod.mk.injEq, Prod.exists]
  constructor
  · rintro ⟨m1, mid, c1, h1, m2, r2, c2, h2, rfl, rfl, rfl⟩
    exact ⟨m1, mid, c1, m2, h1, h2, rfl⟩
  · rintro ⟨m1, mid, c1, m2, h1, h2, rfl⟩
    exact ⟨m1, mid, c1, h1, m2, r, c', h2, rfl, rfl, rfl⟩

theorem mem_run_group {i : Nat} {re : Re} {inp m r : Str} {c c' : Caps} :
    (m, r, c') ∈ (Re.group i re).run inp c ↔ ∃ c0, (m, r, c0) ∈ re.run inp c ∧ c' = c0.set i m := by
  simp only [Re.run, List.mem_map, Prod.mk.injEq, Prod.exists]
  constructor
  · rintro ⟨m1, r1, c1, h, rfl, rfl, rfl⟩
    exact ⟨c1, h, rfl⟩
  · rintro ⟨c0, h, rfl⟩
    exact ⟨m, r, c0, h, rfl, rfl, rfl⟩

theorem mem_run_opt {re : Re} {inp m r : Str} {c c' : Caps} :
    (m, r, c') ∈ (Re.opt re).run inp c ↔ (m, r, c') ∈ re.run inp c ∨ (m = [] ∧ r = inp ∧ c' = c) := by
  simp [Re.run]

/-- Every result of the matcher splits the input and keeps the number of submatch slots. -/
theorem run_sound (re : Re) : ∀ {inp m r : Str} {c c' : Caps},
    (m, r, c') ∈ re.run inp c → inp = m ++ r ∧ c'.length = c.length := by
  induction re with
  | lit s => intro inp m r c c' h; obtain ⟨rfl, rfl, rfl⟩ := mem_run_lit.mp h; exact ⟨rfl, rfl⟩
  | cls p =>
    intro inp m r c c' h
    obtain ⟨x, -, rfl, rfl, rfl⟩ := mem_run_cls.mp h
    exact ⟨rfl, rfl⟩
  | star p => intro inp m r c c' h; obtain ⟨h1, -, rfl⟩ := mem_run_star.mp h; exact ⟨h1, rfl⟩
  | plus p => intro inp m r c c' h; obtain ⟨h1, -, -, rfl⟩ := mem_run_plus.mp h; exact ⟨h1, rfl⟩
  | seq a b iha ihb =>
    intro inp m r c c' h
    obtain ⟨m1, mid, c1, m2, h1, h2, rfl⟩ := mem_run_seq.mp h
    obtain ⟨e1, l1⟩ := iha h1
    obtain ⟨e2, l2⟩ := ihb h2
    exact ⟨by rw [e1, e2, List.append_assoc], by rw [l2, l1]⟩
  | group i re ih =>
    intro inp m r c c' h
    obtain ⟨c0, h1, rfl⟩ := mem_run_group.mp h
    obtain ⟨e1, l1⟩ := ih h1
    exact ⟨e1, by simp [l1]⟩
  | opt re ih =>
    intro inp m r c c' h
    rcases mem_run_opt.mp h with h1 | ⟨rfl, rfl, rfl⟩
    · exact ih h1
    · exact ⟨rfl, rfl⟩

/-! ### The first result of the matcher -/

theorem starSplits_head {p : Char → Bool} {w r : Str} (hw : ∀ a ∈ w, p a = true)
    (hr : ∀ x ∈ r.head?, p x = false) : (starSplits p (w ++ r)).head? = some (w, r) := by
  induction w with
  | nil =>
    cases r with
    | nil => rfl
    | cons x xs =>
      have hx : p x = false := hr x (by simp)
      simp [starSplits, hx]
  | cons y ys ih =>
    have hy : p y = true := hw y (List.mem_cons_self _ _)
    have ih1 := ih (fun a ha => hw a (List.mem_cons_of_mem _ ha))
    simp only [List.cons_append, starSplits, hy, if_true]
    cases hs : starSplits p (ys ++ r) with
    | nil => rw [hs] at ih1; simp at ih1
    | cons z zs =>
      rw [hs] at ih1
      simp only [List.head?_cons, Option.some.injEq] at ih1
      subst ih1
      simp

theorem plusSplits_head {p : Char → Bool} {w r : Str} (hne : w ≠ []) (hw : ∀ a ∈ w, p a = true)
    (hr : ∀ x ∈ r.head?, p x = false) : (plusSplits p (w ++ r)).head? = some (w, r) := by
  cases w with
  | nil => exact absurd rfl hne
  | cons y ys =>
    have hy : p y = true := hw y (List.mem_cons_self _ _)
    have h1 := starSplits_head (p := p) (w := ys) (r := r)
      (fun a ha => hw a (List.mem_cons_of_mem _ ha)) hr
    simp only [List.cons_append, plusSplits, hy, if_true]
    cases hs : starSplits p (ys ++ r) with
    | nil => rw [hs] at h1; simp at h1
    | cons z zs =>
      rw [hs] at h1
      simp only [List.head?_cons, Option.some.injEq] at h1
      subst h1
      simp

theorem head_run_lit (s r : Str) (c : Caps) : ((Re.lit s).run (s ++ r) c).head? = some (s, r, c) := by
  have h : s.isPrefixOf (s ++ r) = true := List.isPrefixOf_iff_prefix.mpr (List.prefix_append _ _)
  simp [Re.run, h]

theorem head_run_cls {p : Char → Bool} {x : Char} (hx : p x = true) (r : Str) (c : Caps) :
    ((Re.cls p).run (x :: r) c).head? = some ([x], r, c) := by
  simp [Re.run, hx]

theorem head_run_star {p : Char → Bool} {w r : Str} (c : Caps) (hw : ∀ a ∈ w, p a = true)
    (hr : ∀ x ∈ r.head?, p x = false) : ((Re.star p).run (w ++ r) c).head? = some (w, r, c) := by
  have h := starSplits_head hw hr
  cases hs : starSplits p (w ++ r) with
  | nil => rw [hs] at h; simp at h
  | cons z zs =>
    rw [hs] at h
    simp only [List.head?_cons, Option.some.injEq] at h
    subst h
    simp [Re.run, hs]

theorem head_run_plus {p : Char → Bool} {w r : Str} (c : Caps) (hne : w ≠ [])
    (hw : ∀ a ∈ w, p a = true) (hr : ∀ x ∈ r.head?, p x = false) :
    ((Re.plus p).run (w ++ r) c).head? = some (w, r, c) := by
  have h := plusSplits_head hne hw hr
  cases hs : plusSplits p (w ++ r) with
  | nil => rw [hs] at h; simp at h
  | cons z zs =>
    rw [hs] at h
    simp only [List.head?_cons, Option.some.injEq] at h
    subst h
    simp [Re.run, hs]

theorem head_run_seq {a b : Re} {inp m1 mid m2 r : Str} {c c1 c2 : Caps}
    (ha : (a.run inp c).head? = some (m1, mid, c1))
    (hb : (b.run mid c1).head? = some (m2, r, c2)) :
    ((Re.seq a b).run inp c).head? = some (m1 ++ m2, r, c2) := by
  cases h1 : a.run inp c with
  | nil => rw [h1] at ha; simp at ha
  | cons x xs =>
    rw [h1] at ha
    simp only [List.head?_cons, Option.some.injEq] at ha
    subst ha
    cases h2 : b.run mid c1 with
    | nil => rw [h2] at hb; simp at hb
    | cons y ys =>
      rw [h2] at hb
      simp only [List.head?_cons, Option.some.injEq] at hb
      subst hb
      simp [Re.run, h1, h2]

theorem head_run_group {i : Nat} {re : Re} {inp m r : Str} {c c1 : Caps}
    (h : (re.run inp c).head? = some (m, r, c1)) :
    ((Re.group i re).run inp c).head? = some (m, r, c1.set i m) := by
  cases h1 : re.run inp c with
  | nil => rw [h1] at h; simp at h
  | cons x xs =>
    rw [h1] at h
    simp only [List.head?_cons, Option.some.injEq] at h
    subst h
    simp [Re.run, h1]

theorem head_run_opt_some {re : Re} {inp : Str} {c : Caps} {x : Str × Str × Caps}
    (h : (re.run inp c).head? = some x) : ((Re.opt re).run inp c).head? = some x := by
  cases h1 : re.run inp c with
  | nil => rw [h1] at h; simp at h
  | cons y ys =>
    rw [h1] at h
    simp only [List.head?_cons, Option.some.injEq] at h
    subst h
    simp [Re.run, h1]

theorem head_run_opt_none {re : Re} {inp : Str} {c : Caps} (h : re.run inp c = []) :
    ((Re.opt re).run inp c).head? = some ([], inp, c) := by
  simp [Re.run, h]

theorem matchHere_eq_some {r : Regexp} {inp : Str} {caps : Caps} {rest : Str} :
    r.matchHere inp = some (caps, rest) ↔
      ∃ m c, (r.re.run inp (List.replicate (r.ngroups + 1) [])).head? = some (m, rest, c) ∧
        caps = c.set 0 m := by
  unfold Regexp.matchHere
  cases h : r.re.run inp (List.replicate (r.ngroups + 1) []) with
  | nil => simp
  | cons x xs =>
    obtain ⟨m, rest1, c⟩ := x
    simp only [Option.some.injEq, Prod.mk.injEq, List.head?_cons]
    constructor
    · rintro ⟨rfl, rfl⟩; exact ⟨m, c, ⟨rfl, rfl, rfl⟩, rfl⟩
    · rintro ⟨m1, c1, ⟨rfl, rfl, rfl⟩, rfl⟩; exact ⟨rfl, rfl⟩

theorem matchHere_eq_none {r : Regexp} {inp : Str} :
    r.matchHere inp = none ↔ r.re.run inp (List.replicate (r.ngroups + 1) []) = [] := by
  unfold Regexp.matchHere
  cases h : r.re.run inp (List.replicate (r.ngroups + 1) []) with
  | nil => simp
  | cons x xs => simp

/-- A match leaves a suffix of the input. -/
theorem matchHere_suffix {r : Regexp} {inp : Str} {caps : Caps} {rest : Str}
    (h : r.matchHere inp = some (caps, rest)) :
    ∃ m, inp = m ++ rest ∧ caps.length = r.ngroups + 1 ∧ caps[0]? = some m := by
  obtain ⟨m, c, hh, rfl⟩ := matchHere_eq_some.mp h
  have hmem : (m, rest, c) ∈ r.re.run inp (List.replicate (r.ngroups + 1) []) :=
    List.mem_of_mem_head? hh
  obtain ⟨e, l⟩ := run_sound r.re hmem
  refine ⟨m, e, by simp [l], ?_⟩
  have : 0 < c.length := by rw [l]; simp
  simp [List.getElem?_set, this]

/-! ### Leftmost search -/

theorem FindStringSubmatch_eq_none {r : Regexp} (hr : r.anchored = false) {content : Str} :
    r.FindStringSubmatch content = none ↔
      ∀ pre suf, content = pre ++ suf → r.matchHere suf = none := by
  induction content with
  | nil =>
    simp only [Regexp.FindStringSubmatch, Option.map_eq_none']
    constructor
    · intro h pre suf e
      have := List.append_eq_nil.mp e.symm
      rw [this.2]; exact h
    · intro h; exact h [] [] rfl
  | cons x xs ih =>
    rw [Regexp.FindStringSubmatch]
    cases hm : r.matchHere (x :: xs) with
    | some m =>
      constructor
      · intro h; simp at h
      · intro h
        have := h [] (x :: xs) rfl
        rw [hm] at this
        simp at this
    | none =>
      simp only [hr, Bool.false_eq_true, if_false]
      rw [ih]
      constructor
      · intro h pre suf e
        cases pre with
        | nil => simp at e; rw [← e]; exact hm
        | cons y ys =>
          simp only [List.cons_append, List.cons.injEq] at e
          exact h ys suf e.2
      · intro h pre suf e
        exact h (x :: pre) suf (by simp [e])

theorem FindStringSubmatch_eq_some {r : Regexp} (hr : r.anchored = false) {content : Str}
    {caps : Caps} : r.FindStringSubmatch content = some caps ↔
      ∃ pre suf rest, content = pre ++ suf ∧ r.matchHere suf = some (caps, rest) ∧
        ∀ p1 p2, pre = p1 ++ p2 → p2 ≠ [] → r.matchHere (p2 ++ suf) = none := by
  induction content with
  | nil =>
    simp only [Regexp.FindStringSubmatch, Option.map_eq_some', Prod.exists, exists_and_right,
      exists_eq_right]
    constructor
    · rintro ⟨rest, h⟩
      refine ⟨[], [], rest, rfl, h, ?_⟩
      intro p1 p2 e hne
      exact absurd (List.append_eq_nil.mp e.symm).2 hne
    · rintro ⟨pre, suf, rest, e, h, -⟩
      have := List.append_eq_nil.mp e.symm
      rw [this.2] at h
      exact ⟨rest, h⟩
  | cons x xs ih =>
    rw [Regexp.FindStringSubmatch]
    cases hm : r.matchHere (x :: xs) with
    | some m =>
      obtain ⟨caps1, rest1⟩ := m
      simp only [Option.some.injEq]
      constructor
      · rintro rfl
        refine ⟨[], x :: xs, rest1, rfl, hm, ?_⟩
        intro p1 p2 e hne
        exact absurd (List.append_eq_nil.mp e.symm).2 hne
      · rintro ⟨pre, suf, rest, e, h, hpre⟩
        cases pre with
        | nil =>
          simp only [List.nil_append] at e
          rw [← e, hm] at h
          simp only [Option.some.injEq, Prod.mk.injEq] at h
          exact h.1
        | cons y ys =>
          have := hpre [] (y :: ys) rfl (by simp)
          rw [← e, hm] at this
          simp at this
    | none =>
      simp only [hr, Bool.false_eq_true, if_false]
      rw [ih]
      constructor
      · rintro ⟨pre, suf, rest, e, h, hpre⟩
        refine ⟨x :: pre, suf, rest, by simp [e], h, ?_⟩
        intro p1 p2 e2 hne
        cases p1 with
        | nil =>
          simp only [List.nil_append] at e2
          rw [← e2, List.cons_append, ← e]
          exact hm
        | cons y ys =>
          simp only [List.cons_append, List.cons.injEq] at e2
          exact hpre ys p2 e2.2 hne
      · rintro ⟨pre, suf, rest, e, h, hpre⟩
        cases pre with
        | nil =>
          simp only [List.nil_append] at e
          rw [← e, hm] at h
          simp at h
        | cons y ys =>
          simp only [List.cons_append, List.cons.injEq] at e
          refine ⟨ys, suf, rest, e.2, h, ?_⟩
          intro p1 p2 e2 hne
          exact hpre (y :: p1) p2 (by simp [e2]) hne

theorem not_space_of_apiNameChar {a : Char} (h : isApiNameChar a = true) : isSpaceRe a = false := by
  simp only [isApiNameChar, isWord, isDigit09, isUpperAZ, isLowerAZ, Bool.or_eq_true,
    Bool.and_eq_true, decide_eq_true_eq, beq_iff_eq] at h
  simp only [isSpaceRe, Bool.or_eq_false_iff, beq_eq_false_iff_ne, ne_eq]
  omega

theorem not_apiNameChar_of_space {a : Char} (h : isSpaceRe a = true) : isApiNameChar a = false := by
  cases h2 : isApiNameChar a with
  | false => rfl
  | true => rw [not_space_of_apiNameChar h2] at h; simp at h

theorem lbrace_not_space : isSpaceRe (Char.ofNat 123) = false := by decide
theorem lbrace_not_apiNameChar : isApiNameChar (Char.ofNat 123) = false := by decide

theorem head_class_false {p : Char → Bool} {w r : Str} (hne : w ≠ [])
    (hw : ∀ a ∈ w, p a = false) : ∀ x ∈ (w ++ r).head?, p x = false := by
  cases w with
  | nil => exact absurd rfl hne
  | cons y ys =>
    intro x hx
    simp only [List.cons_append, List.head?_cons, Option.mem_def, Option.some.injEq] at hx
    subst hx
    exact hw _ (List.mem_cons_self _ _)

theorem head_class_false_append {p : Char → Bool} {w r : Str} (hw : ∀ a ∈ w, p a = false)
    (hr : ∀ x ∈ r.head?, p x = false) : ∀ x ∈ (w ++ r).head?, p x = false := by
  cases w with
  | nil => simpa using hr
  | cons y ys =>
    intro x hx
    simp only [List.cons_append, List.head?_cons, Option.mem_def, Option.some.injEq] at hx
    subst hx
    exact hw _ (List.mem_cons_self _ _)

theorem matchHere_apiServiceName_of_decl {inp name rest : Str} (h : ApiServiceDecl inp name rest) :
    ∃ whole, inp = whole ++ rest ∧ apiServiceNameRegex.matchHere inp = some ([whole, name], rest) := by
  obtain ⟨ws1, ws2, rfl, hne1, hws1, hne, hname, hws2⟩ := h
  refine ⟨kwService ++ (ws1 ++ (name ++ (ws2 ++ lbrace))), by simp, ?_⟩
  rw [matchHere_eq_some]
  have h5 := head_run_lit lbrace rest [[], name]
  have h4 := head_run_seq (head_run_star (p := isSpaceRe) (w := ws2) (r := lbrace ++ rest)
    [[], name] hws2 (by intro x hx; simp [lbrace] at hx; subst hx; exact lbrace_not_space)) h5
  have h3 := head_run_seq (head_run_group (i := 1) (head_run_plus (p := isApiNameChar) (w := name)
    (r := ws2 ++ (lbrace ++ rest)) [[], []] hne hname
    (head_class_false_append (fun a ha => not_apiNameChar_of_space (hws2 a ha))
      (by intro x hx; simp [lbrace] at hx; subst hx; exact lbrace_not_apiNameChar)))) h4
  have h2 := head_run_seq (head_run_plus (p := isSpaceRe) (w := ws1)
    (r := name ++ (ws2 ++ (lbrace ++ rest))) [[], []] hne1 hws1
    (head_class_false hne (fun a ha => not_space_of_apiNameChar (hname a ha)))) h3
  have h1 := head_run_seq (head_run_lit kwService (ws1 ++ (name ++ (ws2 ++ (lbrace ++ rest))))
    [[], []]) h2
  exact ⟨_, _, h1, by simp⟩

theorem decl_of_matchHere_apiServiceName {inp rest : Str} {caps : Caps}
    (h : apiServiceNameRegex.matchHere inp = some (caps, rest)) :
    ∃ name, ApiServiceDecl inp name rest ∧ caps.length = 2 ∧ sub caps 1 = name := by
  obtain ⟨m, c, hh, rfl⟩ := matchHere_eq_some.mp h
  have hmem := List.mem_of_mem_head? hh
  simp only [apiServiceNameRegex] at hmem
  obtain ⟨m1, mid1, c1, m1', h1, hmem, rfl⟩ := mem_run_seq.mp hmem
  obtain ⟨rfl, rfl, rfl⟩ := mem_run_lit.mp h1
  obtain ⟨m2, mid2, c2, m2', h2, hmem, rfl⟩ := mem_run_seq.mp hmem
  obtain ⟨rfl, hne1, hws1, rfl⟩ := mem_run_plus.mp h2
  obtain ⟨m3, mid3, c3, m3', h3, hmem, rfl⟩ := mem_run_seq.mp hmem
  obtain ⟨c0, h3g, rfl⟩ := mem_run_group.mp h3
  obtain ⟨rfl, hne, hname, rfl⟩ := mem_run_plus.mp h3g
  obtain ⟨m4, mid4, c4, m4', h4, hmem, rfl⟩ := mem_run_seq.mp hmem
  obtain ⟨rfl, hws2, rfl⟩ := mem_run_star.mp h4
  obtain ⟨rfl, rfl, rfl⟩ := mem_run_lit.mp hmem
  exact ⟨m3, ⟨m2, m4, rfl, hne1, hws1, hne, hname, hws2⟩, by simp, by simp [sub]⟩

theorem foldl_append_singleton_length {α β : Type} (f : α → β) (xs : List α) (init : List β) :
    (xs.foldl (fun acc x => acc ++ [f x]) init) = init ++ xs.map f := by
  induction xs generalizing init with
  | nil => simp
  | cons x xs ih => simp [ih]

theorem scanAPIFile_eq (fs : FileSystem) (a : ProjectAnalysis) (apiFile : Str) :
    scanAPIFile fs a apiFile =
      { a with
        Services := a.Services ++ [apiServiceEntry fs apiFile],
        Summary := { a.Summary with
          APIServices := a.Summary.APIServices + 1,
          TotalEndpoints := a.Summary.TotalEndpoints + (apiServiceEntry fs apiFile).Endpoints.length } } := by
  unfold scanAPIFile apiServiceEntry
  cases ParseAPISpecification apiFile (fs.ReadFile apiFile) with
  | error e => rfl
  | ok spec => simp [foldl_append_singleton_length]

theorem scanProtoFile_eq (fs : FileSystem) (a : ProjectAnalysis) (protoFile : Str) :
    scanProtoFile fs a protoFile =
      { a with
        Services := a.Services ++ [rpcServiceEntry fs protoFile],
        Summary := { a.Summary with
          RPCServices := a.Summary.RPCServices + 1,
          TotalRPCMethods := a.Summary.TotalRPCMethods + (rpcServiceEntry fs protoFile).RPCMethods.length } } := by
  unfold scanProtoFile rpcServiceEntry
  cases ParseProtoSpecification protoFile (fs.ReadFile protoFile) with
  | error e => rfl
  | ok spec => simp [foldl_append_singleton_length]

theorem apiServiceEntry_type (fs : FileSystem) (f : Str) :
    (apiServiceEntry fs f).Type_ = "api".toList ∧ (apiServiceEntry fs f).RPCMethods = [] ∧
    (apiServiceEntry fs f).SpecFile = f := by
  unfold apiServiceEntry
  cases ParseAPISpecification f (fs.ReadFile f) <;> exact ⟨rfl, rfl, rfl⟩

theorem rpcServiceEntry_type (fs : FileSystem) (f : Str) :
    (rpcServiceEntry fs f).Type_ = "rpc".toList ∧ (rpcServiceEntry fs f).Endpoints = [] ∧
    (rpcServiceEntry fs f).SpecFile = f := by
  unfold rpcServiceEntry
  cases ParseProtoSpecification f (fs.ReadFile f) <;> exact ⟨rfl, rfl, rfl⟩

theorem api_ne_rpc : ("api".toList = "rpc".toList) = False := by decide
theorem rpc_ne_api : ("rpc".toList = "api".toList) = False := by decide

theorem countersAgree_scanAPIFile (fs : FileSystem) (a : ProjectAnalysis) (f : Str)
    (h : CountersAgree a) : CountersAgree (scanAPIFile fs a f) := by
  rw [scanAPIFile_eq]
  obtain ⟨h1, h2, h3, h4, h5⟩ := h
  obtain ⟨t1, t2, -⟩ := apiServiceEntry_type fs f
  refine ⟨?_, ?_, ?_, ?_, ?_⟩
  · simp [countType, List.filter_append, t1, h1] at *
  · simp [countType, List.filter_append, t1, h2, api_ne_rpc] at *
  · simp only [List.length_append, List.length_singleton]; omega
  · simp [h4]
  · simp [h5, t2]

theorem countersAgree_scanProtoFile (fs : FileSystem) (a : ProjectAnalysis) (f : Str)
    (h : CountersAgree a) : CountersAgree (scanProtoFile fs a f) := by
  rw [scanProtoFile_eq]
  obtain ⟨h1, h2, h3, h4, h5⟩ := h
  obtain ⟨t1, t2, -⟩ := rpcServiceEntry_type fs f
  refine ⟨?_, ?_, ?_, ?_, ?_⟩
  · simp [countType, List.filter_append, t1, h1, rpc_ne_api] at *
  · simp [countType, List.filter_append, t1, h2] at *
  · simp only [List.length_append, List.length_singleton]; omega
  · simp [h4, t2]
  · simp [h5]

theorem countersAgree_foldl {fs : FileSystem} (step : FileSystem → ProjectAnalysis → Str → ProjectAnalysis)
    (hstep : ∀ a f, CountersAgree a → CountersAgree (step fs a f)) (files : List Str)
    (a : ProjectAnalysis) (h : CountersAgree a) : CountersAgree (files.foldl (step fs) a) := by
  induction files generalizing a with
  | nil => exact h
  | cons f fs' ih => exact ih _ (hstep a f h)

theorem foldl_preserves {α γ : Type} (g : ProjectAnalysis → γ)
    (step : ProjectAnalysis → α → ProjectAnalysis) (hstep : ∀ a f, g (step a f) = g a)
    (files : List α) (a : ProjectAnalysis) : g (files.foldl step a) = g a := by
  induction files generalizing a with
  | nil => rfl
  | cons f fs' ih => rw [List.foldl_cons, ih, hstep]

theorem afterLoops_frame (fs : FileSystem) (p : Str) :
    (afterLoops fs p).Dependencies = [] ∧ (afterLoops fs p).Summary.TotalDependencies = 0 ∧
    (afterLoops fs p).ProjectPath = p := by
  unfold afterLoops
  refine ⟨?_, ?_, ?_⟩
  · rw [foldl_preserves (fun a => a.Dependencies) (scanProtoFile fs)
      (fun a f => by rw [scanProtoFile_eq]),
      foldl_preserves (fun a => a.Dependencies) (scanAPIFile fs)
      (fun a f => by rw [scanAPIFile_eq])]
  · rw [foldl_preserves (fun a => a.Summary.TotalDependencies) (scanProtoFile fs)
      (fun a f => by rw [scanProtoFile_eq]),
      foldl_preserves (fun a => a.Summary.TotalDependencies) (scanAPIFile fs)
      (fun a f => by rw [scanAPIFile_eq])]
  · rw [foldl_preserves (fun a => a.ProjectPath) (scanProtoFile fs)
      (fun a f => by rw [scanProtoFile_eq]),
      foldl_preserves (fun a => a.ProjectPath) (scanAPIFile fs)
      (fun a f => by rw [scanAPIFile_eq])]

theorem scanDirectory_eq (fs : FileSystem) (p : Str) :
    scanDirectory fs p =
      match parseDependencies fs p with
      | .ok (deps, goZeroVersion) =>
        { afterLoops fs p with
          Configs := (discoverConfigFiles fs p).1,
          Dependencies := deps,
          Summary := { (afterLoops fs p).Summary with
            TotalDependencies := deps.length, GoZeroVersion := goZeroVersion,
            TotalServices := (afterLoops fs p).Services.length, ModelServices := 0 } }
      | .error _ =>
        { afterLoops fs p with
          Configs := (discoverConfigFiles fs p).1,
          Summary := { (afterLoops fs p).Summary with
            TotalServices := (afterLoops fs p).Services.length, ModelServices := 0 } } := by
  unfold scanDirectory
  cases h : parseDependencies fs p with
  | error e => rfl
  | ok d => rfl

theorem scanDirectory_services (fs : FileSystem) (p : Str) :
    (scanDirectory fs p).Services = (afterLoops fs p).Services ∧
    (scanDirectory fs p).Summary.APIServices = (afterLoops fs p).Summary.APIServices ∧
    (scanDirectory fs p).Summary.RPCServices = (afterLoops fs p).Summary.RPCServices ∧
    (scanDirectory fs p).Summary.TotalEndpoints = (afterLoops fs p).Summary.TotalEndpoints ∧
    (scanDirectory fs p).Summary.TotalRPCMethods = (afterLoops fs p).Summary.TotalRPCMethods ∧
    (scanDirectory fs p).Summary.TotalServices = (afterLoops fs p).Services.length ∧
    (scanDirectory fs p).Summary.TotalDependencies = (scanDirectory fs p).Dependencies.length ∧
    (scanDirectory fs p).ProjectPath = p := by
  obtain ⟨f1, f2, f3⟩ := afterLoops_frame fs p
  rw [scanDirectory_eq]
  cases parseDependencies fs p with
  | error e => simp [f1, f2, f3]
  | ok d => simp [f3]

theorem afterLoops_services (fs : FileSystem) (p : Str) :
    (afterLoops fs p).Services =
      (discoverAPIFiles fs p).1.map (apiServiceEntry fs) ++
      (discoverProtoFiles fs p).1.map (rpcServiceEntry fs) := by
  have hapi : ∀ (files : List Str) (a : ProjectAnalysis),
      (files.foldl (scanAPIFile fs) a).Services = a.Services ++ files.map (apiServiceEntry fs) := by
    intro files
    induction files with
    | nil => intro a; simp
    | cons f fs' ih => intro a; rw [List.foldl_cons, ih, scanAPIFile_eq]; simp
  have hrpc : ∀ (files : List Str) (a : ProjectAnalysis),
      (files.foldl (scanProtoFile fs) a).Services = a.Services ++ files.map (rpcServiceEntry fs) := by
    intro files
    induction files with
    | nil => intro a; simp
    | cons f fs' ih => intro a; rw [List.foldl_cons, ih, scanProtoFile_eq]; simp
  unfold afterLoops
  rw [hrpc, hapi]
  simp

theorem countersAgree_afterLoops (fs : FileSystem) (p : Str) : CountersAgree (afterLoops fs p) := by
  unfold afterLoops
  apply countersAgree_foldl (fun fs => scanProtoFile fs) (countersAgree_scanProtoFile fs)
  apply countersAgree_foldl (fun fs => scanAPIFile fs) (countersAgree_scanAPIFile fs)
  simp [CountersAgree, countType]

theorem ScanProject_ok {fs : FileSystem} {projectPath : Str} {a : ProjectAnalysis}
    (h : ScanProject fs projectPath = .ok a) :
    a = scanDirectory fs a.ProjectPath ∧ fs.Stat a.ProjectPath = some true := by
  unfold ScanProject at h
  split at h
  · simp at h
  · rename_i p hp
    split at h
    · simp at h
    · rename_i isDir hs
      split at h
      · simp at h
      · rename_i hd
        simp only [Except.ok.injEq] at h
        subst h
        rw [(scanDirectory_services fs p).2.2.2.2.2.2.2]
        cases isDir with
        | false => simp at hd
        | true => exact ⟨rfl, hs⟩

theorem apiServiceName_anchored : apiServiceNameRegex.anchored = false := rfl

theorem extractServiceName_of_find_none {content : Str}
    (h : apiServiceNameRegex.FindStringSubmatch content = none) : extractServiceName content = [] := by
  simp [extractServiceName, h]

theorem not_hasApiServiceDecl_iff {content : Str} :
    ¬ HasApiServiceDecl content ↔ apiServiceNameRegex.FindStringSubmatch content = none := by
  rw [FindStringSubmatch_eq_none apiServiceName_anchored]
  constructor
  · intro h pre suf e
    cases hm : apiServiceNameRegex.matchHere suf with
    | none => rfl
    | some m =>
      obtain ⟨caps, rest⟩ := m
      obtain ⟨name, hd, -, -⟩ := decl_of_matchHere_apiServiceName hm
      exact absurd ⟨pre, suf, name, rest, e, hd⟩ h
  · rintro h ⟨pre, suf, name, rest, e, hd⟩
    obtain ⟨whole, -, hm⟩ := matchHere_apiServiceName_of_decl hd
    rw [h pre suf e] at hm
    simp at hm

theorem find_of_firstApiServiceDecl {content pre name rest : Str}
    (h : FirstApiServiceDecl content pre name rest) :
    ∃ whole, apiServiceNameRegex.FindStringSubmatch content = some [whole, name] := by
  obtain ⟨suf, e, hd, hfirst⟩ := h
  obtain ⟨whole, -, hm⟩ := matchHere_apiServiceName_of_decl hd
  refine ⟨whole, ?_⟩
  rw [FindStringSubmatch_eq_some apiServiceName_anchored]
  refine ⟨pre, suf, rest, e, hm, ?_⟩
  intro p1 p2 e2 hne
  cases hm2 : apiServiceNameRegex.matchHere (p2 ++ suf) with
  | none => rfl
  | some m =>
    obtain ⟨caps, rest2⟩ := m
    obtain ⟨n, hd2, -, -⟩ := decl_of_matchHere_apiServiceName hm2
    exact absurd hd2 (hfirst p1 p2 e2 hne n rest2)

theorem firstApiServiceDecl_of_find {content : Str} {caps : Caps}
    (h : apiServiceNameRegex.FindStringSubmatch content = some caps) :
    ∃ pre name rest, FirstApiServiceDecl content pre name rest ∧ caps.length = 2 ∧
      sub caps 1 = name := by
  obtain ⟨pre, suf, rest, e, hm, hpre⟩ :=
    (FindStringSubmatch_eq_some apiServiceName_anchored).mp h
  obtain ⟨name, hd, hl, hs⟩ := decl_of_matchHere_apiServiceName hm
  refine ⟨pre, name, rest, ⟨suf, e, hd, ?_⟩, hl, hs⟩
  intro p1 p2 e2 hne n r hd2
  obtain ⟨whole, -, hm2⟩ := matchHere_apiServiceName_of_decl hd2
  rw [hpre p1 p2 e2 hne] at hm2
  simp at hm2

theorem extractServiceName_of_first {content pre name rest : Str}
    (h : FirstApiServiceDecl content pre name rest) :
    extractServiceName content = TrimSuffix name dashApi := by
  obtain ⟨whole, hf⟩ := find_of_firstApiServiceDecl h
  simp [extractServiceName, hf, sub, dashApi]

theorem hasApiServiceDecl_or_first (content : Str) :
    ¬ HasApiServiceDecl content ∨ ∃ pre name rest, FirstApiServiceDecl content pre name rest := by
  cases hf : apiServiceNameRegex.FindStringSubmatch content with
  | none => exact Or.inl (not_hasApiServiceDecl_iff.mpr hf)
  | some caps =>
    obtain ⟨pre, name, rest, h, -, -⟩ := firstApiServiceDecl_of_find hf
    exact Or.inr ⟨pre, name, rest, h⟩

theorem TrimSuffix_append (t suf : Str) : TrimSuffix (t ++ suf) suf = t := by
  have h : suf.isSuffixOf (t ++ suf) = true := List.isSuffixOf_iff_suffix.mpr (List.suffix_append _ _)
  simp [TrimSuffix, h]

theorem TrimSuffix_of_not_suffix {s suf : Str} (h : ¬ suf <:+ s) : TrimSuffix s suf = s := by
  have h2 : suf.isSuffixOf s = false := by
    cases hb : suf.isSuffixOf s with
    | false => rfl
    | true => exact absurd (List.isSuffixOf_iff_suffix.mp hb) h
  simp [TrimSuffix, h2]

theorem suffix_trimSuffix_iff (name suf : Str) :
    suf <:+ TrimSuffix name suf ↔ (suf ++ suf) <:+ name := by
  by_cases h : suf <:+ name
  · obtain ⟨t, rfl⟩ := h
    rw [TrimSuffix_append]
    constructor
    · rintro ⟨u, rfl⟩; exact ⟨u, by simp⟩
    · rintro ⟨u, hu⟩
      refine ⟨u, ?_⟩
      have : (u ++ suf) ++ suf = t ++ suf := by simpa using hu
      exact List.append_cancel_right this
  · rw [TrimSuffix_of_not_suffix h]
    constructor
    · intro h2; exact absurd h2 h
    · rintro ⟨u, hu⟩
      exact absurd ⟨u ++ suf, by simpa using hu⟩ h

theorem ScanProject_of_directory {fs : FileSystem} {projectPath p : Str}
    (hres : (if IsAbs projectPath then some projectPath else fs.Abs projectPath) = some p)
    (hdir : fs.Stat p = some true) : ScanProject fs projectPath = .ok (scanDirectory fs p) := by
  simp [ScanProject, hres, hdir]

theorem not_space_of_upper {a : Char} (h : isUpperAZ a = true) : isSpaceRe a = false := by
  simp only [isUpperAZ, Bool.and_eq_true, decide_eq_true_eq] at h
  simp only [isSpaceRe, Bool.or_eq_false_iff, beq_eq_false_iff_ne, ne_eq]
  omega

theorem dropWhile_append_of_all {p : Char → Bool} {w r : Str} (hw : ∀ a ∈ w, p a = true) :
    (w ++ r).dropWhile p = r.dropWhile p := by
  induction w with
  | nil => rfl
  | cons y ys ih =>
    have hy := hw y (List.mem_cons_self _ _)
    simp only [List.cons_append, List.dropWhile_cons, hy, if_true]
    exact ih (fun a ha => hw a (List.mem_cons_of_mem _ ha))

theorem noUpperServiceIdent_suffix {pre suf : Str} (h : noUpperServiceIdent (pre ++ suf) = true) :
    noUpperServiceIdent suf = true := by
  induction pre with
  | nil => exact h
  | cons x xs ih =>
    simp only [List.cons_append, noUpperServiceIdent, Bool.and_eq_true] at h
    exact ih h.2

/-- What a match of the RPC service-name pattern looks like. -/
theorem decl_of_matchHere_rpcServiceName {inp rest : Str} {caps : Caps}
    (h : rpcServiceNameRegex.matchHere inp = some (caps, rest)) :
    ∃ ws1 u ident ws2, inp = kwService ++ (ws1 ++ (u :: ident ++ (ws2 ++ (lbrace ++ rest)))) ∧
      ws1 ≠ [] ∧ (∀ a ∈ ws1, isSpaceRe a = true) ∧ isUpperAZ u = true ∧
      (∀ a ∈ ident, isWord a = true) ∧ (∀ a ∈ ws2, isSpaceRe a = true) ∧
      caps.length = 2 ∧ sub caps 1 = u :: ident := by
  obtain ⟨m, c, hh, rfl⟩ := matchHere_eq_some.mp h
  have hmem := List.mem_of_mem_head? hh
  simp only [rpcServiceNameRegex, upperIdentRe] at hmem
  obtain ⟨m1, mid1, c1, m1', h1, hmem, rfl⟩ := mem_run_seq.mp hmem
  obtain ⟨rfl, rfl, rfl⟩ := mem_run_lit.mp h1
  obtain ⟨m2, mid2, c2, m2', h2, hmem, rfl⟩ := mem_run_seq.mp hmem
  obtain ⟨rfl, hne1, hws1, rfl⟩ := mem_run_plus.mp h2
  obtain ⟨m3, mid3, c3, m3', h3, hmem, rfl⟩ := mem_run_seq.mp hmem
  obtain ⟨c0, h3g, rfl⟩ := mem_run_group.mp h3
  obtain ⟨m31, mid31, c31, m32, h31, h32, rfl⟩ := mem_run_seq.mp h3g
  obtain ⟨u, hu, rfl, rfl, rfl⟩ := mem_run_cls.mp h31
  obtain ⟨rfl, hident, rfl⟩ := mem_run_star.mp h32
  obtain ⟨m4, mid4, c4, m4', h4, hmem, rfl⟩ := mem_run_seq.mp hmem
  obtain ⟨rfl, hws2, rfl⟩ := mem_run_star.mp h4
  obtain ⟨rfl, rfl, rfl⟩ := mem_run_lit.mp hmem
  exact ⟨m2, u, m32, m4, by simp, hne1, hws1, hu, hident, hws2, by simp, by simp [sub]⟩

theorem rpcServiceName_anchored : rpcServiceNameRegex.anchored = false := rfl

theorem noUpperServiceIdent_cons (x : Char) (xs : Str) :
    noUpperServiceIdent (x :: xs) =
      ((!(kwService.isPrefixOf (x :: xs)) ||
        !((((x :: xs).drop 7).dropWhile isSpaceRe).head?.any isUpperAZ)) &&
      noUpperServiceIdent xs) := rfl

theorem noUpperServiceIdent_keyword {t : Str} (h : noUpperServiceIdent (kwService ++ t) = true) :
    ((t.dropWhile isSpaceRe).head?.any isUpperAZ) = false := by
  have e : kwService ++ t = 's' :: (['e', 'r', 'v', 'i', 'c', 'e'] ++ t) := rfl
  have hp : kwService.isPrefixOf (kwService ++ t) = true :=
    List.isPrefixOf_iff_prefix.mpr (List.prefix_append _ _)
  have hd : (kwService ++ t).drop 7 = t := List.drop_left' rfl
  rw [e, noUpperServiceIdent_cons, ← e, hp, hd] at h
  simp only [Bool.not_true, Bool.false_or, Bool.and_eq_true, Bool.not_eq_true'] at h
  exact h.1

theorem find_rpcServiceName_none_of_noUpper {content : Str}
    (h : noUpperServiceIdent content = true) :
    rpcServiceNameRegex.FindStringSubmatch content = none := by
  rw [FindStringSubmatch_eq_none rpcServiceName_anchored]
  intro pre suf e
  cases hm : rpcServiceNameRegex.matchHere suf with
  | none => rfl
  | some m =>
    exfalso
    obtain ⟨caps, rest⟩ := m
    obtain ⟨ws1, u, ident, ws2, rfl, hne1, hws1, hu, -, -, -, -⟩ :=
      decl_of_matchHere_rpcServiceName hm
    rw [e] at h
    have h3 := noUpperServiceIdent_keyword (noUpperServiceIdent_suffix h)
    rw [dropWhile_append_of_all hws1] at h3
    simp [List.dropWhile_cons, not_space_of_upper hu, hu] at h3

theorem sub_set_ne {l : Caps} {i j : Nat} (x : Str) (h : i ≠ j) : sub (l.set i x) j = sub l j := by
  simp [sub, List.getD_eq_getElem?_getD, List.getElem?_set_ne h]

theorem sub_set_eq {l : Caps} {i : Nat} (x : Str) (h : i < l.length) : sub (l.set i x) i = x := by
  simp [sub, List.getD_eq_getElem?_getD, List.getElem?_set_self, h]

/-- Matching a pattern leaves the slots of other capture groups untouched. -/
theorem run_frame (re : Re) (j : Nat) : ∀ {inp m r : Str} {c c' : Caps},
    re.hasGroup j = false → (m, r, c') ∈ re.run inp c → sub c' j = sub c j := by
  induction re with
  | lit s => intro inp m r c c' _ h; obtain ⟨-, -, rfl⟩ := mem_run_lit.mp h; rfl
  | cls p => intro inp m r c c' _ h; obtain ⟨x, -, -, -, rfl⟩ := mem_run_cls.mp h; rfl
  | star p => intro inp m r c c' _ h; obtain ⟨-, -, rfl⟩ := mem_run_star.mp h; rfl
  | plus p => intro inp m r c c' _ h; obtain ⟨-, -, -, rfl⟩ := mem_run_plus.mp h; rfl
  | seq a b iha ihb =>
    intro inp m r c c' hg h
    simp only [Re.hasGroup, Bool.or_eq_false_iff] at hg
    obtain ⟨m1, mid, c1, m2, h1, h2, rfl⟩ := mem_run_seq.mp h
    rw [ihb hg.2 h2, iha hg.1 h1]
  | group i re ih =>
    intro inp m r c c' hg h
    simp only [Re.hasGroup, Bool.or_eq_false_iff, beq_eq_false_iff_ne, ne_eq] at hg
    obtain ⟨c0, h1, rfl⟩ := mem_run_group.mp h
    rw [sub_set_ne _ hg.1, ih hg.2 h1]
  | opt re ih =>
    intro inp m r c c' hg h
    simp only [Re.hasGroup] at hg
    rcases mem_run_opt.mp h with h1 | ⟨-, -, rfl⟩
    · exact ih hg h1
    · rfl

theorem mem_findAllAux {r : Regexp} {caps : Caps} : ∀ {s : Str} {skip : Nat} {adj : Bool},
    caps ∈ r.findAllAux s skip adj →
      ∃ pre suf rest, s = pre ++ suf ∧ r.matchHere suf = some (caps, rest) := by
  intro s
  induction s with
  | nil =>
    intro skip adj h
    unfold Regexp.findAllAux at h
    split at h
    · cases hm : r.matchHere [] with
      | none => rw [hm] at h; simp at h
      | some m =>
        rw [hm] at h
        cases adj with
        | true => simp at h
        | false =>
          simp only [Bool.false_eq_true, if_false, List.mem_singleton] at h
          subst h
          exact ⟨[], [], m.2, rfl, by rw [hm]⟩
    · simp at h
  | cons x xs ih =>
    intro skip adj h
    cases skip with
    | succ k =>
      rw [Regexp.findAllAux] at h
      obtain ⟨pre, suf, rest, e, hm⟩ := ih h
      exact ⟨x :: pre, suf, rest, by simp [e], hm⟩
    | zero =>
      rw [Regexp.findAllAux] at h
      cases hm : r.matchHere (x :: xs) with
      | none =>
        rw [hm] at h
        obtain ⟨pre, suf, rest, e, hm2⟩ := ih h
        exact ⟨x :: pre, suf, rest, by simp [e], hm2⟩
      | some m =>
        rw [hm] at h
        simp only at h
        have hcase : caps = m.1 ∨ (∃ k b, caps ∈ r.findAllAux xs k b) := by
          split at h
          · rcases List.mem_append.mp h with h1 | h1
            · left
              cases adj with
              | true => simp at h1
              | false => simpa using h1
            · exact Or.inr ⟨_, _, h1⟩
          · rcases List.mem_cons.mp h with h1 | h1
            · exact Or.inl h1
            · exact Or.inr ⟨_, _, h1⟩
        rcases hcase with rfl | ⟨k, b, h1⟩
        · exact ⟨[], x :: xs, m.2, rfl, by rw [hm]⟩
        · obtain ⟨pre, suf, rest, e, hm2⟩ := ih h1
          exact ⟨x :: pre, suf, rest, by simp [e], hm2⟩

theorem mem_FindAllStringSubmatch {r : Regexp} {caps : Caps} {s : Str}
    (h : caps ∈ r.FindAllStringSubmatch s) :
    ∃ pre suf rest, s = pre ++ suf ∧ r.matchHere suf = some (caps, rest) := by
  unfold Regexp.FindAllStringSubmatch at h
  split at h
  · cases hm : r.matchHere s with
    | none => rw [hm] at h; simp at h
    | some m =>
      rw [hm] at h
      simp only [Option.toList, List.map_cons, List.map_nil, List.mem_singleton] at h
      subst h
      exact ⟨[], s, m.2, rfl, by rw [hm]⟩
  · exact mem_findAllAux h

/-- What a match of the handler pattern looks like: the declaration proper
(`@handler`, handler name, verb, path starting with a slash) is followed by
`opts`, the optional request and response parts, and by the text after the
match. -/
theorem decl_of_matchHere_endpoint {inp rest : Str} {caps : Caps}
    (h : endpointRegex.matchHere inp = some (caps, rest)) :
    ∃ ws1 handler ws2 verb ws3 ptail opts,
      inp = kwHandler ++ (ws1 ++ (handler ++ (ws2 ++ (verb ++ (ws3 ++
        ('/' :: ptail ++ (opts ++ rest))))))) ∧
      ws1 ≠ [] ∧ (∀ a ∈ ws1, isSpaceRe a = true) ∧
      handler ≠ [] ∧ (∀ a ∈ handler, isWord a = true) ∧
      ws2 ≠ [] ∧ (∀ a ∈ ws2, isSpaceRe a = true) ∧
      verb ≠ [] ∧ (∀ a ∈ verb, isWord a = true) ∧
      ws3 ≠ [] ∧ (∀ a ∈ ws3, isSpaceRe a = true) ∧
      (∀ a ∈ ptail, notSpaceLParen a = true) ∧
      caps.length = 6 ∧ sub caps 1 = handler ∧ sub caps 2 = verb ∧ sub caps 3 = '/' :: ptail := by
  obtain ⟨m, c, hh, rfl⟩ := matchHere_eq_some.mp h
  have hmem := List.mem_of_mem_head? hh
  simp only [endpointRegex] at hmem
  obtain ⟨m1, mid1, c1, m1', h1, hmem, rfl⟩ := mem_run_seq.mp hmem
  obtain ⟨rfl, rfl, rfl⟩ := mem_run_lit.mp h1
  obtain ⟨m2, mid2, c2, m2', h2, hmem, rfl⟩ := mem_run_seq.mp hmem
  obtain ⟨rfl, hne1, hws1, rfl⟩ := mem_run_plus.mp h2
  obtain ⟨m3, mid3, c3, m3', h3, hmem, rfl⟩ := mem_run_seq.mp hmem
  obtain ⟨c0, h3g, rfl⟩ := mem_run_group.mp h3
  obtain ⟨rfl, hneh, hhandler, rfl⟩ := mem_run_plus.mp h3g
  obtain ⟨m4, mid4, c4, m4', h4, hmem, rfl⟩ := mem_run_seq.mp hmem
  obtain ⟨rfl, hne2, hws2, rfl⟩ := mem_run_plus.mp h4
  obtain ⟨m5, mid5, c5, m5', h5, hmem, rfl⟩ := mem_run_seq.mp hmem
  obtain ⟨c0', h5g, rfl⟩ := mem_run_group.mp h5
  obtain ⟨rfl, hnev, hverb, rfl⟩ := mem_run_plus.mp h5g
  obtain ⟨m6, mid6, c6, m6', h6, hmem, rfl⟩ := mem_run_seq.mp hmem
  obtain ⟨rfl, hne3, hws3, rfl⟩ := mem_run_plus.mp h6
  obtain ⟨m7, mid7, c7, m7', h7, hmem, rfl⟩ := mem_run_seq.mp hmem
  obtain ⟨c0'', h7g, rfl⟩ := mem_run_group.mp h7
  obtain ⟨m71, mid71, c71, m72, h71, h72, rfl⟩ := mem_run_seq.mp h7g
  obtain ⟨rfl, rfl, rfl⟩ := mem_run_lit.mp h71
  obtain ⟨rfl, hptail, rfl⟩ := mem_run_star.mp h72
  obtain ⟨etail, ltail⟩ := run_sound _ hmem
  refine ⟨m2, m3, m4, m5, m6, m72, m7', ?_, hne1, hws1, hneh, hhandler, hne2, hws2, hnev,
    hverb, hne3, hws3, hptail, ?_⟩
  · rw [etail]; simp [kwHandler]
  · simp only [List.length_set, List.length_replicate] at ltail
    have f1 := run_frame _ 1 (by decide) hmem
    have f2 := run_frame _ 2 (by decide) hmem
    have f3 := run_frame _ 3 (by decide) hmem
    refine ⟨by simp [ltail], ?_, ?_, ?_⟩
    · rw [sub_set_ne _ (by decide), f1]; simp [sub]
    · rw [sub_set_ne _ (by decide), f2]; simp [sub]
    · rw [sub_set_ne _ (by decide), f3]; simp [sub]

theorem block_of_matchHere_apiServiceBlock {inp rest : Str} {caps : Caps}
    (h : apiServiceBlockRegex.matchHere inp = some (caps, rest)) :
    ∃ name body, ApiServiceBlock inp name body rest ∧ caps.length = 2 ∧ sub caps 1 = body := by
  obtain ⟨m, c, hh, rfl⟩ := matchHere_eq_some.mp h
  have hmem := List.mem_of_mem_head? hh
  simp only [apiServiceBlockRegex] at hmem
  obtain ⟨m1, mid1, c1, m1', h1, hmem, rfl⟩ := mem_run_seq.mp hmem
  obtain ⟨rfl, rfl, rfl⟩ := mem_run_lit.mp h1
  obtain ⟨m2, mid2, c2, m2', h2, hmem, rfl⟩ := mem_run_seq.mp hmem
  obtain ⟨rfl, hne1, hws1, rfl⟩ := mem_run_plus.mp h2
  obtain ⟨m3, mid3, c3, m3', h3, hmem, rfl⟩ := mem_run_seq.mp hmem
  obtain ⟨rfl, hne, hname, rfl⟩ := mem_run_plus.mp h3
  obtain ⟨m4, mid4, c4, m4', h4, hmem, rfl⟩ := mem_run_seq.mp hmem
  obtain ⟨rfl, hws2, rfl⟩ := mem_run_star.mp h4
  obtain ⟨m5, mid5, c5, m5', h5, hmem, rfl⟩ := mem_run_seq.mp hmem
  obtain ⟨rfl, rfl, rfl⟩ := mem_run_lit.mp h5
  obtain ⟨m6, mid6, c6, m6', h6, hmem, rfl⟩ := mem_run_seq.mp hmem
  obtain ⟨c0, h6g, rfl⟩ := mem_run_group.mp h6
  obtain ⟨rfl, hneb, hbody, rfl⟩ := mem_run_plus.mp h6g
  obtain ⟨rfl, rfl, rfl⟩ := mem_run_lit.mp hmem
  exact ⟨m3, m6, ⟨m2, m4, rfl, hne1, hws1, hne, hname, hws2, hneb, hbody⟩, by simp, by simp [sub]⟩

theorem rbrace_not_notRBrace : notRBrace (Char.ofNat 125) = false := by decide

theorem matchHere_apiServiceBlock_of_block {inp name body rest : Str}
    (h : ApiServiceBlock inp name body rest) :
    ∃ whole, inp = whole ++ rest ∧ apiServiceBlockRegex.matchHere inp = some ([whole, body], rest) := by
  obtain ⟨ws1, ws2, rfl, hne1, hws1, hne, hname, hws2, hneb, hbody⟩ := h
  refine ⟨kwService ++ (ws1 ++ (name ++ (ws2 ++ (lbrace ++ (body ++ rbrace))))), by simp, ?_⟩
  rw [matchHere_eq_some]
  have h7 := head_run_lit rbrace rest [[], body]
  have h6 := head_run_seq (head_run_group (i := 1) (head_run_plus (p := notRBrace) (w := body)
    (r := rbrace ++ rest) [[], []] hneb hbody
    (by intro x hx; simp [rbrace] at hx; subst hx; exact rbrace_not_notRBrace))) h7
  have h5 := head_run_seq (head_run_lit lbrace (body ++ (rbrace ++ rest)) [[], []]) h6
  have h4 := head_run_seq (head_run_star (p := isSpaceRe) (w := ws2)
    (r := lbrace ++ (body ++ (rbrace ++ rest)))
    [[], []] hws2 (by intro x hx; simp [lbrace] at hx; subst hx; exact lbrace_not_space)) h5
  have h3 := head_run_seq (head_run_plus (p := isApiNameChar) (w := name)
    (r := ws2 ++ (lbrace ++ (body ++ (rbrace ++ rest)))) [[], []] hne hname
    (head_class_false_append (fun a ha => not_apiNameChar_of_space (hws2 a ha))
      (by intro x hx; simp [lbrace] at hx; subst hx; exact lbrace_not_apiNameChar))) h4
  have h2 := head_run_seq (head_run_plus (p := isSpaceRe) (w := ws1)
    (r := name ++ (ws2 ++ (lbrace ++ (body ++ (rbrace ++ rest))))) [[], []] hne1 hws1
    (head_class_false hne (fun a ha => not_space_of_apiNameChar (hname a ha)))) h3
  have h1 := head_run_seq (head_run_lit kwService
    (ws1 ++ (name ++ (ws2 ++ (lbrace ++ (body ++ (rbrace ++ rest)))))) [[], []]) h2
  exact ⟨_, _, h1, by simp⟩

theorem upperChar_not_lower (c : Char) :
    isLowerAZ (upperChar c) = false ∧ upperChar (upperChar c) = upperChar c := by
  by_cases hl : isLowerAZ c = true
  · have hc : c = Char.ofNat c.toNat := (Char.ofNat_toNat c).symm
    simp only [isLowerAZ, Bool.and_eq_true, decide_eq_true_eq] at hl
    obtain ⟨h1, h2⟩ := hl
    generalize c.toNat = n at hc h1 h2
    subst hc
    interval_cases n <;> decide
  · by_cases h1 : c.toNat = 0x131
    · have hc : c = Char.ofNat 0x131 := by rw [← h1, Char.ofNat_toNat]
      subst hc; decide
    · by_cases h2 : c.toNat = 0x17F
      · have hc : c = Char.ofNat 0x17F := by rw [← h2, Char.ofNat_toNat]
        subst hc; decide
      · have hu : upperChar c = c := by simp [upperChar, hl, h1, h2]
        rw [hu, hu]
        exact ⟨by simpa using hl, rfl⟩

/-- Upper-casing a character of `\w` gives a digit, an upper-case letter or `_`. -/
theorem upperChar_of_word {c : Char} (h : isWord c = true) :
    (isDigit09 (upperChar c) || isUpperAZ (upperChar c) || (upperChar c).toNat == 95) = true := by
  by_cases hl : isLowerAZ c = true
  · have hc : c = Char.ofNat c.toNat := (Char.ofNat_toNat c).symm
    simp only [isLowerAZ, Bool.and_eq_true, decide_eq_true_eq] at hl
    obtain ⟨h1, h2⟩ := hl
    generalize c.toNat = n at hc h1 h2
    subst hc
    interval_cases n <;> decide
  · have h1 : ¬ c.toNat = 0x131 := by
      simp only [isWord, isDigit09, isUpperAZ, isLowerAZ, Bool.or_eq_true, Bool.and_eq_true,
        decide_eq_true_eq, beq_iff_eq] at h
      omega
    have h2 : ¬ c.toNat = 0x17F := by
      simp only [isWord, isDigit09, isUpperAZ, isLowerAZ, Bool.or_eq_true, Bool.and_eq_true,
        decide_eq_true_eq, beq_iff_eq] at h
      omega
    have hu : upperChar c = c := by simp [upperChar, hl, h1, h2]
    rw [hu]
    simp only [Bool.not_eq_true] at hl
    simp only [isWord, hl, Bool.or_false] at h
    exact h

theorem apiServiceBlock_anchored : apiServiceBlockRegex.anchored = false := rfl

theorem apiServiceDecl_of_block {inp name body rest : Str} (h : ApiServiceBlock inp name body rest) :
    ApiServiceDecl inp name (body ++ (rbrace ++ rest)) := by
  obtain ⟨ws1, ws2, e, h1, h2, h3, h4, h5, -, -⟩ := h
  exact ⟨ws1, ws2, e, h1, h2, h3, h4, h5⟩

theorem find_apiServiceBlock_of_first {pre suf name body rest : Str}
    (hb : ApiServiceBlock suf name body rest) (hpre : NoApiServiceDeclBefore pre suf) :
    ∃ whole, apiServiceBlockRegex.FindStringSubmatch (pre ++ suf) = some [whole, body] := by
  obtain ⟨whole, -, hm⟩ := matchHere_apiServiceBlock_of_block hb
  refine ⟨whole, ?_⟩
  rw [FindStringSubmatch_eq_some apiServiceBlock_anchored]
  refine ⟨pre, suf, rest, rfl, hm, ?_⟩
  intro p1 p2 e hne
  cases hm2 : apiServiceBlockRegex.matchHere (p2 ++ suf) with
  | none => rfl
  | some m =>
    obtain ⟨caps, rest2⟩ := m
    obtain ⟨n, b, hb2, -, -⟩ := block_of_matchHere_apiServiceBlock hm2
    exact absurd (apiServiceDecl_of_block hb2) (hpre p1 p2 e hne n _)

theorem noApiServiceDeclBefore_of_no_s {pre suf : Str} (h : 's' ∉ pre) :
    NoApiServiceDeclBefore pre suf := by
  intro p1 p2 e hne n r hd
  obtain ⟨ws1, ws2, e2, -⟩ := hd
  cases p2 with
  | nil => exact hne rfl
  | cons x xs =>
    simp only [kwService, List.cons_append, List.cons.injEq] at e2
    obtain ⟨rfl, -⟩ := e2
    exact h (by rw [e]; simp)

theorem fooApiBlock_decl (post : Str) :
    ApiServiceBlock (fooApiBlock ++ post) "foo-api".toList " @handler H\n get /x ".toList post :=
  ⟨[' '], [' '], rfl, by decide, by decide, by decide, by decide, by decide, by decide, by decide⟩

theorem findAllAux_skip (r : Regexp) (rest : Str) : ∀ (m : Str) (adj : Bool), m ≠ [] →
    r.findAllAux (m ++ rest) m.length adj = r.findAllAux rest 0 true := by
  intro m
  induction m with
  | nil => intro adj h; exact absurd rfl h
  | cons x xs ih =>
    intro adj _
    cases xs with
    | nil => simp [Regexp.findAllAux]
    | cons y ys =>
      have := ih (ys.length + 1 == 0) (by simp)
      simp only [List.length_cons, List.cons_append] at this ⊢
      rw [Regexp.findAllAux]
      exact this

theorem findAllAux_adj {r : Regexp} (hr : NonEmptyMatches r) (s : Str) :
    r.findAllAux s 0 true = r.findAllAux s 0 false := by
  cases s with
  | nil =>
    have : r.matchHere [] = none := by
      cases hm : r.matchHere [] with
      | none => rfl
      | some m => exact absurd (hr [] m.1 m.2 hm) (by simp)
    simp [Regexp.findAllAux, this]
  | cons x xs =>
    rw [Regexp.findAllAux, Regexp.findAllAux]
    cases hm : r.matchHere (x :: xs) with
    | none => rfl
    | some m =>
      have hlt := hr (x :: xs) m.1 m.2 hm
      have hne : ¬ ((x :: xs).length - m.2.length = 0) := by omega
      simp only [hne, if_false]

theorem findAllAux_cons_some {r : Regexp} (hr : NonEmptyMatches r) {x : Char} {xs rest : Str}
    {caps : Caps} (hm : r.matchHere (x :: xs) = some (caps, rest)) (adj : Bool) :
    r.findAllAux (x :: xs) 0 adj = caps :: r.findAllAux rest 0 false := by
  have hlt := hr _ _ _ hm
  obtain ⟨m, e, -, -⟩ := matchHere_suffix hm
  rw [Regexp.findAllAux, hm]
  have hlen : (x :: xs).length - rest.length = m.length := by rw [e]; simp
  have hmpos : 0 < m.length := by
    have : (x :: xs).length = m.length + rest.length := by rw [e]; simp
    omega
  simp only [hlen]
  rw [if_neg (by omega)]
  congr 1
  cases m with
  | nil => simp at hmpos
  | cons y ys =>
    simp only [List.cons_append, List.cons.injEq] at e
    obtain ⟨-, rfl⟩ := e
    simp only [List.length_cons, Nat.add_sub_cancel]
    cases ys with
    | nil => simpa using findAllAux_adj hr rest
    | cons z zs =>
      rw [findAllAux_skip r rest (z :: zs) _ (by simp)]
      exact findAllAux_adj hr rest

/-- The matches reported by `FindAllStringSubmatch` are those found reading the
text from left to right. -/
theorem scan_FindAllStringSubmatch {r : Regexp} (ha : r.anchored = false)
    (hr : NonEmptyMatches r) (s : Str) :
    Scan (fun inp caps rest => r.matchHere inp = some (caps, rest)) s
      (r.FindAllStringSubmatch s) := by
  unfold Regexp.FindAllStringSubmatch
  simp only [ha, Bool.false_eq_true, if_false]
  generalize hn : s.length = n
  induction n using Nat.strong_induction_on generalizing s with
  | _ n ih =>
    cases s with
    | nil =>
      have : r.matchHere [] = none := by
        cases hm : r.matchHere [] with
        | none => rfl
        | some m => exact absurd (hr [] m.1 m.2 hm) (by simp)
      simp only [Regexp.findAllAux, this, if_true]
      exact Scan.done
    | cons x xs =>
      cases hm : r.matchHere (x :: xs) with
      | none =>
        rw [Regexp.findAllAux, hm]
        refine Scan.skip x xs _ ?_ (ih xs.length (by rw [← hn]; simp) xs rfl)
        intro a rest h
        rw [hm] at h
        simp at h
      | some m =>
        obtain ⟨caps, rest⟩ := m
        rw [findAllAux_cons_some hr hm]
        have hlt := hr _ _ _ hm
        exact Scan.take _ caps rest _ hm (ih rest.length (by rw [← hn]; exact hlt) rest rfl)

theorem Scan.map {α β : Type} {P : Str → α → Str → Prop} {Q : Str → β → Str → Prop} (f : α → β)
    (hPQ : ∀ inp a rest, P inp a rest → Q inp (f a) rest)
    (hQP : ∀ inp b rest, Q inp b rest → ∃ a, P inp a rest)
    {s : Str} {out : List α} (h : Scan P s out) : Scan Q s (out.map f) := by
  induction h with
  | done => exact Scan.done
  | skip x xs out hno _ ih =>
    refine Scan.skip x xs _ ?_ ih
    intro b r hq
    obtain ⟨a, hp⟩ := hQP _ _ _ hq
    exact hno a r hp
  | take inp a rest out hp _ ih => exact Scan.take inp (f a) rest _ (hPQ _ _ _ hp) ih

/-- Reading is deterministic when an item is determined by the text it starts
and is never empty. -/
theorem Scan.unique {α : Type} {P : Str → α → Str → Prop}
    (hfun : ∀ inp a rest a' rest', P inp a rest → P inp a' rest' → a = a' ∧ rest = rest')
    (hne : ∀ inp a rest, P inp a rest → rest.length < inp.length)
    {s : Str} {out out' : List α} (h : Scan P s out) (h' : Scan P s out') : out = out' := by
  induction h generalizing out' with
  | done =>
    cases h' with
    | done => rfl
    | take inp a rest out hp _ => exact absurd (hne _ _ _ hp) (by simp)
  | skip x xs out hno _ ih =>
    cases h' with
    | skip _ _ _ _ h2 => exact ih h2
    | take inp a rest out hp _ => exact absurd hp (hno a rest)
  | take inp a rest out hp _ ih =>
    cases h' with
    | done => exact absurd (hne _ _ _ hp) (by simp)
    | skip _ _ _ hno _ => exact absurd hp (hno a rest)
    | take _ a' rest' out' hp' h2 =>
      obtain ⟨rfl, rfl⟩ := hfun _ _ _ _ _ hp hp'
      rw [ih h2]

theorem not_space_of_word {a : Char} (h : isWord a = true) : isSpaceRe a = false :=
  not_space_of_apiNameChar (by simp [isApiNameChar, h])

theorem not_word_of_space {a : Char} (h : isSpaceRe a = true) : isWord a = false := by
  cases h2 : isWord a with
  | false => rfl
  | true => rw [not_space_of_word h2] at h; simp at h

theorem run_lit_nil {s inp : Str} {c : Caps} (h : ¬ s <+: inp) : (Re.lit s).run inp c = [] := by
  have h2 : s.isPrefixOf inp = false := by
    cases hb : s.isPrefixOf inp with
    | false => rfl
    | true => exact absurd (List.isPrefixOf_iff_prefix.mp hb) h
  simp [Re.run, h2]

theorem run_seq_nil_left {a b : Re} {inp : Str} {c : Caps} (h : a.run inp c = []) :
    (Re.seq a b).run inp c = [] := by
  simp [Re.run, h]

theorem typeDecl_of_matchHere {inp rest : Str} {caps : Caps}
    (h : typeRegex.matchHere inp = some (caps, rest)) :
    ∃ name, TypeDecl inp name rest ∧ caps.length = 2 ∧ sub caps 1 = name := by
  obtain ⟨m, c, hh, rfl⟩ := matchHere_eq_some.mp h
  have hmem := List.mem_of_mem_head? hh
  simp only [typeRegex] at hmem
  obtain ⟨m1, mid1, c1, m1', h1, hmem, rfl⟩ := mem_run_seq.mp hmem
  obtain ⟨rfl, rfl, rfl⟩ := mem_run_lit.mp h1
  obtain ⟨m2, mid2, c2, m2', h2, hmem, rfl⟩ := mem_run_seq.mp hmem
  obtain ⟨rfl, hne1, hws1, rfl⟩ := mem_run_plus.mp h2
  obtain ⟨m3, mid3, c3, m3', h3, hmem, rfl⟩ := mem_run_seq.mp hmem
  obtain ⟨c0, h3g, rfl⟩ := mem_run_group.mp h3
  obtain ⟨rfl, hne, hname, rfl⟩ := mem_run_plus.mp h3g
  obtain ⟨m4, mid4, c4, m4', h4, hmem, rfl⟩ := mem_run_seq.mp hmem
  obtain ⟨rfl, hne2, hws2, rfl⟩ := mem_run_plus.mp h4
  obtain ⟨m5, mid5, c5, m5', h5, hlast, rfl⟩ := mem_run_seq.mp hmem
  obtain ⟨rfl, rfl, rfl⟩ := mem_run_lit.mp hlast
  rcases mem_run_opt.mp h5 with h5 | ⟨rfl, rfl, rfl⟩
  · obtain ⟨m51, mid51, c51, m52, h51, h52, rfl⟩ := mem_run_seq.mp h5
    obtain ⟨rfl, rfl, rfl⟩ := mem_run_lit.mp h51
    obtain ⟨rfl, hws3, rfl⟩ := mem_run_star.mp h52
    exact ⟨m3, ⟨m2, m4, kwStruct ++ m52, by simp [kwType, kwStruct], hne1, hws1, hne, hname, hne2, hws2,
      Or.inr ⟨m52, rfl, hws3⟩⟩, by simp, by simp [sub]⟩
  · exact ⟨m3, ⟨m2, m4, [], by simp [kwType], hne1, hws1, hne, hname, hne2, hws2, Or.inl rfl⟩,
      by simp, by simp [sub]⟩

theorem matchHere_type_of_decl {inp name rest : Str} (h : TypeDecl inp name rest) :
    ∃ whole, typeRegex.matchHere inp = some ([whole, name], rest) := by
  obtain ⟨ws1, ws2, kw, rfl, hne1, hws1, hne, hname, hne2, hws2, hkw⟩ := h
  have hkwhead : ∀ x ∈ (kw ++ (lbrace ++ rest)).head?, isSpaceRe x = false := by
    rcases hkw with rfl | ⟨ws3, rfl, -⟩
    · intro x hx; simp [lbrace] at hx; subst hx; exact lbrace_not_space
    · intro x hx; simp [kwStruct] at hx; subst hx; decide
  have hopt : ∃ c, ((Re.seq (.opt (.seq (.lit ['s', 't', 'r', 'u', 'c', 't']) (.star isSpaceRe)))
      (.lit lbrace)).run (kw ++ (lbrace ++ rest)) [[], name]).head? =
      some (kw ++ lbrace, rest, c) ∧ c = [[], name] := by
    rcases hkw with rfl | ⟨ws3, rfl, hws3⟩
    · refine ⟨_, ?_, rfl⟩
      have hnil : (Re.seq (.lit ['s', 't', 'r', 'u', 'c', 't']) (.star isSpaceRe)).run
          ([] ++ (lbrace ++ rest)) [[], name] = [] := by
        apply run_seq_nil_left
        apply run_lit_nil
        rintro ⟨t, ht⟩
        simp [lbrace] at ht
      exact head_run_seq (head_run_opt_none hnil) (head_run_lit lbrace rest _)
    · refine ⟨_, ?_, rfl⟩
      have h1 := head_run_seq (head_run_lit kwStruct (ws3 ++ (lbrace ++ rest)) [[], name])
        (head_run_star (p := isSpaceRe) (w := ws3) (r := lbrace ++ rest) [[], name] hws3
          (by intro x hx; simp [lbrace] at hx; subst hx; exact lbrace_not_space))
      have h2 := head_run_seq (head_run_opt_some h1) (head_run_lit lbrace rest _)
      simpa [kwStruct, List.append_assoc] using h2
  obtain ⟨c, h5, rfl⟩ := hopt
  refine ⟨kwType ++ (ws1 ++ (name ++ (ws2 ++ (kw ++ lbrace)))), ?_⟩
  rw [matchHere_eq_some]
  have h4 := head_run_seq (head_run_plus (p := isSpaceRe) (w := ws2) (r := kw ++ (lbrace ++ rest))
    [[], name] hne2 hws2 hkwhead) h5
  have h3 := head_run_seq (head_run_group (i := 1) (head_run_plus (p := isWord) (w := name)
    (r := ws2 ++ (kw ++ (lbrace ++ rest))) [[], []] hne hname
    (head_class_false hne2 (fun a ha => not_word_of_space (hws2 a ha))))) h4
  have h2 := head_run_seq (head_run_plus (p := isSpaceRe) (w := ws1)
    (r := name ++ (ws2 ++ (kw ++ (lbrace ++ rest)))) [[], []] hne1 hws1
    (head_class_false hne (fun a ha => not_space_of_word (hname a ha)))) h3
  have h1 := head_run_seq (head_run_lit kwType (ws1 ++ (name ++ (ws2 ++ (kw ++ (lbrace ++ rest)))))
    [[], []]) h2
  exact ⟨_, _, h1, by simp⟩

theorem typeRegex_nonEmpty : NonEmptyMatches typeRegex := by
  intro inp caps rest h
  obtain ⟨name, ⟨ws1, ws2, kw, rfl, -⟩, -, -⟩ := typeDecl_of_matchHere h
  simp [kwType]
  omega

theorem extractTypes_eq_map (content : Str) :
    extractTypes content = (typeRegex.FindAllStringSubmatch content).map (fun m => sub m 1) := by
  unfold extractTypes
  rw [← List.filterMap_eq_map]
  apply List.filterMap_congr
  intro caps hcaps
  obtain ⟨pre, suf, rest, -, hm⟩ := mem_FindAllStringSubmatch hcaps
  obtain ⟨m, -, hl, -⟩ := matchHere_suffix hm
  simp [hl, typeRegex]

theorem endpointRegex_nonEmpty : NonEmptyMatches endpointRegex := by
  intro inp caps rest h
  obtain ⟨w1, handler, w2, verb, w3, ptail, opts, rfl, -⟩ := decl_of_matchHere_endpoint h
  simp [kwHandler]
  omega

theorem endpointOfMatch_of_length {caps : Caps} (h : caps.length = 6) :
    endpointOfMatch caps =
      some { Handler := sub caps 1, Method := ToUpper (sub caps 2), Path := sub caps 3,
             Request := TrimSpace (sub caps 4), Response := TrimSpace (sub caps 5) } := by
  simp [endpointOfMatch, h]

theorem scan_handlerDecls (body : Str) :
    Scan HandlerDecl body ((endpointRegex.FindAllStringSubmatch body).filterMap endpointOfMatch) ∧
    ∀ out, Scan HandlerDecl body out →
      out = (endpointRegex.FindAllStringSubmatch body).filterMap endpointOfMatch := by
  have hscan : Scan HandlerDecl body
      ((endpointRegex.FindAllStringSubmatch body).filterMap endpointOfMatch) := by
    have hmap : (endpointRegex.FindAllStringSubmatch body).filterMap endpointOfMatch =
        (endpointRegex.FindAllStringSubmatch body).map (fun caps =>
          ({ Handler := sub caps 1, Method := ToUpper (sub caps 2), Path := sub caps 3,
             Request := TrimSpace (sub caps 4), Response := TrimSpace (sub caps 5) } : Endpoint)) := by
      rw [← List.filterMap_eq_map]
      apply List.filterMap_congr
      intro caps hcaps
      obtain ⟨pre, suf, rest, -, hm⟩ := mem_FindAllStringSubmatch hcaps
      obtain ⟨m, -, hl, -⟩ := matchHere_suffix hm
      exact endpointOfMatch_of_length hl
    rw [hmap]
    refine Scan.map _ ?_ ?_ (scan_FindAllStringSubmatch rfl endpointRegex_nonEmpty body)
    · intro inp caps rest h
      obtain ⟨m, -, hl, -⟩ := matchHere_suffix h
      exact ⟨caps, h, endpointOfMatch_of_length hl⟩
    · rintro inp e rest ⟨caps, h, -⟩
      exact ⟨caps, h⟩
  refine ⟨hscan, fun out h => Scan.unique ?_ ?_ h hscan⟩
  · rintro inp a rest a' rest' ⟨caps, h, he⟩ ⟨caps', h', he'⟩
    rw [h] at h'
    simp only [Option.some.injEq, Prod.mk.injEq] at h'
    obtain ⟨rfl, rfl⟩ := h'
    rw [he] at he'
    exact ⟨Option.some.inj he', rfl⟩
  · rintro inp a rest ⟨caps, h, -⟩
    exact endpointRegex_nonEmpty _ _ _ h

theorem not_hasApiServiceBlock_iff {content : Str} :
    ¬ HasApiServiceBlock content ↔ apiServiceBlockRegex.FindStringSubmatch content = none := by
  rw [FindStringSubmatch_eq_none apiServiceBlock_anchored]
  constructor
  · intro h pre suf e
    cases hm : apiServiceBlockRegex.matchHere suf with
    | none => rfl
    | some m =>
      obtain ⟨caps, rest⟩ := m
      obtain ⟨name, body, hb, -, -⟩ := block_of_matchHere_apiServiceBlock hm
      exact absurd ⟨pre, suf, name, body, rest, e, hb⟩ h
  · rintro h ⟨pre, suf, name, body, rest, e, hb⟩
    obtain ⟨whole, -, hm⟩ := matchHere_apiServiceBlock_of_block hb
    rw [h pre suf e] at hm
    simp at hm

theorem extractEndpoints_of_first {content pre name body rest : Str}
    (h : FirstApiServiceBlock content pre name body rest) :
    extractEndpoints content =
      (endpointRegex.FindAllStringSubmatch body).filterMap endpointOfMatch := by
  obtain ⟨suf, rfl, hb, hfirst⟩ := h
  obtain ⟨whole, -, hm⟩ := matchHere_apiServiceBlock_of_block hb
  have hf : apiServiceBlockRegex.FindStringSubmatch (pre ++ suf) = some [whole, body] := by
    rw [FindStringSubmatch_eq_some apiServiceBlock_anchored]
    refine ⟨pre, suf, rest, rfl, hm, ?_⟩
    intro p1 p2 e hne
    cases hm2 : apiServiceBlockRegex.matchHere (p2 ++ suf) with
    | none => rfl
    | some m =>
      obtain ⟨caps, rest2⟩ := m
      obtain ⟨n, b, hb2, -, -⟩ := block_of_matchHere_apiServiceBlock hm2
      exact absurd hb2 (hfirst p1 p2 e hne n b rest2)
  unfold extractEndpoints
  rw [hf]
  simp [sub]

theorem firstApiServiceBlock_of_check {pre suf name body rest : Str}
    (hb : ApiServiceBlock suf name body rest)
    (hpre : ∀ p2 ∈ pre.tails, p2 ≠ [] → apiServiceBlockRegex.matchHere (p2 ++ suf) = none) :
    FirstApiServiceBlock (pre ++ suf) pre name body rest := by
  refine ⟨suf, rfl, hb, ?_⟩
  intro p1 p2 e hne n b r hb2
  obtain ⟨whole, -, hm⟩ := matchHere_apiServiceBlock_of_block hb2
  have hmem : p2 ∈ pre.tails := (List.mem_tails _ _).mpr ⟨p1, e.symm⟩
  rw [hpre p2 hmem hne] at hm
  simp at hm

theorem TrimSuffix_eq_nil_iff {name suf : Str} (hne : name ≠ []) :
    TrimSuffix name suf = [] ↔ name = suf := by
  by_cases h : suf <:+ name
  · obtain ⟨t, rfl⟩ := h
    rw [TrimSuffix_append]
    constructor
    · rintro rfl; rfl
    · intro h2
      have : t ++ suf = [] ++ suf := by simpa using h2
      exact List.append_cancel_right this
  · rw [TrimSuffix_of_not_suffix h]
    constructor
    · intro h2; exact absurd h2 hne
    · rintro rfl; exact absurd (List.suffix_refl _) h

/-- When the text has a service declaration, `ParseAPISpecification` reports
the no-service error exactly when the name of the first declaration is `-api`;
otherwise it succeeds with that name, one trailing `-api` removed. -/
theorem ParseAPISpecification_of_first {apiFile content pre name rest : Str}
    (h : FirstApiServiceDecl content pre name rest) :
    (name = dashApi ∧ ParseAPISpecification apiFile (some content) = .error .noServiceName) ∨
    (name ≠ dashApi ∧
      ParseAPISpecification apiFile (some content) =
        .ok { FilePath := apiFile, ServiceName := TrimSuffix name dashApi,
              Endpoints := extractEndpoints content, Types := extractTypes content }) := by
  have hname := extractServiceName_of_first h
  obtain ⟨suf, -, ⟨ws1, ws2, -, -, -, hne, -, -⟩, -⟩ := h
  by_cases hd : name = dashApi
  · left
    refine ⟨hd, ?_⟩
    have h0 : extractServiceName content = [] := by
      rw [hname]; exact (TrimSuffix_eq_nil_iff hne).mpr hd
    simp only [ParseAPISpecification, h0, if_true]
  · right
    refine ⟨hd, ?_⟩
    have h0 : ¬ extractServiceName content = [] := by
      rw [hname]; exact fun h2 => hd ((TrimSuffix_eq_nil_iff hne).mp h2)
    rw [hname] at h0
    simp only [ParseAPISpecification, hname, if_neg h0]

theorem afterLoops_goZeroVersion (fs : FileSystem) (p : Str) :
    (afterLoops fs p).Summary.GoZeroVersion = [] := by
  unfold afterLoops
  rw [foldl_preserves (fun a => a.Summary.GoZeroVersion) (scanProtoFile fs)
      (fun a f => by rw [scanProtoFile_eq]),
    foldl_preserves (fun a => a.Summary.GoZeroVersion) (scanAPIFile fs)
      (fun a f => by rw [scanAPIFile_eq])]

theorem scanDirectory_without_go_mod {fs : FileSystem} {p : Str}
    (hmod : fs.ReadFile (Join p "go.mod".toList) = none) :
    (scanDirectory fs p).Dependencies = [] ∧ (scanDirectory fs p).Summary.TotalDependencies = 0 ∧
    (scanDirectory fs p).Summary.GoZeroVersion = [] := by
  obtain ⟨f1, f2, -⟩ := afterLoops_frame fs p
  have f3 := afterLoops_goZeroVersion fs p
  have hp : parseDependencies fs p = .error .goModUnreadable := by
    unfold parseDependencies
    rw [hmod]
  rw [scanDirectory_eq, hp]
  exact ⟨f1, f2, f3⟩

theorem parseDependencies_manifestFS (text p : Str) :
    parseDependencies (manifestFS text) p = .ok (parseManifest text) := rfl

theorem decl_of_matchHere_rpcMethod {inp rest : Str} {caps : Caps}
    (h : rpcMethodRegex.matchHere inp = some (caps, rest)) :
    ∃ name req resp, RpcMethodDecl inp name req resp rest ∧ caps.length = 4 ∧
      sub caps 1 = name ∧ sub caps 2 = req ∧ sub caps 3 = resp := by
  obtain ⟨m, c, hh, rfl⟩ := matchHere_eq_some.mp h
  have hmem := List.mem_of_mem_head? hh
  simp only [rpcMethodRegex, upperIdentRe] at hmem
  obtain ⟨m1, mid1, c1, m1', h1, hmem1, rfl⟩ := mem_run_seq.mp hmem
  obtain ⟨rfl, rfl, rfl⟩ := mem_run_lit.mp h1
  obtain ⟨m2, mid2, c2, m2', h2, hmem2, rfl⟩ := mem_run_seq.mp hmem1
  obtain ⟨rfl, hne1, hws1, rfl⟩ := mem_run_plus.mp h2
  obtain ⟨m3, mid3, c3, m3', h3, hmem3, rfl⟩ := mem_run_seq.mp hmem2
  obtain ⟨c0, h3g, rfl⟩ := mem_run_group.mp h3
  obtain ⟨m31, mid31, c31, m32, h31, h32, rfl⟩ := mem_run_seq.mp h3g
  obtain ⟨u, hu, rfl, rfl, rfl⟩ := mem_run_cls.mp h31
  obtain ⟨rfl, hident, rfl⟩ := mem_run_star.mp h32
  obtain ⟨m4, mid4, c4, m4', h4, hmem4, rfl⟩ := mem_run_seq.mp hmem3
  obtain ⟨rfl, hws2, rfl⟩ := mem_run_star.mp h4
  obtain ⟨m5, mid5, c5, m5', h5, hmem5, rfl⟩ := mem_run_seq.mp hmem4
  obtain ⟨rfl, rfl, rfl⟩ := mem_run_lit.mp h5
  obtain ⟨m6, mid6, c6, m6', h6, hmem6, rfl⟩ := mem_run_seq.mp hmem5
  obtain ⟨c0', h6g, rfl⟩ := mem_run_group.mp h6
  obtain ⟨rfl, hnereq, hreq, rfl⟩ := mem_run_plus.mp h6g
  obtain ⟨m7, mid7, c7, m7', h7, hmem7, rfl⟩ := mem_run_seq.mp hmem6
  obtain ⟨rfl, rfl, rfl⟩ := mem_run_lit.mp h7
  obtain ⟨m8, mid8, c8, m8', h8, hmem8, rfl⟩ := mem_run_seq.mp hmem7
  obtain ⟨rfl, hws3, rfl⟩ := mem_run_star.mp h8
  obtain ⟨m9, mid9, c9, m9', h9, hmem9, rfl⟩ := mem_run_seq.mp hmem8
  obtain ⟨rfl, rfl, rfl⟩ := mem_run_lit.mp h9
  obtain ⟨m10, mid10, c10, m10', h10, hmem10, rfl⟩ := mem_run_seq.mp hmem9
  obtain ⟨rfl, hws4, rfl⟩ := mem_run_star.mp h10
  obtain ⟨m11, mid11, c11, m11', h11, hmem11, rfl⟩ := mem_run_seq.mp hmem10
  obtain ⟨rfl, rfl, rfl⟩ := mem_run_lit.mp h11
  obtain ⟨m12, mid12, c12, m12', h12, hmem12, rfl⟩ := mem_run_seq.mp hmem11
  obtain ⟨c0'', h12g, rfl⟩ := mem_run_group.mp h12
  obtain ⟨rfl, hneresp, hresp, rfl⟩ := mem_run_plus.mp h12g
  obtain ⟨rfl, rfl, rfl⟩ := mem_run_lit.mp hmem12
  refine ⟨u :: m32, m6, m12, ⟨m2, m4, m8, m10, by simp [kwRpc, kwReturns], hne1, hws1,
    ⟨u, m32, rfl, hu, hident⟩, hws2, hnereq, hreq, hws3, hws4, hneresp, hresp⟩, by simp, ?_, ?_, ?_⟩
  · simp [sub]
  · simp [sub]
  · simp [sub]

/-- What a match of the RPC service-block pattern looks like. -/
theorem block_of_matchHere_rpcServiceBlock {inp rest : Str} {caps : Caps}
    (h : rpcServiceBlockRegex.matchHere inp = some (caps, rest)) :
    ∃ head body, inp = head ++ (body ++ (rbrace ++ rest)) ∧ body ≠ [] ∧
      (∀ a ∈ body, notRBrace a = true) ∧ caps.length = 2 ∧ sub caps 1 = body := by
  obtain ⟨m, c, hh, rfl⟩ := matchHere_eq_some.mp h
  have hmem := List.mem_of_mem_head? hh
  simp only [rpcServiceBlockRegex, upperIdentRe] at hmem
  obtain ⟨m1, mid1, c1, m1', h1, hmem1, rfl⟩ := mem_run_seq.mp hmem
  obtain ⟨e1, -⟩ := run_sound _ h1
  obtain ⟨m2, mid2, c2, m2', h2, hmem2, rfl⟩ := mem_run_seq.mp hmem1
  obtain ⟨e2, -⟩ := run_sound _ h2
  obtain ⟨m3, mid3, c3, m3', h3, hmem3, rfl⟩ := mem_run_seq.mp hmem2
  obtain ⟨e3, l3⟩ := run_sound _ h3
  obtain ⟨m4, mid4, c4, m4', h4, hmem4, rfl⟩ := mem_run_seq.mp hmem3
  obtain ⟨e4, -⟩ := run_sound _ h4
  obtain ⟨m5, mid5, c5, m5', h5, hmem5, rfl⟩ := mem_run_seq.mp hmem4
  obtain ⟨e5, l5⟩ := run_sound _ h5
  obtain ⟨m6, mid6, c6, m6', h6, hmem6, rfl⟩ := mem_run_seq.mp hmem5
  obtain ⟨c0, h6g, rfl⟩ := mem_run_group.mp h6
  obtain ⟨rfl, hneb, hbody, rfl⟩ := mem_run_plus.mp h6g
  obtain ⟨rfl, rfl, rfl⟩ := mem_run_lit.mp hmem6
  have hl : c0.length = 2 := by
    have l1 := (run_sound _ h1).2
    have l2 := (run_sound _ h2).2
    have l4 := (run_sound _ h4).2
    rw [l5, l4, l3, l2, l1]
    simp [rpcServiceBlockRegex]
  refine ⟨m1 ++ (m2 ++ (m3 ++ (m4 ++ m5))), m6, ?_, hneb, hbody, by simp [hl], ?_⟩
  · rw [e1, e2, e3, e4, e5]; simp
  · rw [sub_set_ne _ (by decide), sub_set_eq _ (by omega)]

theorem rpcServiceBlock_anchored : rpcServiceBlockRegex.anchored = false := rfl

theorem specStreamDirection_cases (req resp : Str) :
    (Contains req kwStream = true → Contains resp kwStream = false →
      specStreamDirection req resp = "request".toList) ∧
    (Contains req kwStream = false → Contains resp kwStream = true →
      specStreamDirection req resp = "response".toList) ∧
    (Contains req kwStream = true → Contains resp kwStream = true →
      specStreamDirection req resp = "bidirectional".toList) ∧
    (Contains req kwStream = false → Contains resp kwStream = false →
      specStreamDirection req resp = []) := by
  refine ⟨?_, ?_, ?_, ?_⟩ <;> intro h1 h2 <;> simp [specStreamDirection, h1, h2]

theorem rpcMethodOfMatch_stream {caps : Caps} (hl : caps.length = 4) :
    rpcMethodOfMatch caps =
      some { Name := sub caps 1, Request := TrimSpace (sub caps 2),
             Response := TrimSpace (sub caps 3),
             Stream := specStreamDirection (sub caps 2) (sub caps 3) } := by
  unfold rpcMethodOfMatch specStreamDirection
  rw [if_pos (by omega)]
  cases h1 : Contains (sub caps 2) kwStream <;> cases h2 : Contains (sub caps 3) kwStream <;>
    simp

mutual
theorem walkNode_prune {σ : Type} (onFile : Str → σ → σ) (path : Str) :
    ∀ (t : Tree) (s : σ),
      (walkNode (pruneFn onFile) path t s).1 = (visibleFiles path t).foldl (fun s p => onFile p s) s
  | .file name, s => by
    simp [walkNode, visibleFiles, pruneFn]
  | .dir name entries, s => by
    rw [walkNode, visibleFiles]
    by_cases hskip : skipDirName name = true
    · simp [pruneFn, hskip]
    · simp only [pruneFn, if_true, hskip, Bool.false_eq_true, if_false]
      exact walkEntries_prune onFile path entries s
theorem walkEntries_prune {σ : Type} (onFile : Str → σ → σ) (path : Str) :
    ∀ (ts : List Tree) (s : σ),
      walkEntries (pruneFn onFile) path ts s =
        (visibleEntries path ts).foldl (fun s p => onFile p s) s
  | [], s => by simp [walkEntries, visibleEntries]
  | .file name :: ts, s => by
    rw [walkEntries, visibleEntries, List.foldl_append,
      ← walkNode_prune onFile (Join path name) (.file name) s]
    have h2 : (walkNode (pruneFn onFile) (Join path name) (.file name) s).2 = false := by
      simp [walkNode, pruneFn]
    simp only [h2, Bool.false_eq_true, if_false]
    exact walkEntries_prune onFile path ts _
  | .dir name entries :: ts, s => by
    rw [walkEntries, visibleEntries, List.foldl_append,
      ← walkNode_prune onFile (Join path name) (.dir name entries) s]
    exact walkEntries_prune onFile path ts _
end

theorem Walk_prune {σ : Type} (fs : FileSystem) (root : Str) (onFile : Str → σ → σ) (init : σ) :
    Walk fs root (pruneFn onFile) init =
      (visibleFrom fs root).foldl (fun s p => onFile p s) init := by
  unfold Walk visibleFrom
  cases fs.tree root with
  | none => rfl
  | some t => exact walkNode_prune onFile root t init

theorem foldl_filter_append (q : Str → Bool) (files : List Str) (init : List Str) :
    files.foldl (fun acc p => if q p = true then acc ++ [p] else acc) init =
      init ++ files.filter q := by
  induction files generalizing init with
  | nil => simp
  | cons f fs' ih =>
    rw [List.foldl_cons, ih]
    by_cases hq : q f = true
    · simp [hq]
    · simp [hq]

theorem discoverAPIFiles_eq (fs : FileSystem) (root : Str) :
    (discoverAPIFiles fs root).1 =
      (visibleFrom fs root).filter (fun p => HasSuffix p ".api".toList) := by
  have h : (discoverAPIFiles fs root).1 =
      Walk fs root (pruneFn (fun path (acc : List Str) =>
        if HasSuffix path ".api".toList = true then acc ++ [path] else acc)) [] := rfl
  rw [h, Walk_prune, foldl_filter_append]
  simp

theorem discoverProtoFiles_eq (fs : FileSystem) (root : Str) :
    (discoverProtoFiles fs root).1 =
      (visibleFrom fs root).filter (fun p => HasSuffix p ".proto".toList) := by
  have h : (discoverProtoFiles fs root).1 =
      Walk fs root (pruneFn (fun path (acc : List Str) =>
        if HasSuffix path ".proto".toList = true then acc ++ [path] else acc)) [] := rfl
  rw [h, Walk_prune, foldl_filter_append]
  simp

theorem foldl_filterMap_append {α β : Type} (f : α → Option β) (xs : List α) (init : List β) :
    xs.foldl (fun acc p => acc ++ (f p).toList) init = init ++ xs.filterMap f := by
  induction xs generalizing init with
  | nil => simp
  | cons x xs' ih =>
    rw [List.foldl_cons, ih]
    cases hf : f x with
    | none => simp [List.filterMap_cons, hf]
    | some b => simp [List.filterMap_cons, hf]

theorem discoverConfigFiles_eq (fs : FileSystem) (root : Str) :
    (discoverConfigFiles fs root).1 =
      (visibleFrom fs root).filterMap (fun p =>
        (configFileType p).map (fun ty => ({ Path := p, Type_ := ty } : ConfigFile))) := by
  have hfn : (fun path isDir name (configs : List ConfigFile) =>
      if isDir = true then (configs, skipDirName name)
      else
        match configTypeOfExt (ToLower (Ext path)) with
        | none => (configs, false)
        | some configType =>
          let name := ToLower (Base path)
          if (Contains name "config".toList || Contains name "settings".toList ||
              name == "etc.yaml".toList || name == "etc.json".toList) = true then
            (configs ++ [{ Path := path, Type_ := configType }], false)
          else (configs, false)) =
      pruneFn (fun path (configs : List ConfigFile) => configs ++
        ((configFileType path).map (fun ty => ({ Path := path, Type_ := ty } : ConfigFile))).toList) := by
    funext path isDir name configs
    unfold pruneFn configFileType
    cases isDir with
    | true => rfl
    | false =>
      simp only [Bool.false_eq_true, if_false]
      cases configTypeOfExt (ToLower (Ext path)) with
      | none => simp
      | some ct =>
        simp only
        split <;> simp
  have h : (discoverConfigFiles fs root).1 =
      Walk fs root (pruneFn (fun path (configs : List ConfigFile) => configs ++
        ((configFileType path).map (fun ty => ({ Path := path, Type_ := ty } : ConfigFile))).toList))
        [] := by
    rw [← hfn]
    rfl
  rw [h, Walk_prune]
  exact (foldl_filterMap_append (fun p =>
    (configFileType p).map (fun ty => ({ Path := p, Type_ := ty } : ConfigFile))) _ []).trans
    (List.nil_append _)

mutual
theorem fileBelow_of_mem_visibleFiles (path fp : Str) :
    ∀ (t : Tree), fp ∈ visibleFiles path t →
      ∃ dirs, FileBelow path t dirs fp ∧ ∀ d ∈ dirs, skipDirName d = false
  | .file name, h => by
    simp only [visibleFiles, List.mem_singleton] at h
    subst h
    exact ⟨[], FileBelow.file _ name, by simp⟩
  | .dir name entries, h => by
    rw [visibleFiles] at h
    by_cases hskip : skipDirName name = true
    · simp [hskip] at h
    · simp only [hskip, Bool.false_eq_true, if_false] at h
      obtain ⟨t, ht, dirs, hb, hd⟩ := fileBelow_of_mem_visibleEntries path fp entries h
      refine ⟨name :: dirs, FileBelow.dir path name entries t dirs fp ht hb, ?_⟩
      intro d hmem
      rcases List.mem_cons.mp hmem with rfl | hmem
      · simpa using hskip
      · exact hd d hmem
theorem fileBelow_of_mem_visibleEntries (path fp : Str) :
    ∀ (ts : List Tree), fp ∈ visibleEntries path ts →
      ∃ t ∈ ts, ∃ dirs, FileBelow (Join path t.name) t dirs fp ∧ ∀ d ∈ dirs, skipDirName d = false
  | [], h => by simp [visibleEntries] at h
  | .file name :: ts, h => by
    rw [visibleEntries] at h
    rcases List.mem_append.mp h with h1 | h1
    · obtain ⟨dirs, hb, hd⟩ := fileBelow_of_mem_visibleFiles (Join path name) fp (.file name) h1
      exact ⟨.file name, List.mem_cons_self _ _, dirs, hb, hd⟩
    · obtain ⟨t, ht, dirs, hb, hd⟩ := fileBelow_of_mem_visibleEntries path fp ts h1
      exact ⟨t, List.mem_cons_of_mem _ ht, dirs, hb, hd⟩
  | .dir name entries :: ts, h => by
    rw [visibleEntries] at h
    rcases List.mem_append.mp h with h1 | h1
    · obtain ⟨dirs, hb, hd⟩ :=
        fileBelow_of_mem_visibleFiles (Join path name) fp (.dir name entries) h1
      exact ⟨.dir name entries, List.mem_cons_self _ _, dirs, hb, hd⟩
    · obtain ⟨t, ht, dirs, hb, hd⟩ := fileBelow_of_mem_visibleEntries path fp ts h1
      exact ⟨t, List.mem_cons_of_mem _ ht, dirs, hb, hd⟩
end

theorem mem_visibleEntries_of_mem {path fp : Str} {t : Tree} :
    ∀ {ts : List Tree}, t ∈ ts → fp ∈ visibleFiles (Join path t.name) t →
      fp ∈ visibleEntries path ts
  | [], h, _ => by simp at h
  | .file name :: ts, h, hv => by
    rw [visibleEntries]
    rcases List.mem_cons.mp h with rfl | h
    · exact List.mem_append_left _ hv
    · exact List.mem_append_right _ (mem_visibleEntries_of_mem h hv)
  | .dir name entries :: ts, h, hv => by
    rw [visibleEntries]
    rcases List.mem_cons.mp h with rfl | h
    · exact List.mem_append_left _ hv
    · exact List.mem_append_right _ (mem_visibleEntries_of_mem h hv)

theorem mem_visibleFiles_of_fileBelow {path fp : Str} {t : Tree} {dirs : List Str}
    (h : FileBelow path t dirs fp) (hd : ∀ d ∈ dirs, skipDirName d = false) :
    fp ∈ visibleFiles path t := by
  induction h with
  | file path name => simp [visibleFiles]
  | dir path name entries t dirs file ht _ ih =>
    rw [visibleFiles]
    have hn : skipDirName name = false := hd name (List.mem_cons_self _ _)
    simp only [hn, Bool.false_eq_true, if_false]
    exact mem_visibleEntries_of_mem ht (ih (fun d hmem => hd d (List.mem_cons_of_mem _ hmem)))

/-- The files the walks visit are the files of the tree that lie below no
skipped directory. -/
theorem mem_visibleFrom_iff {fs : FileSystem} {root fp : Str} :
    fp ∈ visibleFrom fs root ↔
      ∃ t dirs, fs.tree root = some t ∧ FileBelow root t dirs fp ∧
        ∀ d ∈ dirs, skipDirName d = false := by
  unfold visibleFrom
  cases ht : fs.tree root with
  | none => simp
  | some t =>
    constructor
    · intro h
      obtain ⟨dirs, hb, hd⟩ := fileBelow_of_mem_visibleFiles root fp t h
      exact ⟨t, dirs, rfl, hb, hd⟩
    · rintro ⟨t', dirs, e, hb, hd⟩
      simp only [Option.some.injEq] at e
      subst e
      exact mem_visibleFiles_of_fileBelow hb hd

theorem skipDirName_iff (name : Str) :
    skipDirName name = true ↔
      ['.'] <+: name ∨ name = "vendor".toList ∨ name = "node_modules".toList := by
  simp [skipDirName, HasPrefix, List.isPrefixOf_iff_prefix, or_assoc]

theorem scanDirectory_configs (fs : FileSystem) (p : Str) :
    (scanDirectory fs p).Configs = (discoverConfigFiles fs p).1 := by
  rw [scanDirectory_eq]
  cases parseDependencies fs p with
  | error e => rfl
  | ok d => rfl

theorem configTypeOfExt_eq_some (ext ty : Str) :
    configTypeOfExt ext = some ty ↔
      ((ext = ".yaml".toList ∨ ext = ".yml".toList) ∧ ty = "yaml".toList) ∨
      (ext = ".json".toList ∧ ty = "json".toList) ∨
      (ext = ".toml".toList ∧ ty = "toml".toList) := by
  unfold configTypeOfExt
  by_cases h1 : ext = ".yaml".toList ∨ ext = ".yml".toList
  · rw [if_pos h1]
    constructor
    · intro h; exact Or.inl ⟨h1, (Option.some.inj h).symm⟩
    · rintro (⟨-, rfl⟩ | ⟨h2, -⟩ | ⟨h2, -⟩)
      · rfl
      · rcases h1 with h1 | h1 <;> (rw [h1] at h2; exact absurd h2 (by decide))
      · rcases h1 with h1 | h1 <;> (rw [h1] at h2; exact absurd h2 (by decide))
  · rw [if_neg h1]
    by_cases h2 : ext = ".json".toList
    · rw [if_pos h2]
      constructor
      · intro h; exact Or.inr (Or.inl ⟨h2, (Option.some.inj h).symm⟩)
      · rintro (⟨h3, -⟩ | ⟨-, rfl⟩ | ⟨h3, -⟩)
        · exact absurd h3 h1
        · rfl
        · rw [h2] at h3; exact absurd h3 (by decide)
    · rw [if_neg h2]
      by_cases h3 : ext = ".toml".toList
      · rw [if_pos h3]
        constructor
        · intro h; exact Or.inr (Or.inr ⟨h3, (Option.some.inj h).symm⟩)
        · rintro (⟨h4, -⟩ | ⟨h4, -⟩ | ⟨-, rfl⟩)
          · exact absurd h4 h1
          · exact absurd h4 h2
          · rfl
      · rw [if_neg h3]
        constructor
        · intro h; simp at h
        · rintro (⟨h4, -⟩ | ⟨h4, -⟩ | ⟨h4, -⟩)
          · exact absurd h4 h1
          · exact absurd h4 h2
          · exact absurd h4 h3

theorem configFileType_eq_some (path ty : Str) :
    configFileType path = some ty ↔
      (((ToLower (Ext path) = ".yaml".toList ∨ ToLower (Ext path) = ".yml".toList) ∧
          ty = "yaml".toList) ∨
        (ToLower (Ext path) = ".json".toList ∧ ty = "json".toList) ∨
        (ToLower (Ext path) = ".toml".toList ∧ ty = "toml".toList)) ∧
      (Contains (ToLower (Base path)) "config".toList = true ∨
        Contains (ToLower (Base path)) "settings".toList = true ∨
        ToLower (Base path) = "etc.yaml".toList ∨ ToLower (Base path) = "etc.json".toList) := by
  rw [← configTypeOfExt_eq_some]
  unfold configFileType
  cases hext : configTypeOfExt (ToLower (Ext path)) with
  | none => simp
  | some ct =>
    simp only [Bool.or_eq_true, beq_iff_eq, Option.some.injEq]
    by_cases hname : ((Contains (ToLower (Base path)) "config".toList = true ∨
        Contains (ToLower (Base path)) "settings".toList = true) ∨
        ToLower (Base path) = "etc.yaml".toList) ∨ ToLower (Base path) = "etc.json".toList
    · rw [if_pos hname]
      simp only [Option.some.injEq]
      constructor
      · intro h; exact ⟨h, by tauto⟩
      · intro h; exact h.1
    · rw [if_neg hname]
      constructor
      · intro h; simp at h
      · rintro ⟨-, h⟩; exact absurd (by tauto) hname

theorem cacheAfter_snoc (puts : List (Int × Str × ProjectAnalysis)) (put : Int × Str × ProjectAnalysis) :
    cacheAfter (puts ++ [put]) = cacheAnalysis (cacheAfter puts) put.1 put.2.1 put.2.2 := by
  simp [cacheAfter, List.foldl_append]

theorem cacheAfter_never_put (puts : List (Int × Str × ProjectAnalysis)) (p : Str)
    (h : p ∉ puts.map (fun put => put.2.1)) : cacheAfter puts p = none := by
  induction puts using List.reverseRecOn with
  | nil => rfl
  | append_singleton puts put ih =>
    rw [cacheAfter_snoc]
    simp only [List.map_append, List.map_cons, List.map_nil, List.mem_append, List.mem_singleton,
      not_or] at h
    simp only [cacheAnalysis, if_neg h.2]
    exact ih h.1

theorem resolvedPath_eq (fs : FileSystem) (cwd : Str) (params : AnalyzeProjectParams) :
    resolvedPath fs cwd params =
      (if !IsAbs (if params.ProjectPath = [] then cwd else params.ProjectPath) then
        fs.Abs (if params.ProjectPath = [] then cwd else params.ProjectPath)
      else some (if params.ProjectPath = [] then cwd else params.ProjectPath)) := rfl

theorem AnalyzeProject_of_resolved {fs : FileSystem} {cwd : Str} {params : AnalyzeProjectParams}
    {path : Str} (hres : resolvedPath fs cwd params = some path) (entries : CacheEntries)
    (tGet tPut : Int) :
    (∀ c, getCachedAnalysis entries tGet path = some c →
      AnalyzeProject fs cwd entries tGet tPut params =
        { outcome := .success (formatAnalysisResult c true), entries := entries,
          scanned := false }) ∧
    (getCachedAnalysis entries tGet path = none → ∀ e, ScanProject fs path = .error e →
      AnalyzeProject fs cwd entries tGet tPut params =
        { outcome := .analyzeFailed e, entries := entries, scanned := true }) ∧
    (getCachedAnalysis entries tGet path = none → ∀ a, ScanProject fs path = .ok a →
      AnalyzeProject fs cwd entries tGet tPut params =
        { outcome := .success (formatAnalysisResult a false),
          entries := cacheAnalysis entries tPut path a, scanned := true }) := by
  rw [resolvedPath_eq] at hres
  refine ⟨?_, ?_, ?_⟩
  · intro c hc
    unfold AnalyzeProject
    simp only [hres, hc]
  · intro hc e he
    unfold AnalyzeProject
    simp only [hres, hc, he]
  · intro hc a ha
    unfold AnalyzeProject
    simp only [hres, hc, ha]

theorem AnalyzeProject_entries_cases (fs : FileSystem) (cwd : Str) (entries : CacheEntries)
    (tGet tPut : Int) (params : AnalyzeProjectParams) :
    (AnalyzeProject fs cwd entries tGet tPut params).entries = entries ∨
    ∃ path analysis,
      (AnalyzeProject fs cwd entries tGet tPut params).outcome =
        .success (formatAnalysisResult analysis false) ∧
      (AnalyzeProject fs cwd entries tGet tPut params).entries =
        cacheAnalysis entries tPut path analysis := by
  cases hres : resolvedPath fs cwd params with
  | none =>
    left
    rw [resolvedPath_eq] at hres
    unfold AnalyzeProject
    simp only [hres]
  | some path =>
    obtain ⟨h1, h2, h3⟩ := AnalyzeProject_of_resolved hres entries tGet tPut
    cases hc : getCachedAnalysis entries tGet path with
    | some c => left; rw [h1 c hc]
    | none =>
      cases hs : ScanProject fs path with
      | error e => left; rw [h2 hc e hs]
      | ok a => right; exact ⟨path, a, by rw [h3 hc a hs], by rw [h3 hc a hs]⟩

theorem validIdentifier_MatchString_iff (s : Str) :
    validIdentifier.MatchString s = true ↔
      ∃ c rest, s = c :: rest ∧ isLetterAZ c = true ∧ ∀ a ∈ rest, isWord a = true := by
  unfold Re.MatchString validIdentifier
  rw [List.any_eq_true]
  constructor
  · rintro ⟨⟨m, r, c'⟩, hmem, hr⟩
    obtain ⟨m1, mid, c1, m2, h1, h2, rfl⟩ := mem_run_seq.mp hmem
    obtain ⟨x, hx, rfl, rfl, rfl⟩ := mem_run_cls.mp h1
    obtain ⟨hmid, hall, -⟩ := mem_run_star.mp h2
    simp only [List.isEmpty_iff] at hr
    subst hr
    rw [List.append_nil] at hmid
    subst hmid
    exact ⟨x, mid, rfl, hx, hall⟩
  · rintro ⟨c, rest, rfl, hc, hrest⟩
    refine ⟨([c] ++ rest, [], []), ?_, rfl⟩
    exact mem_run_seq.mpr ⟨[c], rest, [], rest, mem_run_cls.mpr ⟨c, hc, rfl, rfl, rfl⟩,
      mem_run_star.mpr ⟨by simp, hrest, rfl⟩, rfl⟩

theorem Contains_singleton (s : Str) (x : Char) : Contains s [x] = true ↔ x ∈ s := by
  induction s with
  | nil => simp [Contains, List.isPrefixOf]
  | cons y ys ih =>
    rw [Contains, Bool.or_eq_true, ih]
    simp only [List.isPrefixOf, List.mem_cons, Bool.and_true, beq_iff_eq]

theorem isWord_of_isLetterAZ {c : Char} (h : isLetterAZ c = true) : isWord c = true := by
  simp only [isLetterAZ, Bool.or_eq_true] at h
  simp only [isWord, Bool.or_eq_true]
  tauto

theorem isWord_lt_128 {c : Char} (h : isWord c = true) : c.toNat < 0x80 := by
  simp only [isWord, isDigit09, isUpperAZ, isLowerAZ, Bool.or_eq_true, Bool.and_eq_true,
    decide_eq_true_eq, beq_iff_eq] at h
  omega

theorem isWord_ne_hyphen {c : Char} (h : isWord c = true) : c ≠ '-' := by
  rintro rfl
  revert h
  decide

theorem IsLetter_of_isLetterAZ (u : UnicodeTables) {c : Char} (h : isLetterAZ c = true) :
    IsLetter u c = true := by
  have hlt := isWord_lt_128 (isWord_of_isLetterAZ h)
  simp only [isLetterAZ] at h
  unfold IsLetter isLatin1Letter
  rw [if_pos (by omega), h]
  rfl

theorem IsDigit_of_isDigit09 (u : UnicodeTables) {c : Char} (h : isDigit09 c = true) :
    IsDigit u c = true := by
  have hw : isWord c = true := by simp [isWord, h]
  have hlt := isWord_lt_128 hw
  unfold IsDigit
  rw [if_pos (by omega), h]

theorem firstRune_of_ascii {c : Char} (h : c.toNat < 0x80) : Char.ofNat (utf8FirstByte c) = c := by
  unfold utf8FirstByte
  rw [if_pos h]
  exact Char.ofNat_toNat c

theorem replaceAux_hyphen (s : Str) :
    replaceAux ['-'] ['_'] s 0 = s.map (fun c => if c = '-' then '_' else c) := by
  induction s with
  | nil => rfl
  | cons x xs ih =>
    by_cases hx : x = '-'
    · subst hx
      simp [replaceAux, List.isPrefixOf, ih]
    · simp [replaceAux, List.isPrefixOf, ih, hx, Ne.symm hx]

theorem ReplaceAll_hyphen (s : Str) :
    ReplaceAll s ['-'] ['_'] = s.map (fun c => if c = '-' then '_' else c) := by
  unfold ReplaceAll
  rw [if_neg (by simp), replaceAux_hyphen]

theorem ReplaceAll_hyphen_of_not_mem {s : Str} (h : '-' ∉ s) : ReplaceAll s ['-'] ['_'] = s := by
  rw [ReplaceAll_hyphen]
  conv_rhs => rw [← List.map_id s]
  apply List.map_congr_left
  intro a ha
  have : a ≠ '-' := fun e => h (e ▸ ha)
  simp [this]

theorem suggestLoop_pos (u : UnicodeTables) :
    ∀ (rest : Str) (i : Nat) (result : Str), 0 < i →
      suggestLoop u rest i result = result ++ rest.filter (keepRune u) := by
  intro rest
  induction rest with
  | nil => intro i result _; simp [suggestLoop]
  | cons r rest ih =>
    intro i result hi
    rw [suggestLoop, ih _ _ (by omega)]
    have hne : i ≠ 0 := by omega
    by_cases hk : keepRune u r = true
    · have hk' := hk
      simp only [keepRune, Bool.or_eq_true, decide_eq_true_eq] at hk'
      simp [suggestRune, hne, hk, hk']
    · have hk' := hk
      simp only [keepRune, Bool.or_eq_true, decide_eq_true_eq] at hk'
      simp [suggestRune, hne, hk, hk']

theorem suggestLoop_cons (u : UnicodeTables) (r : Char) (rest : Str) :
    suggestLoop u (r :: rest) 0 [] = suggestRune u [] 0 r ++ rest.filter (keepRune u) := by
  rw [suggestLoop, suggestLoop_pos u rest _ _ (by have := Char.utf8Size_pos r; omega)]

theorem keepRune_ne_hyphen (u : UnicodeTables) {a : Char} (h : keepRune u a = true) : a ≠ '-' := by
  rintro rfl
  revert h
  simp [keepRune, IsLetter, IsDigit]
  decide

theorem IsLetter_ne_hyphen (u : UnicodeTables) {a : Char} (h : IsLetter u a = true) : a ≠ '-' :=
  keepRune_ne_hyphen u (by simp [keepRune, h])

theorem SuggestServiceName_of_shape (u : UnicodeTables) {t : Str} (h : SuggestedShape u t) :
    SuggestServiceName u t = t := by
  rcases h with rfl | ⟨hd, tl, rfl, hh, htl⟩
  · rfl
  · have hno : '-' ∉ hd :: tl := by
      intro hmem
      rcases List.mem_cons.mp hmem with e | e
      · exact IsLetter_ne_hyphen u hh e.symm
      · exact keepRune_ne_hyphen u (htl _ e) rfl
    unfold SuggestServiceName
    rw [ReplaceAll_hyphen_of_not_mem hno, suggestLoop_cons]
    have hf : tl.filter (keepRune u) = tl := List.filter_eq_self.mpr htl
    simp [suggestRune, hh, hf]

theorem SuggestServiceName_shape (u : UnicodeTables) (s : Str) :
    SuggestedShape u (SuggestServiceName u s) := by
  unfold SuggestServiceName
  cases hs : ReplaceAll s ['-'] ['_'] with
  | nil => left; rfl
  | cons r rest =>
    right
    rw [suggestLoop_cons]
    have hfil : ∀ a ∈ rest.filter (keepRune u), keepRune u a = true := fun a ha =>
      (List.mem_filter.mp ha).2
    by_cases hl : IsLetter u r = true
    · exact ⟨r, rest.filter (keepRune u), by simp [suggestRune, hl], hl, hfil⟩
    · have hS : IsLetter u 's' = true := IsLetter_of_isLetterAZ u (by decide)
      by_cases hd : (IsDigit u r || decide (r = '_')) = true
      · refine ⟨'s', r :: rest.filter (keepRune u), ?_, hS, ?_⟩
        · have hd' := hd
          simp only [Bool.or_eq_true, decide_eq_true_eq] at hd'
          simp [suggestRune, hl, hd']
        · intro a ha
          rcases List.mem_cons.mp ha with rfl | h
          · simp only [keepRune, Bool.or_assoc]
            simp only [Bool.or_eq_true] at hd ⊢
            exact Or.inr (by simpa using hd)
          · exact hfil a h
      · refine ⟨'s', rest.filter (keepRune u), ?_, hS, hfil⟩
        have hd' := hd
        simp only [Bool.or_eq_true, decide_eq_true_eq] at hd'
        simp [suggestRune, hl, hd']

theorem keepRune_of_isWord (u : UnicodeTables) {a : Char} (h : isWord a = true) :
    keepRune u a = true := by
  simp only [isWord, Bool.or_eq_true, beq_iff_eq] at h
  simp only [keepRune, Bool.or_eq_true, decide_eq_true_eq]
  rcases h with ((h | h) | h) | h
  · exact Or.inl (Or.inr (IsDigit_of_isDigit09 u h))
  · exact Or.inl (Or.inl (IsLetter_of_isLetterAZ u (by simp [isLetterAZ, h])))
  · exact Or.inl (Or.inl (IsLetter_of_isLetterAZ u (by simp [isLetterAZ, h])))
  · right
    rw [← Char.ofNat_toNat a, h]

theorem rpcMethodOfMatch_no_stream_word {caps : Caps} {m : RPCMethod}
    (h : rpcMethodOfMatch caps = some m) : Contains m.Stream kwStream = false := by
  unfold rpcMethodOfMatch at h
  split at h
  · simp only [Option.some.injEq] at h
    subst h
    cases h1 : Contains (sub caps 2) kwStream <;> cases h2 : Contains (sub caps 3) kwStream <;>
      simp <;> decide
  · simp at h

theorem extractRPCMethods_no_stream_word {content : Str} {m : RPCMethod}
    (h : m ∈ extractRPCMethods content) : Contains m.Stream kwStream = false := by
  unfold extractRPCMethods at h
  split at h
  · simp at h
  · split at h
    · simp at h
    · obtain ⟨caps, -, hc⟩ := List.mem_filterMap.mp h
      exact rpcMethodOfMatch_no_stream_word hc

/-- In every result of `ScanProject` the `Stream` flag of every RPC method is
false: the scan tests the direction computed by `extractRPCMethods`, which is
"request", "response", "bidirectional" or empty, for the word `stream`. -/
theorem ScanProject_stream_flag_false {fs : FileSystem} {projectPath : Str} {a : ProjectAnalysis}
    (h : ScanProject fs projectPath = .ok a) :
    ∀ s ∈ a.Services, ∀ m ∈ s.RPCMethods, m.Stream = false := by
  obtain ⟨ha, -⟩ := ScanProject_ok h
  intro s hs m hm
  rw [ha, (scanDirectory_services fs a.ProjectPath).1, afterLoops_services] at hs
  rcases List.mem_append.mp hs with h1 | h1
  · obtain ⟨f, -, rfl⟩ := List.mem_map.mp h1
    rw [(apiServiceEntry_type fs f).2.1] at hm
    simp at hm
  · obtain ⟨f, -, rfl⟩ := List.mem_map.mp h1
    unfold rpcServiceEntry at hm
    split at hm
    · rename_i spec hspec
      obtain ⟨m0, hm0, rfl⟩ := List.mem_map.mp hm
      have hmeth : m0 ∈ extractRPCMethods ((fs.ReadFile f).getD []) := by
        unfold ParseProtoSpecification at hspec
        split at hspec
        · simp at hspec
        · rename_i content hread
          simp only at hspec
          split_ifs at hspec
          simp only [Except.ok.injEq] at hspec
          subst hspec
          simpa [hread] using hm0
      exact extractRPCMethods_no_stream_word hmeth
    · simp at hm

theorem validIffNoErrors_addError {r : ConfigValidationResult} (e : ConfigError) :
    ValidIffNoErrors { r with Valid := false, Errors := r.Errors ++ [e] } := by
  simp [ValidIffNoErrors]

theorem validIffNoErrors_addWarning {r : ConfigValidationResult} (w : ConfigWarning)
    (h : ValidIffNoErrors r) : ValidIffNoErrors { r with Warnings := r.Warnings ++ [w] } := h

theorem checkRequiredFields_inv (config : Config) (fields : List Str) :
    ∀ r, ValidIffNoErrors r → ValidIffNoErrors (checkRequiredFields config fields r) := by
  unfold checkRequiredFields
  induction fields with
  | nil => intro r h; exact h
  | cons f fs ih =>
    intro r h
    rw [List.foldl_cons]
    apply ih
    split
    · exact validIffNoErrors_addError _
    · exact h

theorem validateNameField_inv (config : Config) {r : ConfigValidationResult}
    (h : ValidIffNoErrors r) : ValidIffNoErrors (validateNameField config r) := by
  unfold validateNameField
  split
  · split
    · exact validIffNoErrors_addError _
    · exact h
  · exact h

theorem validateHostField_frame (config : Config) (r : ConfigValidationResult) :
    (validateHostField config r).Valid = r.Valid ∧ (validateHostField config r).Errors = r.Errors := by
  unfold validateHostField
  split
  · split <;> exact ⟨rfl, rfl⟩
  · exact ⟨rfl, rfl⟩

theorem validatePortField_inv (config : Config) {r : ConfigValidationResult}
    (h : ValidIffNoErrors r) : ValidIffNoErrors (validatePortField config r) := by
  unfold validatePortField
  split
  · split
    · exact validIffNoErrors_addError _
    · split
      · exact h
      · exact h
  · split
    · exact validIffNoErrors_addError _
    · exact h
  · exact h

theorem checkTimeout_frame (config : Config) (r : ConfigValidationResult) :
    (checkTimeout config r).Valid = r.Valid ∧ (checkTimeout config r).Errors = r.Errors := by
  unfold checkTimeout
  split
  · split <;> exact ⟨rfl, rfl⟩
  · exact ⟨rfl, rfl⟩

theorem checkLog_frame (config : Config) (r : ConfigValidationResult) :
    (checkLog config r).Valid = r.Valid ∧ (checkLog config r).Errors = r.Errors := by
  unfold checkLog
  split
  · split
    · split <;> exact ⟨rfl, rfl⟩
    · exact ⟨rfl, rfl⟩
  · exact ⟨rfl, rfl⟩

theorem checkProductionMode_frame (config : Config) (r : ConfigValidationResult) :
    (checkProductionMode config r).Valid = r.Valid ∧
    (checkProductionMode config r).Errors = r.Errors := by
  unfold checkProductionMode
  split
  · split <;> exact ⟨rfl, rfl⟩
  · exact ⟨rfl, rfl⟩

theorem checkProductionLog_frame (config : Config) (r : ConfigValidationResult) :
    (checkProductionLog config r).Valid = r.Valid ∧
    (checkProductionLog config r).Errors = r.Errors := by
  unfold checkProductionLog
  split
  · split
    · split <;> exact ⟨rfl, rfl⟩
    · exact ⟨rfl, rfl⟩
  · exact ⟨rfl, rfl⟩

theorem checkProduction_frame (config : Config) (r : ConfigValidationResult) :
    (checkProduction config r).Valid = r.Valid ∧ (checkProduction config r).Errors = r.Errors := by
  unfold checkProduction
  split
  · split
    · obtain ⟨a1, a2⟩ := checkProductionLog_frame config (checkProductionMode config r)
      obtain ⟨b1, b2⟩ := checkProductionMode_frame config r
      exact ⟨a1.trans b1, a2.trans b2⟩
    · exact ⟨rfl, rfl⟩
  · exact ⟨rfl, rfl⟩

theorem validateListenOn_inv (config : Config) {r : ConfigValidationResult}
    (h : ValidIffNoErrors r) : ValidIffNoErrors (validateListenOn config r) := by
  unfold validateListenOn
  split
  · split
    · exact validIffNoErrors_addError _
    · exact h
  · exact h

theorem checkEtcd_frame (config : Config) (r : ConfigValidationResult) :
    (checkEtcd config r).Valid = r.Valid ∧ (checkEtcd config r).Errors = r.Errors := by
  unfold checkEtcd
  split
  · split
    · split <;> exact ⟨rfl, rfl⟩
    · exact ⟨rfl, rfl⟩
  · exact ⟨rfl, rfl⟩

theorem validIffNoErrors_of_frame {r r' : ConfigValidationResult}
    (hf : r'.Valid = r.Valid ∧ r'.Errors = r.Errors) (h : ValidIffNoErrors r) :
    ValidIffNoErrors r' := by
  unfold ValidIffNoErrors at *
  rw [hf.1, hf.2]
  exact h

theorem matchHere_rpcServiceName_of_decl {inp name rest : Str} (h : RpcServiceDecl inp name rest) :
    rpcServiceNameRegex.matchHere inp ≠ none := by
  obtain ⟨ws1, ws2, u, ident, rfl, hne1, hws1, rfl, hu, hident, hws2⟩ := h
  intro hnone
  rw [matchHere_eq_none] at hnone
  have hmem : (kwService ++ (ws1 ++ (([u] ++ ident) ++ (ws2 ++ lbrace))), rest,
      (List.replicate (rpcServiceNameRegex.ngroups + 1) []).set 1 ([u] ++ ident)) ∈
      rpcServiceNameRegex.re.run (kwService ++ (ws1 ++ (u :: ident ++ (ws2 ++ (lbrace ++ rest)))))
        (List.replicate (rpcServiceNameRegex.ngroups + 1) []) := by
    simp only [rpcServiceNameRegex, upperIdentRe]
    refine mem_run_seq.mpr ⟨_, _, _, _, mem_run_lit.mpr ⟨rfl, rfl, rfl⟩, ?_, rfl⟩
    refine mem_run_seq.mpr ⟨_, _, _, _, mem_run_plus.mpr ⟨rfl, hne1, hws1, rfl⟩, ?_, rfl⟩
    refine mem_run_seq.mpr ⟨[u] ++ ident, ws2 ++ (lbrace ++ rest),
      (List.replicate (1 + 1) []).set 1 ([u] ++ ident), ws2 ++ lbrace, ?_, ?_, rfl⟩
    · refine mem_run_group.mpr ⟨List.replicate (1 + 1) [], ?_, rfl⟩
      exact mem_run_seq.mpr ⟨[u], ident ++ (ws2 ++ (lbrace ++ rest)), List.replicate (1 + 1) [],
        ident, mem_run_cls.mpr ⟨u, hu, rfl, rfl, rfl⟩, mem_run_star.mpr ⟨rfl, hident, rfl⟩, rfl⟩
    · exact mem_run_seq.mpr ⟨ws2, lbrace ++ rest,
        (List.replicate (1 + 1) []).set 1 ([u] ++ ident), lbrace,
        mem_run_star.mpr ⟨rfl, hws2, rfl⟩, mem_run_lit.mpr ⟨rfl, rfl, rfl⟩, rfl⟩
  rw [hnone] at hmem
  simp at hmem

theorem rpcServiceDecl_of_matchHere {inp rest : Str} {caps : Caps}
    (h : rpcServiceNameRegex.matchHere inp = some (caps, rest)) :
    RpcServiceDecl inp (sub caps 1) rest ∧ caps.length = 2 := by
  obtain ⟨ws1, u, ident, ws2, e, hne1, hws1, hu, hident, hws2, hl, hs⟩ :=
    decl_of_matchHere_rpcServiceName h
  refine ⟨⟨ws1, ws2, u, ident, ?_, hne1, hws1, hs, hu, hident, hws2⟩, hl⟩
  rw [hs, e]

theorem not_hasRpcServiceDecl_iff {content : Str} :
    ¬ HasRpcServiceDecl content ↔ rpcServiceNameRegex.FindStringSubmatch content = none := by
  rw [FindStringSubmatch_eq_none rpcServiceName_anchored]
  constructor
  · intro h pre suf e
    cases hm : rpcServiceNameRegex.matchHere suf with
    | none => rfl
    | some m =>
      obtain ⟨caps, rest⟩ := m
      exact absurd ⟨pre, suf, _, rest, e, (rpcServiceDecl_of_matchHere hm).1⟩ h
  · rintro h ⟨pre, suf, name, rest, e, hd⟩
    exact matchHere_rpcServiceName_of_decl hd (h pre suf e)

theorem extractRPCServiceName_eq_nil_iff {content : Str} :
    extractRPCServiceName content = [] ↔ ¬ HasRpcServiceDecl content := by
  rw [not_hasRpcServiceDecl_iff]
  unfold extractRPCServiceName
  cases hf : rpcServiceNameRegex.FindStringSubmatch content with
  | none => simp
  | some caps =>
    obtain ⟨pre, suf, rest, e, hm, -⟩ := (FindStringSubmatch_eq_some rpcServiceName_anchored).mp hf
    obtain ⟨⟨ws1, ws2, u, ident, -, -, -, hs, -⟩, hl⟩ := rpcServiceDecl_of_matchHere hm
    simp [hl, hs]

/-! ## The claims -/

/-- Claim C1: in every analysis returned by `ScanProject` the summary counters
are reductions over the lists: `TotalServices` is the number of services and
equals `APIServices + RPCServices`, `APIServices` and `RPCServices` count the
services of type "api" and "rpc", `TotalEndpoints` and `TotalRPCMethods` are
the sums of the lengths of the endpoint and method lists, and
`TotalDependencies` is the number of dependencies. -/
theorem ScanProject_summary_counts (fs : FileSystem) (projectPath : Str) (a : ProjectAnalysis)
    (h : ScanProject fs projectPath = .ok a) :
    a.Summary.TotalServices = a.Services.length ∧
    a.Services.length = a.Summary.APIServices + a.Summary.RPCServices ∧
    a.Summary.APIServices = countType "api".toList a.Services ∧
    a.Summary.RPCServices = countType "rpc".toList a.Services ∧
    a.Summary.TotalEndpoints = (a.Services.map (fun s => s.Endpoints.length)).sum ∧
    a.Summary.TotalRPCMethods = (a.Services.map (fun s => s.RPCMethods.length)).sum ∧
    a.Summary.TotalDependencies = a.Dependencies.length := by
  obtain ⟨ha, -⟩ := ScanProject_ok h
  obtain ⟨s1, s2, s3, s4, s5, s6, s7, -⟩ := scanDirectory_services fs a.ProjectPath
  obtain ⟨c1, c2, c3, c4, c5⟩ := countersAgree_afterLoops fs a.ProjectPath
  rw [← ha] at s1 s2 s3 s4 s5 s6 s7
  rw [s1, s2, s3, s4, s5, s6, s7]
  exact ⟨rfl, c3, c1, c2, c4, c5, rfl⟩

/-- Claim C1, witness: the scan of a project with one `.api` and one `.proto`
file succeeds and its counters agree with its lists. -/
theorem ScanProject_summary_counts_witness :
    ScanProject sampleFS "/proj".toList = .ok (scanDirectory sampleFS "/proj".toList) ∧
    ((scanDirectory sampleFS "/proj".toList).Summary.TotalServices =
      (scanDirectory sampleFS "/proj".toList).Services.length ∧
    (scanDirectory sampleFS "/proj".toList).Services.length =
      (scanDirectory sampleFS "/proj".toList).Summary.APIServices +
      (scanDirectory sampleFS "/proj".toList).Summary.RPCServices ∧
    (scanDirectory sampleFS "/proj".toList).Summary.APIServices =
      countType "api".toList (scanDirectory sampleFS "/proj".toList).Services ∧
    (scanDirectory sampleFS "/proj".toList).Summary.RPCServices =
      countType "rpc".toList (scanDirectory sampleFS "/proj".toList).Services ∧
    (scanDirectory sampleFS "/proj".toList).Summary.TotalEndpoints =
      ((scanDirectory sampleFS "/proj".toList).Services.map (fun s => s.Endpoints.length)).sum ∧
    (scanDirectory sampleFS "/proj".toList).Summary.TotalRPCMethods =
      ((scanDirectory sampleFS "/proj".toList).Services.map (fun s => s.RPCMethods.length)).sum ∧
    (scanDirectory sampleFS "/proj".toList).Summary.TotalDependencies =
      (scanDirectory sampleFS "/proj".toList).Dependencies.length) :=
  ⟨rfl, ScanProject_summary_counts sampleFS "/proj".toList _ rfl⟩

/-- Claim C2, counterexample: the only `.api` file of the project fails to
parse (it declares no service), yet the scan lists a service entry for it. -/
theorem ScanProject_unparsed_file_listed :
    ParseAPISpecification "/proj/bad.api".toList (brokenApiFS.ReadFile "/proj/bad.api".toList) =
      .error .noServiceName ∧
    (ScanProject brokenApiFS "/proj".toList).toOption.map (fun a => a.Services) =
      some [{ Name := [], Type_ := "api".toList, Path := "/proj".toList,
              SpecFile := "/proj/bad.api".toList, Endpoints := [], RPCMethods := [] }] := by
  constructor
  · have h : extractServiceName "type Req \x7b\x7d".toList = [] := by decide
    simp only [ParseAPISpecification, brokenApiFS, if_true, h]
  · decide

/-- Claim C2, amended: when the project path resolves to an existing directory
the scan succeeds whatever the parse results are, and the service list has one
entry per discovered `.api` file followed by one entry per discovered `.proto`
file; the entry of a file whose parse fails has an empty name and no endpoints
or methods. -/
theorem ScanProject_keeps_unparsed_files (fs : FileSystem) (projectPath p : Str)
    (hres : (if IsAbs projectPath then some projectPath else fs.Abs projectPath) = some p)
    (hdir : fs.Stat p = some true) :
    ∃ a, ScanProject fs projectPath = .ok a ∧
      a.Services.map (fun s => s.SpecFile) =
        (discoverAPIFiles fs p).1 ++ (discoverProtoFiles fs p).1 ∧
      a.Services = (discoverAPIFiles fs p).1.map (apiServiceEntry fs) ++
        (discoverProtoFiles fs p).1.map (rpcServiceEntry fs) ∧
      (∀ f e, ParseAPISpecification f (fs.ReadFile f) = .error e →
        apiServiceEntry fs f = { Name := [], Type_ := "api".toList, Path := Dir f, SpecFile := f,
                                 Endpoints := [], RPCMethods := [] }) ∧
      (∀ f e, ParseProtoSpecification f (fs.ReadFile f) = .error e →
        rpcServiceEntry fs f = { Name := [], Type_ := "rpc".toList, Path := Dir f, SpecFile := f,
                                 Endpoints := [], RPCMethods := [] }) := by
  refine ⟨scanDirectory fs p, ScanProject_of_directory hres hdir, ?_, ?_, ?_, ?_⟩
  · rw [(scanDirectory_services fs p).1, afterLoops_services, List.map_append, List.map_map,
      List.map_map]
    have h1 : ((fun s : ServiceInfo => s.SpecFile) ∘ apiServiceEntry fs) = id :=
      funext fun f => (apiServiceEntry_type fs f).2.2
    have h2 : ((fun s : ServiceInfo => s.SpecFile) ∘ rpcServiceEntry fs) = id :=
      funext fun f => (rpcServiceEntry_type fs f).2.2
    rw [h1, h2, List.map_id, List.map_id]
  · rw [(scanDirectory_services fs p).1, afterLoops_services]
  · intro f e h
    simp [apiServiceEntry, h]
  · intro f e h
    simp [rpcServiceEntry, h]

/-- Claim C2, witness: the project with one `.api` file that declares no service. -/
theorem ScanProject_keeps_unparsed_files_witness :
    (if IsAbs "/proj".toList then some "/proj".toList else brokenApiFS.Abs "/proj".toList) =
      some "/proj".toList ∧
    brokenApiFS.Stat "/proj".toList = some true ∧
    ∃ a, ScanProject brokenApiFS "/proj".toList = .ok a ∧
      a.Services.map (fun s => s.SpecFile) =
        (discoverAPIFiles brokenApiFS "/proj".toList).1 ++
        (discoverProtoFiles brokenApiFS "/proj".toList).1 ∧
      a.Services = (discoverAPIFiles brokenApiFS "/proj".toList).1.map (apiServiceEntry brokenApiFS) ++
        (discoverProtoFiles brokenApiFS "/proj".toList).1.map (rpcServiceEntry brokenApiFS) ∧
      (∀ f e, ParseAPISpecification f (brokenApiFS.ReadFile f) = .error e →
        apiServiceEntry brokenApiFS f =
          { Name := [], Type_ := "api".toList, Path := Dir f, SpecFile := f,
            Endpoints := [], RPCMethods := [] }) ∧
      (∀ f e, ParseProtoSpecification f (brokenApiFS.ReadFile f) = .error e →
        rpcServiceEntry brokenApiFS f =
          { Name := [], Type_ := "rpc".toList, Path := Dir f, SpecFile := f,
            Endpoints := [], RPCMethods := [] }) :=
  ⟨rfl, rfl, ScanProject_keeps_unparsed_files brokenApiFS "/proj".toList "/proj".toList rfl rfl⟩

/-- Claim C3: for a text that contains no declaration `service <name> {`,
`ParseAPISpecification` fails with the no-service error and returns no
specification. -/
theorem ParseAPISpecification_no_service (apiFile content : Str) (h : ¬ HasApiServiceDecl content) :
    ParseAPISpecification apiFile (some content) = .error .noServiceName := by
  have hf := not_hasApiServiceDecl_iff.mp h
  simp [ParseAPISpecification, extractServiceName_of_find_none hf]

/-- Claim C3, witness: a text with a type declaration and a nameless `service {}`. -/
theorem ParseAPISpecification_no_service_witness :
    ¬ HasApiServiceDecl "type Req \x7b\x7d\nservice \x7b\x7d".toList ∧
    ParseAPISpecification "a.api".toList (some "type Req \x7b\x7d\nservice \x7b\x7d".toList) =
      .error .noServiceName :=
  ⟨not_hasApiServiceDecl_iff.mpr (by decide),
   ParseAPISpecification_no_service _ _ (not_hasApiServiceDecl_iff.mpr (by decide))⟩

/-- Claim C4, failing input: the text `service -api {}` starts with a service
declaration whose name `-api` is a non-empty run of name characters, yet
`ParseAPISpecification` reports the no-service error. -/
theorem ParseAPISpecification_dash_api_rejected :
    FirstApiServiceDecl "service -api \x7b\x7d".toList [] dashApi [Char.ofNat 125] ∧
    ParseAPISpecification "a.api".toList (some "service -api \x7b\x7d".toList) = .error .noServiceName := by
  refine ⟨⟨"service -api \x7b\x7d".toList, rfl, ⟨[' '], [' '], by decide, by decide, by decide, by decide,
    by decide, by decide⟩, ?_⟩, ?_⟩
  · intro p1 p2 e hne
    exact absurd (List.append_eq_nil.mp e.symm).2 hne
  · have h : extractServiceName "service -api \x7b\x7d".toList = [] := by decide
    simp only [ParseAPISpecification, h, if_true]

/-- Claim C5, counterexample: for `service foo-api-api {}` the returned name is
`foo-api`, which ends in `-api`. -/
theorem extractServiceName_double_suffix :
    extractServiceName "service foo-api-api \x7b\x7d".toList = "foo-api".toList ∧
    dashApi <:+ extractServiceName "service foo-api-api \x7b\x7d".toList := by
  decide

/-- Claim C5, amended: for every text, `extractServiceName` returns the empty
name when the text has no service declaration, and otherwise the name of the
first declaration with one trailing `-api` removed; the result ends in `-api`
exactly when that name ends in `-api-api`. -/
theorem extractServiceName_strips_one_suffix (content : Str) :
    (¬ HasApiServiceDecl content ∧ extractServiceName content = []) ∨
    (∃ pre name rest, FirstApiServiceDecl content pre name rest ∧
      extractServiceName content = TrimSuffix name dashApi ∧
      (dashApi <:+ extractServiceName content ↔ (dashApi ++ dashApi) <:+ name)) := by
  rcases hasApiServiceDecl_or_first content with h | ⟨pre, name, rest, h⟩
  · exact Or.inl ⟨h, extractServiceName_of_find_none (not_hasApiServiceDecl_iff.mp h)⟩
  · refine Or.inr ⟨pre, name, rest, h, extractServiceName_of_first h, ?_⟩
    rw [extractServiceName_of_first h]
    exact suffix_trimSuffix_iff name dashApi

/-- Claim C6, counterexample: a text that contains the block
`service foo-api { @handler H\n get /x }` after another service declaration
yields the service name `bar`, not `foo`. -/
theorem extractServiceName_block_after_other_service :
    "service bar \x7b\x7d\nservice foo-api \x7b @handler H\n get /x \x7d".toList =
      "service bar \x7b\x7d\n".toList ++ fooApiBlock ∧
    extractServiceName ("service bar \x7b\x7d\n".toList ++ fooApiBlock) = "bar".toList := by
  decide

/-- Claim C6, amended: for any text that contains the block
`service foo-api { @handler H\n get /x }` with no service declaration starting
before it, the extracted service name is `foo` and the extracted endpoints are
exactly the endpoint with Method `GET`, Path `/x` and Handler `H`. -/
theorem extract_fooApiBlock (pre post : Str) (h : NoApiServiceDeclBefore pre (fooApiBlock ++ post)) :
    extractServiceName (pre ++ (fooApiBlock ++ post)) = "foo".toList ∧
    extractEndpoints (pre ++ (fooApiBlock ++ post)) =
      [{ Method := "GET".toList, Path := "/x".toList, Handler := "H".toList,
         Request := [], Response := [] }] := by
  have hb := fooApiBlock_decl post
  constructor
  · have hfirst : FirstApiServiceDecl (pre ++ (fooApiBlock ++ post)) pre "foo-api".toList
        (" @handler H\n get /x ".toList ++ (rbrace ++ post)) :=
      ⟨fooApiBlock ++ post, rfl, apiServiceDecl_of_block hb, h⟩
    rw [extractServiceName_of_first hfirst]
    decide
  · obtain ⟨whole, hf⟩ := find_apiServiceBlock_of_first hb h
    have hbody : (endpointRegex.FindAllStringSubmatch " @handler H\n get /x ".toList).filterMap
        endpointOfMatch =
        [{ Method := "GET".toList, Path := "/x".toList, Handler := "H".toList,
           Request := [], Response := [] }] := by decide
    unfold extractEndpoints
    rw [hf]
    exact hbody

/-- Claim C6, witness: the block between two type declarations. -/
theorem extract_fooApiBlock_witness :
    NoApiServiceDeclBefore "type Req \x7b\x7d\n".toList (fooApiBlock ++ "\ntype Resp \x7b\x7d".toList) ∧
    extractServiceName ("type Req \x7b\x7d\n".toList ++ (fooApiBlock ++ "\ntype Resp \x7b\x7d".toList)) =
      "foo".toList ∧
    extractEndpoints ("type Req \x7b\x7d\n".toList ++ (fooApiBlock ++ "\ntype Resp \x7b\x7d".toList)) =
      [{ Method := "GET".toList, Path := "/x".toList, Handler := "H".toList,
         Request := [], Response := [] }] :=
  ⟨noApiServiceDeclBefore_of_no_s (by decide),
   extract_fooApiBlock _ _ (noApiServiceDeclBefore_of_no_s (by decide))⟩

/-- Claim C7, counterexample: the first service declaration, whose name `a`
is the one returned, has an empty body, yet the endpoint of the later block
`b` is returned. -/
theorem extractEndpoints_skips_empty_block :
    FirstApiServiceDecl "service a \x7b\x7d\nservice b \x7b @handler H\n get /x \x7d".toList []
      "a".toList "\x7d\nservice b \x7b @handler H\n get /x \x7d".toList ∧
    extractServiceName "service a \x7b\x7d\nservice b \x7b @handler H\n get /x \x7d".toList =
      "a".toList ∧
    extractEndpoints "service a \x7b\x7d\nservice b \x7b @handler H\n get /x \x7d".toList =
      [{ Method := "GET".toList, Path := "/x".toList, Handler := "H".toList,
         Request := [], Response := [] }] := by
  refine ⟨⟨_, rfl, ⟨[' '], [' '], by decide, by decide, by decide, by decide, by decide,
    by decide⟩, ?_⟩, by decide, by decide⟩
  intro p1 p2 e hne
  exact absurd (List.append_eq_nil.mp e.symm).2 hne

/-- Claim C7, amended: the endpoints returned by `extractEndpoints` are exactly
the handler declarations (handler name, verb, path starting with a slash)
found, in source order, in the body of the first service block that has a
non-empty body closed by a brace, the body being the text from the opening
brace up to the first closing brace; there are none when the text has no such
block; and this block is the first declared service whenever that declaration
is followed by such a body. -/
theorem extractEndpoints_first_block (content : Str) :
    (¬ HasApiServiceBlock content → extractEndpoints content = []) ∧
    (∀ pre name body rest, FirstApiServiceBlock content pre name body rest →
      Scan HandlerDecl body (extractEndpoints content) ∧
      ∀ out, Scan HandlerDecl body out → out = extractEndpoints content) ∧
    (∀ pre name body rest, FirstApiServiceDecl content pre name (body ++ (rbrace ++ rest)) →
      body ≠ [] → (∀ a ∈ body, notRBrace a = true) →
      FirstApiServiceBlock content pre name body rest) ∧
    (∀ inp e rest, HandlerDecl inp e rest →
      ∃ ws1 handler ws2 verb ws3 ptail opts,
        inp = kwHandler ++ (ws1 ++ (handler ++ (ws2 ++ (verb ++ (ws3 ++
          ('/' :: ptail ++ (opts ++ rest))))))) ∧
        ws1 ≠ [] ∧ (∀ a ∈ ws1, isSpaceRe a = true) ∧
        handler ≠ [] ∧ (∀ a ∈ handler, isWord a = true) ∧
        ws2 ≠ [] ∧ (∀ a ∈ ws2, isSpaceRe a = true) ∧
        verb ≠ [] ∧ (∀ a ∈ verb, isWord a = true) ∧
        ws3 ≠ [] ∧ (∀ a ∈ ws3, isSpaceRe a = true) ∧
        (∀ a ∈ ptail, notSpaceLParen a = true) ∧
        e.Handler = handler ∧ e.Method = ToUpper verb ∧ e.Path = '/' :: ptail) := by
  refine ⟨?_, ?_, ?_, ?_⟩
  · intro h
    have hf := not_hasApiServiceBlock_iff.mp h
    simp [extractEndpoints, hf]
  · intro pre name body rest h
    rw [extractEndpoints_of_first h]
    exact scan_handlerDecls body
  · rintro pre name body rest ⟨suf, e, ⟨ws1, ws2, e2, h1, h2, h3, h4, h5⟩, hfirst⟩ hne hbody
    refine ⟨suf, e, ⟨ws1, ws2, e2, h1, h2, h3, h4, h5, hne, hbody⟩, ?_⟩
    intro p1 p2 e3 hne2 n b r hb
    exact hfirst p1 p2 e3 hne2 n _ (apiServiceDecl_of_block hb)
  · rintro inp e rest ⟨caps, h, he⟩
    obtain ⟨ws1, handler, ws2, verb, ws3, ptail, opts, e1, c1, c2, c3, c4, c5, c6, c7, c8, c9, c10,
      c11, hl, s1, s2, s3⟩ := decl_of_matchHere_endpoint h
    rw [endpointOfMatch_of_length hl] at he
    simp only [Option.some.injEq] at he
    subst he
    exact ⟨ws1, handler, ws2, verb, ws3, ptail, opts, e1, c1, c2, c3, c4, c5, c6, c7, c8, c9, c10,
      c11, s1, by simp only [s2], s3⟩

/-- Claim C7, witness: a text without service block, a text whose first block
belongs to its second declaration, and a text that starts with its block. -/
theorem extractEndpoints_first_block_witness :
    (¬ HasApiServiceBlock "service a \x7b\x7d".toList ∧
      extractEndpoints "service a \x7b\x7d".toList = []) ∧
    (FirstApiServiceBlock ("service a \x7b\x7d\n".toList ++ "service b \x7b @handler H\n get /x \x7d".toList)
        "service a \x7b\x7d\n".toList "b".toList " @handler H\n get /x ".toList [] ∧
      Scan HandlerDecl " @handler H\n get /x ".toList
        (extractEndpoints
          ("service a \x7b\x7d\n".toList ++ "service b \x7b @handler H\n get /x \x7d".toList))) ∧
    (FirstApiServiceDecl fooApiBlock [] "foo-api".toList
        (" @handler H\n get /x ".toList ++ (rbrace ++ [])) ∧
      FirstApiServiceBlock fooApiBlock [] "foo-api".toList " @handler H\n get /x ".toList []) :=
  have hdecl : FirstApiServiceDecl fooApiBlock [] "foo-api".toList
      (" @handler H\n get /x ".toList ++ (rbrace ++ [])) :=
    ⟨fooApiBlock, rfl, ⟨[' '], [' '], by decide, by decide, by decide, by decide, by decide,
      by decide⟩, fun p1 p2 e hne => absurd (List.append_eq_nil.mp e.symm).2 hne⟩
  have hblock : FirstApiServiceBlock
      ("service a \x7b\x7d\n".toList ++ "service b \x7b @handler H\n get /x \x7d".toList)
      "service a \x7b\x7d\n".toList "b".toList " @handler H\n get /x ".toList [] :=
    firstApiServiceBlock_of_check
      ⟨[' '], [' '], by decide, by decide, by decide, by decide, by decide, by decide, by decide,
        by decide⟩ (by decide)
  ⟨⟨not_hasApiServiceBlock_iff.mpr (by decide),
    (extractEndpoints_first_block _).1 (not_hasApiServiceBlock_iff.mpr (by decide))⟩,
   ⟨hblock, ((extractEndpoints_first_block _).2.1 _ _ _ _ hblock).1⟩,
   ⟨hdecl, (extractEndpoints_first_block _).2.2.1 _ _ _ _ hdecl (by decide) (by decide)⟩⟩

/-- Claim C8: the `Method` of every endpoint returned by `extractEndpoints` is
the upper-casing of a verb token of the source, a non-empty run of word
characters; it contains no lower-case letter (only digits, `A`-`Z` and `_`)
and upper-casing it again leaves it unchanged. -/
theorem extractEndpoints_method_upper (content : Str) (e : Endpoint)
    (h : e ∈ extractEndpoints content) :
    ∃ verb, verb ≠ [] ∧ (∀ a ∈ verb, isWord a = true) ∧ verb <:+: content ∧
      e.Method = ToUpper verb ∧
      (∀ a ∈ e.Method, isLowerAZ a = false) ∧
      (∀ a ∈ e.Method, (isDigit09 a || isUpperAZ a || a.toNat == 95) = true) ∧
      ToUpper e.Method = e.Method := by
  unfold extractEndpoints at h
  cases hf : apiServiceBlockRegex.FindStringSubmatch content with
  | none => rw [hf] at h; simp at h
  | some sm =>
    rw [hf] at h
    simp only at h
    obtain ⟨pre, suf, rest, e1, hm, -⟩ := (FindStringSubmatch_eq_some apiServiceBlock_anchored).mp hf
    obtain ⟨name, body, ⟨ws1, ws2, rfl, -⟩, hl, hs⟩ := block_of_matchHere_apiServiceBlock hm
    rw [hl, hs] at h
    simp only [Nat.lt_irrefl, if_false, List.mem_filterMap] at h
    obtain ⟨caps, hcaps, he⟩ := h
    obtain ⟨pre2, suf2, rest2, e2, hm2⟩ := mem_FindAllStringSubmatch hcaps
    obtain ⟨w1, handler, w2, verb, w3, ptail, opts, rfl, -, -, -, -, -, -, hnev, hverb, -, -, -,
      hl2, -, hv, -⟩ := decl_of_matchHere_endpoint hm2
    simp only [endpointOfMatch, hl2, hv] at he
    rw [if_pos (by decide), if_pos (by decide), if_pos (by decide)] at he
    simp only [Option.some.injEq] at he
    subst he
    refine ⟨verb, hnev, hverb, ?_, rfl, ?_, ?_, ?_⟩
    · rw [e1, e2]
      exact ⟨pre ++ (kwService ++ (ws1 ++ (name ++ (ws2 ++ (lbrace ++ (pre2 ++ (kwHandler ++ (w1 ++
        (handler ++ w2))))))))), w3 ++ ('/' :: ptail ++ (opts ++ rest2)) ++ (rbrace ++ rest), by simp⟩
    · intro a ha
      obtain ⟨b, -, rfl⟩ := List.mem_map.mp ha
      exact (upperChar_not_lower b).1
    · intro a ha
      obtain ⟨b, hb, rfl⟩ := List.mem_map.mp ha
      exact upperChar_of_word (hverb b hb)
    · simp only [ToUpper, List.map_map]
      apply List.map_congr_left
      intro b _
      exact (upperChar_not_lower b).2

/-- Claim C8, witness: the endpoint of `service foo-api { @handler H\n get /x }`. -/
theorem extractEndpoints_method_upper_witness :
    (⟨"GET".toList, "/x".toList, "H".toList, [], []⟩ : Endpoint) ∈
      extractEndpoints "service foo-api \x7b @handler H\n get /x \x7d".toList ∧
    ∃ verb, verb ≠ [] ∧ (∀ a ∈ verb, isWord a = true) ∧
      verb <:+: "service foo-api \x7b @handler H\n get /x \x7d".toList ∧
      "GET".toList = ToUpper verb ∧
      (∀ a ∈ "GET".toList, isLowerAZ a = false) ∧
      (∀ a ∈ "GET".toList, (isDigit09 a || isUpperAZ a || a.toNat == 95) = true) ∧
      ToUpper "GET".toList = "GET".toList :=
  ⟨by decide, extractEndpoints_method_upper _ ⟨"GET".toList, "/x".toList, "H".toList, [], []⟩
    (by decide)⟩

/-- Claim C9: `extractTypes` returns exactly the names found by reading the
whole document from left to right for declarations `type Name {` and
`type Name struct {`, in source order, one entry per declaration. -/
theorem extractTypes_scans_document (content : Str) :
    Scan TypeDecl content (extractTypes content) ∧
    ∀ names, Scan TypeDecl content names → names = extractTypes content := by
  have hscan : Scan TypeDecl content (extractTypes content) := by
    rw [extractTypes_eq_map]
    refine Scan.map (fun m => sub m 1) ?_ ?_ (scan_FindAllStringSubmatch rfl typeRegex_nonEmpty content)
    · intro inp caps rest h
      obtain ⟨name, hd, -, hs⟩ := typeDecl_of_matchHere h
      simp only [hs]
      exact hd
    · intro inp name rest h
      obtain ⟨whole, hm⟩ := matchHere_type_of_decl h
      exact ⟨_, hm⟩
  refine ⟨hscan, fun names h => Scan.unique ?_ ?_ h hscan⟩
  · intro inp a rest a' rest' h h'
    obtain ⟨whole, hm⟩ := matchHere_type_of_decl h
    obtain ⟨whole', hm'⟩ := matchHere_type_of_decl h'
    rw [hm] at hm'
    simp only [Option.some.injEq, Prod.mk.injEq, List.cons.injEq, and_true] at hm'
    exact ⟨hm'.1.2, hm'.2⟩
  · intro inp a rest h
    obtain ⟨whole, hm⟩ := matchHere_type_of_decl h
    exact typeRegex_nonEmpty _ _ _ hm

/-- Claim C9, witness: declarations before, inside and after the service block
are all reported, in source order, and a name declared twice appears twice. -/
theorem extractTypes_scans_document_witness :
    extractTypes ("type A \x7b\x7d\nservice s \x7b type B struct \x7b\x7d get /x \x7d\n" ++
      "type A struct\x7b\x7d").toList = ["A".toList, "B".toList, "A".toList] ∧
    Scan TypeDecl ("type A \x7b\x7d\nservice s \x7b type B struct \x7b\x7d get /x \x7d\n" ++
      "type A struct\x7b\x7d").toList ["A".toList, "B".toList, "A".toList] :=
  have h : extractTypes ("type A \x7b\x7d\nservice s \x7b type B struct \x7b\x7d get /x \x7d\n" ++
      "type A struct\x7b\x7d").toList = ["A".toList, "B".toList, "A".toList] := by decide
  ⟨h, h ▸ (extractTypes_scans_document _).1⟩

/-- Claim C10, counterexample: the service of the text is `foo`, with a
lower-case identifier, and the line before it is a comment that mentions
`service Foo {`; the extraction does not fail, it returns the name `Foo` of
the comment. -/
theorem ParseProtoSpecification_commented_service :
    (ParseProtoSpecification "a.proto".toList
      (some "// was: service Foo \x7b\nservice foo \x7b rpc M(Req) returns (Resp) \x7d".toList)).toOption.map
      (fun spec => spec.ServiceName) = some "Foo".toList := by
  decide

/-- Claim C10, amended: `ParseProtoSpecification` fails with the no-service
error exactly for the texts in which no service declaration with an
upper-case identifier starts at any position: the keyword `service`, white
space, an upper-case letter `A`-`Z` followed by word characters, optional
white space and an opening brace. That is so in particular when no keyword
`service` of the text is followed, after white space, by an upper-case
letter. A name that `extractRPCServiceName` returns is the identifier of the
first such declaration of the text, so it starts with an upper-case ASCII
letter. -/
theorem ParseProtoSpecification_no_upper_service (protoFile content : Str) :
    (ParseProtoSpecification protoFile (some content) = .error .noServiceName ↔
      ¬ HasRpcServiceDecl content) ∧
    (noUpperServiceIdent content = true → ¬ HasRpcServiceDecl content) ∧
    (extractRPCServiceName content ≠ [] →
      ∃ pre suf rest u ident, content = pre ++ suf ∧
        RpcServiceDecl suf (extractRPCServiceName content) rest ∧
        (∀ p1 p2, pre = p1 ++ p2 → p2 ≠ [] → ∀ n r, ¬ RpcServiceDecl (p2 ++ suf) n r) ∧
        extractRPCServiceName content = u :: ident ∧ isUpperAZ u = true ∧
        ∀ a ∈ ident, isWord a = true) := by
  refine ⟨?_, ?_, ?_⟩
  · rw [← extractRPCServiceName_eq_nil_iff]
    by_cases hn : extractRPCServiceName content = []
    · simp [ParseProtoSpecification, hn]
    · simp [ParseProtoSpecification, hn]
  · intro h
    rw [not_hasRpcServiceDecl_iff]
    exact find_rpcServiceName_none_of_noUpper h
  · intro hne
    unfold extractRPCServiceName at hne ⊢
    cases hf : rpcServiceNameRegex.FindStringSubmatch content with
    | none => rw [hf] at hne; simp at hne
    | some caps =>
      obtain ⟨pre, suf, rest, e, hm, hfirst⟩ :=
        (FindStringSubmatch_eq_some rpcServiceName_anchored).mp hf
      obtain ⟨hd, hl⟩ := rpcServiceDecl_of_matchHere hm
      have hd' := hd
      obtain ⟨ws1, ws2, u, ident, -, -, -, hs, hu, hident, -⟩ := hd'
      have hsel : (if caps.length > 1 then sub caps 1 else []) = sub caps 1 := by
        rw [if_pos (by omega)]
      simp only [hsel]
      refine ⟨pre, suf, rest, u, ident, e, hd, ?_, hs, hu, hident⟩
      intro p1 p2 e2 hne2 n r hdecl
      exact matchHere_rpcServiceName_of_decl hdecl (hfirst p1 p2 e2 hne2)

/-- Claim C10, witness: `service foo { ... }` holds no declaration with an
upper-case identifier and is rejected, also when the text mentions
`serviceName` or has the comment `// service Foo` without brace;
`service Foo { ... }` yields the name `Foo`. -/
theorem ParseProtoSpecification_no_upper_service_witness :
    (¬ HasRpcServiceDecl "service foo \x7b rpc M(Req) returns (Resp) \x7d".toList ∧
      ParseProtoSpecification "a.proto".toList
        (some "service foo \x7b rpc M(Req) returns (Resp) \x7d".toList) = .error .noServiceName) ∧
    (¬ HasRpcServiceDecl
        "// service Foo\nservice foo \x7b rpc serviceName(Req) returns (Resp) \x7d".toList ∧
      ParseProtoSpecification "a.proto".toList
        (some "// service Foo\nservice foo \x7b rpc serviceName(Req) returns (Resp) \x7d".toList) =
        .error .noServiceName) ∧
    extractRPCServiceName "service Foo \x7b rpc M(Req) returns (Resp) \x7d".toList = "Foo".toList :=
  ⟨⟨(ParseProtoSpecification_no_upper_service "a.proto".toList
        "service foo \x7b rpc M(Req) returns (Resp) \x7d".toList).2.1 (by decide),
    (ParseProtoSpecification_no_upper_service "a.proto".toList
        "service foo \x7b rpc M(Req) returns (Resp) \x7d".toList).1.mpr
      ((ParseProtoSpecification_no_upper_service "a.proto".toList
        "service foo \x7b rpc M(Req) returns (Resp) \x7d".toList).2.1 (by decide))⟩,
   ⟨(ParseProtoSpecification_no_upper_service "a.proto".toList
        "// service Foo\nservice foo \x7b rpc serviceName(Req) returns (Resp) \x7d".toList).1.mp
      (by rfl),
    by rfl⟩,
   by decide⟩

/-- Claim C11, counterexample: a method without `stream` on either side gets
the empty string as direction, not the string `none`; and a request type
called `Upstream`, which only contains the letters of `stream`, gives
"request". -/
theorem extractRPCMethods_no_stream_is_empty :
    (extractRPCMethods "service Foo \x7b rpc M(Req) returns (Resp) \x7d".toList).map
      (fun m => m.Stream) = [[]] ∧
    ([] : Str) ≠ "none".toList ∧
    (extractRPCMethods "service Foo \x7b rpc M(Upstream) returns (Resp) \x7d".toList).map
      (fun m => m.Stream) = ["request".toList] := by
  decide

/-- Claim C11, amended: for every RPC method extracted by `extractRPCMethods`
the direction is derived from the texts of the two parentheses of its
declaration: "request" when only the request text contains `stream` as a
substring, "response" when only the response text does, "bidirectional" when
both do, and the empty string when neither does. -/
theorem extractRPCMethods_stream_direction (content : Str) (m : RPCMethod)
    (h : m ∈ extractRPCMethods content) :
    ∃ pre inp req resp rest, content = pre ++ inp ∧ RpcMethodDecl inp m.Name req resp rest ∧
      m.Request = TrimSpace req ∧ m.Response = TrimSpace resp ∧
      m.Stream = specStreamDirection req resp ∧
      (Contains req kwStream = true → Contains resp kwStream = false →
        m.Stream = "request".toList) ∧
      (Contains req kwStream = false → Contains resp kwStream = true →
        m.Stream = "response".toList) ∧
      (Contains req kwStream = true → Contains resp kwStream = true →
        m.Stream = "bidirectional".toList) ∧
      (Contains req kwStream = false → Contains resp kwStream = false → m.Stream = []) := by
  unfold extractRPCMethods at h
  cases hf : rpcServiceBlockRegex.FindStringSubmatch content with
  | none => rw [hf] at h; simp at h
  | some sm =>
    rw [hf] at h
    simp only at h
    obtain ⟨pre, suf, rest, e1, hm, -⟩ := (FindStringSubmatch_eq_some rpcServiceBlock_anchored).mp hf
    obtain ⟨head, body, rfl, -, -, hl, hs⟩ := block_of_matchHere_rpcServiceBlock hm
    rw [hl, hs] at h
    simp only [Nat.lt_irrefl, if_false, List.mem_filterMap] at h
    obtain ⟨caps, hcaps, he⟩ := h
    obtain ⟨pre2, suf2, rest2, e2, hm2⟩ := mem_FindAllStringSubmatch hcaps
    obtain ⟨name, req, resp, hdecl, hl2, s1, s2, s3⟩ := decl_of_matchHere_rpcMethod hm2
    rw [rpcMethodOfMatch_stream hl2] at he
    simp only [Option.some.injEq] at he
    subst he
    simp only [s1, s2, s3]
    obtain ⟨c1, c2, c3, c4⟩ := specStreamDirection_cases req resp
    obtain ⟨ws1, ws2, ws3, ws4, e3, hrest⟩ := hdecl
    refine ⟨pre ++ (head ++ pre2), suf2 ++ (rbrace ++ rest), req, resp, rest2 ++ (rbrace ++ rest),
      ?_, ⟨ws1, ws2, ws3, ws4, ?_, hrest⟩, rfl, rfl, rfl, c1, c2, c3, c4⟩
    · rw [e1, e2]; simp
    · rw [e3]; simp

/-- Claim C11, witness: `service Foo { rpc M(stream Req) returns (Resp) }` gives
the direction "request". -/
theorem extractRPCMethods_stream_direction_witness :
    ({ Name := "M".toList, Request := "stream Req".toList, Response := "Resp".toList,
       Stream := "request".toList } : RPCMethod) ∈
      extractRPCMethods "service Foo \x7b rpc M(stream Req) returns (Resp) \x7d".toList ∧
    ∃ pre inp req resp rest,
      "service Foo \x7b rpc M(stream Req) returns (Resp) \x7d".toList = pre ++ inp ∧
      RpcMethodDecl inp "M".toList req resp rest ∧
      "stream Req".toList = TrimSpace req ∧ "Resp".toList = TrimSpace resp ∧
      "request".toList = specStreamDirection req resp ∧
      (Contains req kwStream = true → Contains resp kwStream = false →
        "request".toList = "request".toList) ∧
      (Contains req kwStream = false → Contains resp kwStream = true →
        "request".toList = "response".toList) ∧
      (Contains req kwStream = true → Contains resp kwStream = true →
        "request".toList = "bidirectional".toList) ∧
      (Contains req kwStream = false → Contains resp kwStream = false →
        "request".toList = []) :=
  ⟨by decide, extractRPCMethods_stream_direction _
    { Name := "M".toList, Request := "stream Req".toList, Response := "Resp".toList,
      Stream := "request".toList } (by decide)⟩

/-- Claim C12, counterexample: on the text of the claim, where `a v1.0.0`
stands on the line that opens the block, only `b` is reported. -/
theorem parseDependencies_opening_line_skipped :
    (parseDependencies (manifestFS "require ( a v1.0.0\n b v2.0.0 // indirect\n )".toList)
      "/p".toList).toOption =
      some ([{ Name := "b".toList, Version := "2.0.0".toList, Type_ := "indirect".toList }], []) := by
  decide

/-- Claim C12, amended: parsing the manifest text
`require (\n a v1.0.0\n b v2.0.0 // indirect\n )`, where the block opens on a
line of its own, yields exactly two dependencies, in that order: `a`
classified direct and `b` classified indirect. -/
theorem parseDependencies_block_example :
    (parseDependencies (manifestFS "require (\n a v1.0.0\n b v2.0.0 // indirect\n )".toList)
      "/p".toList).toOption =
      some ([{ Name := "a".toList, Version := "1.0.0".toList, Type_ := "direct".toList },
             { Name := "b".toList, Version := "2.0.0".toList, Type_ := "indirect".toList }], []) := by
  decide

/-- Claim C13, failing input: a require block with go-zero v1.6.0 followed by a
single-line require of a module whose name contains `go-zero`: the version
returned is the later one, 1.5.0; with both lines in one block it is the first
one, 1.6.0. -/
theorem parseDependencies_version_overwritten :
    (parseDependencies (manifestFS ("require (\n\tgithub.com/zeromicro/go-zero v1.6.0\n)\n\n" ++
      "require github.com/zeromicro/go-zero/tools/goctl v1.5.0\n").toList) "/p".toList).toOption.map
        (fun r => (r.1.map (fun d => (d.Name, d.Version)), r.2)) =
      some ([("github.com/zeromicro/go-zero".toList, "1.6.0".toList),
             ("github.com/zeromicro/go-zero/tools/goctl".toList, "1.5.0".toList)],
            "1.5.0".toList) ∧
    (parseDependencies (manifestFS ("require (\n\tgithub.com/zeromicro/go-zero v1.6.0\n" ++
      "\tgithub.com/zeromicro/go-zero/tools/goctl v1.5.0\n)\n").toList) "/p".toList).toOption.map
        (fun r => r.2) = some "1.6.0".toList := by
  decide

/-- Claim C14, failing input: the single-line requirement
`require a v1.0.0 // indirect` is classified direct, while the same line in a
require block is classified indirect. -/
theorem parseDependencies_single_line_indirect :
    (parseDependencies (manifestFS "require a v1.0.0 // indirect\n".toList)
      "/p".toList).toOption.map (fun r => r.1) =
      some [{ Name := "a".toList, Version := "1.0.0".toList, Type_ := "direct".toList }] ∧
    (parseDependencies (manifestFS "require (\n\ta v1.0.0 // indirect\n)\n".toList)
      "/p".toList).toOption.map (fun r => r.1) =
      some [{ Name := "a".toList, Version := "1.0.0".toList, Type_ := "indirect".toList }] := by
  decide

/-- Claim C15: every service and every configuration file of a `ScanProject`
result comes from a file of the project tree all of whose enclosing
directories, the project root included, have a name that is neither `vendor`
nor `node_modules` and does not start with a dot: nothing below such a
directory, at any depth, is reported. -/
theorem ScanProject_prunes_vendored (fs : FileSystem) (projectPath : Str) (a : ProjectAnalysis)
    (h : ScanProject fs projectPath = .ok a) :
    (∀ s ∈ a.Services, ∃ t dirs, fs.tree a.ProjectPath = some t ∧
      FileBelow a.ProjectPath t dirs s.SpecFile ∧
      ∀ d ∈ dirs, ¬ (['.'] <+: d ∨ d = "vendor".toList ∨ d = "node_modules".toList)) ∧
    (∀ c ∈ a.Configs, ∃ t dirs, fs.tree a.ProjectPath = some t ∧
      FileBelow a.ProjectPath t dirs c.Path ∧
      ∀ d ∈ dirs, ¬ (['.'] <+: d ∨ d = "vendor".toList ∨ d = "node_modules".toList)) ∧
    (∀ fp, (∀ t dirs, fs.tree a.ProjectPath = some t → FileBelow a.ProjectPath t dirs fp →
        ∃ d ∈ dirs, ['.'] <+: d ∨ d = "vendor".toList ∨ d = "node_modules".toList) →
      (∀ s ∈ a.Services, s.SpecFile ≠ fp) ∧ (∀ c ∈ a.Configs, c.Path ≠ fp)) := by
  suffices hpos : (∀ s ∈ a.Services, ∃ t dirs, fs.tree a.ProjectPath = some t ∧
      FileBelow a.ProjectPath t dirs s.SpecFile ∧
      ∀ d ∈ dirs, ¬ (['.'] <+: d ∨ d = "vendor".toList ∨ d = "node_modules".toList)) ∧
    (∀ c ∈ a.Configs, ∃ t dirs, fs.tree a.ProjectPath = some t ∧
      FileBelow a.ProjectPath t dirs c.Path ∧
      ∀ d ∈ dirs, ¬ (['.'] <+: d ∨ d = "vendor".toList ∨ d = "node_modules".toList)) by
    refine ⟨hpos.1, hpos.2, fun fp hfp => ⟨fun s hs e => ?_, fun c hc e => ?_⟩⟩
    · obtain ⟨t, dirs, ht, hb, hd⟩ := hpos.1 s hs
      rw [e] at hb
      obtain ⟨d, hmem, hskip⟩ := hfp t dirs ht hb
      exact hd d hmem hskip
    · obtain ⟨t, dirs, ht, hb, hd⟩ := hpos.2 c hc
      rw [e] at hb
      obtain ⟨d, hmem, hskip⟩ := hfp t dirs ht hb
      exact hd d hmem hskip
  obtain ⟨ha, -⟩ := ScanProject_ok h
  have hvis : ∀ fp, fp ∈ visibleFrom fs a.ProjectPath → ∃ t dirs, fs.tree a.ProjectPath = some t ∧
      FileBelow a.ProjectPath t dirs fp ∧
      ∀ d ∈ dirs, ¬ (['.'] <+: d ∨ d = "vendor".toList ∨ d = "node_modules".toList) := by
    intro fp hfp
    obtain ⟨t, dirs, ht, hb, hd⟩ := mem_visibleFrom_iff.mp hfp
    refine ⟨t, dirs, ht, hb, fun d hmem hskip => ?_⟩
    have := (skipDirName_iff d).mpr hskip
    rw [hd d hmem] at this
    simp at this
  constructor
  · intro s hs
    rw [ha, (scanDirectory_services fs a.ProjectPath).1, afterLoops_services] at hs
    rcases List.mem_append.mp hs with h1 | h1
    · obtain ⟨f, hf, rfl⟩ := List.mem_map.mp h1
      rw [(apiServiceEntry_type fs f).2.2]
      rw [discoverAPIFiles_eq] at hf
      exact hvis f (List.mem_filter.mp hf).1
    · obtain ⟨f, hf, rfl⟩ := List.mem_map.mp h1
      rw [(rpcServiceEntry_type fs f).2.2]
      rw [discoverProtoFiles_eq] at hf
      exact hvis f (List.mem_filter.mp hf).1
  · intro c hc
    have hcfg := scanDirectory_configs fs a.ProjectPath
    rw [← ha] at hcfg
    rw [hcfg, discoverConfigFiles_eq] at hc
    obtain ⟨fp, hfp, hmap⟩ := List.mem_filterMap.mp hc
    cases hty : configFileType fp with
    | none => rw [hty] at hmap; simp at hmap
    | some ty =>
      rw [hty] at hmap
      simp only [Option.map_some', Option.some.injEq] at hmap
      subst hmap
      exact hvis fp hfp

/-- Claim C15, witness: in a project with files below `vendor`, `node_modules`
and `.git`, at several depths, only the files outside them are reported. -/
theorem ScanProject_prunes_vendored_witness :
    ScanProject vendoredFS "/proj".toList = .ok (scanDirectory vendoredFS "/proj".toList) ∧
    (scanDirectory vendoredFS "/proj".toList).Services.map (fun s => s.SpecFile) =
      ["/proj/a.api".toList, "/proj/sub/b.proto".toList] ∧
    (scanDirectory vendoredFS "/proj".toList).Configs.map (fun c => c.Path) =
      ["/proj/config.yaml".toList] ∧
    ((∀ s ∈ (scanDirectory vendoredFS "/proj".toList).Services, ∃ t dirs,
      vendoredFS.tree (scanDirectory vendoredFS "/proj".toList).ProjectPath = some t ∧
      FileBelow (scanDirectory vendoredFS "/proj".toList).ProjectPath t dirs s.SpecFile ∧
      ∀ d ∈ dirs, ¬ (['.'] <+: d ∨ d = "vendor".toList ∨ d = "node_modules".toList)) ∧
    (∀ c ∈ (scanDirectory vendoredFS "/proj".toList).Configs, ∃ t dirs,
      vendoredFS.tree (scanDirectory vendoredFS "/proj".toList).ProjectPath = some t ∧
      FileBelow (scanDirectory vendoredFS "/proj".toList).ProjectPath t dirs c.Path ∧
      ∀ d ∈ dirs, ¬ (['.'] <+: d ∨ d = "vendor".toList ∨ d = "node_modules".toList)) ∧
    (∀ fp, (∀ t dirs,
        vendoredFS.tree (scanDirectory vendoredFS "/proj".toList).ProjectPath = some t →
        FileBelow (scanDirectory vendoredFS "/proj".toList).ProjectPath t dirs fp →
        ∃ d ∈ dirs, ['.'] <+: d ∨ d = "vendor".toList ∨ d = "node_modules".toList) →
      (∀ s ∈ (scanDirectory vendoredFS "/proj".toList).Services, s.SpecFile ≠ fp) ∧
      (∀ c ∈ (scanDirectory vendoredFS "/proj".toList).Configs, c.Path ≠ fp))) :=
  ⟨rfl, by decide, by decide, ScanProject_prunes_vendored vendoredFS "/proj".toList _ rfl⟩

/-- Claim C16: `discoverConfigFiles` reports exactly the non-pruned files whose
lower-cased extension is `.yaml`, `.yml`, `.json` or `.toml` and whose
lower-cased base name contains `config` or `settings` or equals `etc.yaml` or
`etc.json`, in the order of the walk, with type "yaml" for `.yaml` and `.yml`,
"json" for `.json` and "toml" for `.toml`. -/
theorem discoverConfigFiles_iff (fs : FileSystem) (root : Str) (c : ConfigFile) :
    (c ∈ (discoverConfigFiles fs root).1 ↔
      (∃ t dirs, fs.tree root = some t ∧ FileBelow root t dirs c.Path ∧
        ∀ d ∈ dirs, skipDirName d = false) ∧
      (((ToLower (Ext c.Path) = ".yaml".toList ∨ ToLower (Ext c.Path) = ".yml".toList) ∧
          c.Type_ = "yaml".toList) ∨
        (ToLower (Ext c.Path) = ".json".toList ∧ c.Type_ = "json".toList) ∨
        (ToLower (Ext c.Path) = ".toml".toList ∧ c.Type_ = "toml".toList)) ∧
      (Contains (ToLower (Base c.Path)) "config".toList = true ∨
        Contains (ToLower (Base c.Path)) "settings".toList = true ∨
        ToLower (Base c.Path) = "etc.yaml".toList ∨ ToLower (Base c.Path) = "etc.json".toList)) ∧
    (discoverConfigFiles fs root).1 = (visibleFrom fs root).filterMap (fun p =>
      (configFileType p).map (fun ty => ({ Path := p, Type_ := ty } : ConfigFile))) := by
  refine ⟨?_, discoverConfigFiles_eq fs root⟩
  rw [discoverConfigFiles_eq, ← mem_visibleFrom_iff, ← configFileType_eq_some,
    List.mem_filterMap]
  constructor
  · rintro ⟨fp, hfp, hmap⟩
    cases hty : configFileType fp with
    | none => rw [hty] at hmap; simp at hmap
    | some ty =>
      rw [hty] at hmap
      simp only [Option.map_some', Option.some.injEq] at hmap
      subst hmap
      exact ⟨hfp, hty⟩
  · rintro ⟨hfp, hty⟩
    exact ⟨c.Path, hfp, by rw [hty]; rfl⟩

/-- Claim C16, witness: `config.yaml`, `settings.json` and `etc.yaml` give three
configuration files; `notes.yaml` next to them is not one. -/
theorem discoverConfigFiles_iff_witness :
    (discoverConfigFiles configFS "/proj".toList).1 =
      [{ Path := "/proj/config.yaml".toList, Type_ := "yaml".toList },
       { Path := "/proj/etc.yaml".toList, Type_ := "yaml".toList },
       { Path := "/proj/settings.json".toList, Type_ := "json".toList }] ∧
    (({ Path := "/proj/settings.json".toList, Type_ := "json".toList } : ConfigFile) ∈
        (discoverConfigFiles configFS "/proj".toList).1 ↔
      (∃ t dirs, configFS.tree "/proj".toList = some t ∧
        FileBelow "/proj".toList t dirs "/proj/settings.json".toList ∧
        ∀ d ∈ dirs, skipDirName d = false) ∧
      (((ToLower (Ext "/proj/settings.json".toList) = ".yaml".toList ∨
          ToLower (Ext "/proj/settings.json".toList) = ".yml".toList) ∧
          "json".toList = "yaml".toList) ∨
        (ToLower (Ext "/proj/settings.json".toList) = ".json".toList ∧
          "json".toList = "json".toList) ∨
        (ToLower (Ext "/proj/settings.json".toList) = ".toml".toList ∧
          "json".toList = "toml".toList)) ∧
      (Contains (ToLower (Base "/proj/settings.json".toList)) "config".toList = true ∨
        Contains (ToLower (Base "/proj/settings.json".toList)) "settings".toList = true ∨
        ToLower (Base "/proj/settings.json".toList) = "etc.yaml".toList ∨
        ToLower (Base "/proj/settings.json".toList) = "etc.json".toList)) :=
  ⟨by decide, (discoverConfigFiles_iff configFS "/proj".toList
    { Path := "/proj/settings.json".toList, Type_ := "json".toList }).1⟩

/-- Claim C17: for every project path that resolves to an existing directory
with no readable `go.mod` at its root, `ScanProject` succeeds and returns an
empty `Dependencies` list, `TotalDependencies = 0` and an empty
`GoZeroVersion`. -/
theorem ScanProject_without_go_mod (fs : FileSystem) (projectPath p : Str)
    (hres : (if IsAbs projectPath then some projectPath else fs.Abs projectPath) = some p)
    (hdir : fs.Stat p = some true) (hmod : fs.ReadFile (Join p "go.mod".toList) = none) :
    ∃ a, ScanProject fs projectPath = .ok a ∧ a.Dependencies = [] ∧
      a.Summary.TotalDependencies = 0 ∧ a.Summary.GoZeroVersion = [] :=
  ⟨scanDirectory fs p, ScanProject_of_directory hres hdir, scanDirectory_without_go_mod hmod⟩

/-- Claim C17, witness: the project with one `.api` file and no `go.mod`. -/
theorem ScanProject_without_go_mod_witness :
    (if IsAbs "/proj".toList then some "/proj".toList else brokenApiFS.Abs "/proj".toList) =
      some "/proj".toList ∧
    brokenApiFS.Stat "/proj".toList = some true ∧
    brokenApiFS.ReadFile (Join "/proj".toList "go.mod".toList) = none ∧
    ∃ a, ScanProject brokenApiFS "/proj".toList = .ok a ∧ a.Dependencies = [] ∧
      a.Summary.TotalDependencies = 0 ∧ a.Summary.GoZeroVersion = [] :=
  ⟨rfl, rfl, by decide,
   ScanProject_without_go_mod brokenApiFS "/proj".toList "/proj".toList rfl rfl (by decide)⟩

/-- Claim C18: `ScanProject` fails, returning no analysis, exactly when the
project path cannot be resolved, does not exist (`os.Stat` fails) or is not a
directory, with the error of that case; when the path resolves to an existing
directory it returns an analysis whose `ProjectPath` is the resolved absolute
path, whatever the walks and parses meet. -/
theorem ScanProject_fails_iff (fs : FileSystem) (projectPath : Str) :
    ((∃ e, ScanProject fs projectPath = .error e) ↔
      ((if IsAbs projectPath then some projectPath else fs.Abs projectPath) = none ∨
       ∃ p, (if IsAbs projectPath then some projectPath else fs.Abs projectPath) = some p ∧
         (fs.Stat p = none ∨ fs.Stat p = some false))) ∧
    ((if IsAbs projectPath then some projectPath else fs.Abs projectPath) = none →
      ScanProject fs projectPath = .error .resolveFailed) ∧
    (∀ p, (if IsAbs projectPath then some projectPath else fs.Abs projectPath) = some p →
      (fs.Stat p = none → ScanProject fs projectPath = .error .pathNotFound) ∧
      (fs.Stat p = some false → ScanProject fs projectPath = .error .notADirectory) ∧
      (fs.Stat p = some true →
        ∃ a, ScanProject fs projectPath = .ok a ∧ a.ProjectPath = p)) := by
  cases hres : (if IsAbs projectPath then some projectPath else fs.Abs projectPath) with
  | none =>
    have h : ScanProject fs projectPath = .error .resolveFailed := by
      simp [ScanProject, hres]
    refine ⟨⟨fun _ => Or.inl rfl, fun _ => ⟨_, h⟩⟩, fun _ => h, ?_⟩
    intro p hp
    simp at hp
  | some q =>
    cases hs : fs.Stat q with
    | none =>
      have h : ScanProject fs projectPath = .error .pathNotFound := by
        simp [ScanProject, hres, hs]
      refine ⟨⟨fun _ => Or.inr ⟨q, rfl, Or.inl hs⟩, fun _ => ⟨_, h⟩⟩, fun hn => by simp at hn, ?_⟩
      intro p hp
      simp only [Option.some.injEq] at hp
      subst hp
      exact ⟨fun _ => h, fun h2 => by rw [hs] at h2; simp at h2,
        fun h2 => by rw [hs] at h2; simp at h2⟩
    | some isDir =>
      cases isDir with
      | false =>
        have h : ScanProject fs projectPath = .error .notADirectory := by
          simp [ScanProject, hres, hs]
        refine ⟨⟨fun _ => Or.inr ⟨q, rfl, Or.inr hs⟩, fun _ => ⟨_, h⟩⟩, fun hn => by simp at hn, ?_⟩
        intro p hp
        simp only [Option.some.injEq] at hp
        subst hp
        exact ⟨fun h2 => by rw [hs] at h2; simp at h2, fun _ => h,
          fun h2 => by rw [hs] at h2; simp at h2⟩
      | true =>
        have h : ScanProject fs projectPath = .ok (scanDirectory fs q) :=
          ScanProject_of_directory hres hs
        refine ⟨⟨?_, ?_⟩, fun hn => by simp at hn, ?_⟩
        · rintro ⟨e, he⟩
          rw [h] at he
          simp at he
        · rintro (hn | ⟨p, hp, h2 | h2⟩)
          · simp at hn
          · simp only [Option.some.injEq] at hp
            subst hp
            rw [hs] at h2
            simp at h2
          · simp only [Option.some.injEq] at hp
            subst hp
            rw [hs] at h2
            simp at h2
        · intro p hp
          simp only [Option.some.injEq] at hp
          subst hp
          exact ⟨fun h2 => by rw [hs] at h2; simp at h2, fun h2 => by rw [hs] at h2; simp at h2,
            fun _ => ⟨_, h, (scanDirectory_services fs q).2.2.2.2.2.2.2⟩⟩

/-- Claim C18, witness: a relative path that cannot be resolved, a missing
path, a path of a plain file and an existing directory. -/
theorem ScanProject_fails_iff_witness :
    ScanProject (statFS none none) "proj".toList = .error .resolveFailed ∧
    ScanProject (statFS none none) "/proj".toList = .error .pathNotFound ∧
    ScanProject (statFS none (some false)) "/proj".toList = .error .notADirectory ∧
    (∃ a, ScanProject sampleFS "/proj".toList = .ok a ∧ a.ProjectPath = "/proj".toList) :=
  ⟨(ScanProject_fails_iff (statFS none none) "proj".toList).2.1 rfl,
   ((ScanProject_fails_iff (statFS none none) "/proj".toList).2.2 "/proj".toList rfl).1 rfl,
   ((ScanProject_fails_iff (statFS none (some false)) "/proj".toList).2.2 "/proj".toList rfl).2.1 rfl,
   ((ScanProject_fails_iff sampleFS "/proj".toList).2.2 "/proj".toList rfl).2.2 rfl⟩

/-- Claim C19: every service of a `ScanProject` result has type "api" with no
RPC methods or type "rpc" with no endpoints. -/
theorem ScanProject_service_kinds (fs : FileSystem) (projectPath : Str) (a : ProjectAnalysis)
    (h : ScanProject fs projectPath = .ok a) :
    ∀ s ∈ a.Services,
      (s.Type_ = "api".toList ∧ s.RPCMethods = []) ∨ (s.Type_ = "rpc".toList ∧ s.Endpoints = []) := by
  obtain ⟨ha, -⟩ := ScanProject_ok h
  intro s hs
  rw [ha, (scanDirectory_services fs a.ProjectPath).1, afterLoops_services] at hs
  rcases List.mem_append.mp hs with h1 | h1
  · obtain ⟨f, -, rfl⟩ := List.mem_map.mp h1
    exact Or.inl ⟨(apiServiceEntry_type fs f).1, (apiServiceEntry_type fs f).2.1⟩
  · obtain ⟨f, -, rfl⟩ := List.mem_map.mp h1
    exact Or.inr ⟨(rpcServiceEntry_type fs f).1, (rpcServiceEntry_type fs f).2.1⟩

/-- Claim C19, witness: the project with one `.api` and one `.proto` file. -/
theorem ScanProject_service_kinds_witness :
    ScanProject sampleFS "/proj".toList = .ok (scanDirectory sampleFS "/proj".toList) ∧
    (scanDirectory sampleFS "/proj".toList).Services.length = 2 ∧
    ∀ s ∈ (scanDirectory sampleFS "/proj".toList).Services,
      (s.Type_ = "api".toList ∧ s.RPCMethods = []) ∨ (s.Type_ = "rpc".toList ∧ s.Endpoints = []) :=
  ⟨rfl, by decide, ScanProject_service_kinds sampleFS "/proj".toList _ rfl⟩

/-- Claim C20, counterexample: an entry stored at time 0 and read when the
clock shows exactly the TTL has an age equal to the TTL, not strictly less,
and is still returned. -/
theorem getCachedAnalysis_at_ttl :
    (oneEntryCache "/p".toList).map (fun e => cacheTTL - e.timestamp) = some cacheTTL ∧
    getCachedAnalysis oneEntryCache cacheTTL "/p".toList = some emptyAnalysis := by
  decide

/-- Claim C20, amended: `getCachedAnalysis` returns an analysis exactly when
the map has an entry for exactly that path whose age, the clock reading minus
the entry's timestamp, is at most the TTL of five minutes, and then it is the
analysis of that entry; it returns the nil result when there is no entry or
the age is greater than the TTL. -/
theorem getCachedAnalysis_iff (entries : CacheEntries) (now : Int) (projectPath : Str) :
    cacheTTL = 300000000000 ∧
    (∀ a, getCachedAnalysis entries now projectPath = some a ↔
      ∃ entry, entries projectPath = some entry ∧ entry.analysis = a ∧
        now - entry.timestamp ≤ cacheTTL) ∧
    (getCachedAnalysis entries now projectPath = none ↔
      entries projectPath = none ∨
      ∃ entry, entries projectPath = some entry ∧ now - entry.timestamp > cacheTTL) := by
  refine ⟨by decide, ?_, ?_⟩
  · intro a
    unfold getCachedAnalysis
    cases he : entries projectPath with
    | none => simp
    | some entry =>
      by_cases hage : now - entry.timestamp > cacheTTL
      · simp only [hage, if_true, Option.some.injEq, false_iff, not_exists, not_and, not_le]
        constructor
        · intro h; simp at h
        · rintro ⟨e, rfl, -, h⟩; omega
      · simp only [hage, if_false, Option.some.injEq]
        constructor
        · rintro rfl; exact ⟨entry, rfl, rfl, by omega⟩
        · rintro ⟨e, rfl, h, -⟩; exact h
  · unfold getCachedAnalysis
    cases he : entries projectPath with
    | none => simp
    | some entry =>
      by_cases hage : now - entry.timestamp > cacheTTL
      · simp only [hage, if_true, true_iff]
        exact Or.inr ⟨entry, rfl, hage⟩
      · simp only [hage, if_false]
        constructor
        · intro h; simp at h
        · rintro (h | ⟨e, h1, h2⟩)
          · simp at h
          · simp only [Option.some.injEq] at h1
            subst h1
            exact absurd h2 hage

/-- Claim C21: reading the cache after a store. For every path and analysis,
`getCachedAnalysis` for the path, on the map that `cacheAnalysis` left at time
`t`, returns the stored analysis when read at a time whose distance from `t` is
within the TTL; on a map built from the empty one by stores to other paths
only, it returns the nil result; and when read more than the TTL after `t` it
returns the nil result while the map, which the read leaves as it is, still
holds the entry. -/
theorem getCachedAnalysis_after_cacheAnalysis (entries : CacheEntries) (t now : Int) (p : Str)
    (a : ProjectAnalysis) :
    (now - t ≤ cacheTTL → getCachedAnalysis (cacheAnalysis entries t p a) now p = some a) ∧
    (∀ puts : List (Int × Str × ProjectAnalysis), p ∉ puts.map (fun put => put.2.1) →
      getCachedAnalysis (cacheAfter puts) now p = none) ∧
    (now - t > cacheTTL →
      getCachedAnalysis (cacheAnalysis entries t p a) now p = none ∧
      cacheAnalysis entries t p a p = some { analysis := a, timestamp := t }) := by
  refine ⟨?_, ?_, ?_⟩
  · intro h
    have h' : ¬ now - t > cacheTTL := by omega
    simp [getCachedAnalysis, cacheAnalysis, h']
  · intro puts hp
    simp [getCachedAnalysis, cacheAfter_never_put puts p hp]
  · intro h
    simp [getCachedAnalysis, cacheAnalysis, h]

/-- Claim C21, witness: an analysis stored for `/p` at time 0 is returned one
second later and no longer at six minutes, when the entry is still in the map;
`/q`, never stored, is a miss. -/
theorem getCachedAnalysis_after_cacheAnalysis_witness :
    getCachedAnalysis oneEntryCache 1000000000 "/p".toList = some emptyAnalysis ∧
    getCachedAnalysis (cacheAfter [(0, "/p".toList, emptyAnalysis)]) 1000000000 "/q".toList = none ∧
    getCachedAnalysis oneEntryCache 360000000000 "/p".toList = none ∧
    oneEntryCache "/p".toList = some { analysis := emptyAnalysis, timestamp := 0 } :=
  ⟨(getCachedAnalysis_after_cacheAnalysis (fun _ => none) 0 1000000000 "/p".toList
      emptyAnalysis).1 (by decide),
   (getCachedAnalysis_after_cacheAnalysis (fun _ => none) 0 1000000000 "/q".toList
      emptyAnalysis).2.1 [(0, "/p".toList, emptyAnalysis)] (by decide),
   ((getCachedAnalysis_after_cacheAnalysis (fun _ => none) 0 360000000000 "/p".toList
      emptyAnalysis).2.2 (by decide)).1,
   ((getCachedAnalysis_after_cacheAnalysis (fun _ => none) 0 360000000000 "/p".toList
      emptyAnalysis).2.2 (by decide)).2⟩

/-- Claim C22: `cacheAnalysis` overwrites and never deletes. Whatever the map
holds for the path, expired or not, after `cacheAnalysis` it holds the given
analysis with the clock reading of the call; the entry of every other path is
as before; and no path that has an entry loses it, neither by `cacheAnalysis`
nor by a call of `AnalyzeProject`, the only code that changes the map. -/
theorem cacheAnalysis_overwrites (entries : CacheEntries) (now : Int) (p : Str)
    (a : ProjectAnalysis) :
    cacheAnalysis entries now p a p = some { analysis := a, timestamp := now } ∧
    (∀ q, q ≠ p → cacheAnalysis entries now p a q = entries q) ∧
    (∀ q, (entries q).isSome = true → (cacheAnalysis entries now p a q).isSome = true) ∧
    (∀ (fs : FileSystem) (cwd : Str) (tGet tPut : Int) (params : AnalyzeProjectParams) (q : Str),
      (entries q).isSome = true →
      ((AnalyzeProject fs cwd entries tGet tPut params).entries q).isSome = true) := by
  have h3 : ∀ (t : Int) (p' : Str) (a' : ProjectAnalysis) (q : Str),
      (entries q).isSome = true → (cacheAnalysis entries t p' a' q).isSome = true := by
    intro t p' a' q hq
    unfold cacheAnalysis
    split
    · rfl
    · exact hq
  refine ⟨by simp [cacheAnalysis], ?_, h3 now p a, ?_⟩
  · intro q hq
    simp [cacheAnalysis, hq]
  · intro fs cwd tGet tPut params q hq
    rcases AnalyzeProject_entries_cases fs cwd entries tGet tPut params with h | ⟨path, an, -, h⟩
    · rw [h]; exact hq
    · rw [h]; exact h3 tPut path an q hq

/-- Claim C23: two calls of `AnalyzeProject` in a row. Let the parameter
resolve to the absolute path of an existing directory for which the cache map
has no entry. The first call reaches `ScanProject`, reports the analysis of the
directory with `from_cache = false` and leaves the map with that analysis
stored for the path at the time of the store. A second call for the same path,
reading the clock within the TTL of that store, does not reach `ScanProject`
(on any state of the file system), reports the same data with
`from_cache = true` and leaves the map as it is. And no call whose scan fails
changes the map. -/
theorem AnalyzeProject_second_call_cached (fs fs2 : FileSystem) (cwd : Str)
    (entries : CacheEntries) (t1 t2 t3 t4 : Int) (params : AnalyzeProjectParams) (path : Str)
    (hres : resolvedPath fs cwd params = some path)
    (hres2 : resolvedPath fs2 cwd params = some path)
    (habs : IsAbs path = true) (hdir : fs.Stat path = some true)
    (hmiss : entries path = none) (httl : t3 - t2 ≤ cacheTTL) :
    (AnalyzeProject fs cwd entries t1 t2 params).scanned = true ∧
    (AnalyzeProject fs cwd entries t1 t2 params).outcome =
      .success (formatAnalysisResult (scanDirectory fs path) false) ∧
    (formatAnalysisResult (scanDirectory fs path) false).from_cache = false ∧
    (AnalyzeProject fs cwd entries t1 t2 params).entries =
      cacheAnalysis entries t2 path (scanDirectory fs path) ∧
    (AnalyzeProject fs2 cwd (AnalyzeProject fs cwd entries t1 t2 params).entries t3 t4
      params).scanned = false ∧
    (AnalyzeProject fs2 cwd (AnalyzeProject fs cwd entries t1 t2 params).entries t3 t4
      params).outcome =
      .success { formatAnalysisResult (scanDirectory fs path) false with from_cache := true } ∧
    (AnalyzeProject fs2 cwd (AnalyzeProject fs cwd entries t1 t2 params).entries t3 t4
      params).entries = (AnalyzeProject fs cwd entries t1 t2 params).entries ∧
    (∀ (fs' : FileSystem) (cwd' : Str) (entries' : CacheEntries) (tGet tPut : Int)
      (params' : AnalyzeProjectParams) (e : Err),
      (AnalyzeProject fs' cwd' entries' tGet tPut params').outcome = .analyzeFailed e →
      (AnalyzeProject fs' cwd' entries' tGet tPut params').entries = entries') := by
  have hscan : ScanProject fs path = .ok (scanDirectory fs path) :=
    ScanProject_of_directory (by rw [if_pos habs]) hdir
  have hget : getCachedAnalysis entries t1 path = none := by
    simp [getCachedAnalysis, hmiss]
  have hfirst := (AnalyzeProject_of_resolved hres entries t1 t2).2.2 hget _ hscan
  have hget2 : getCachedAnalysis (cacheAnalysis entries t2 path (scanDirectory fs path)) t3 path =
      some (scanDirectory fs path) := by
    have h' : ¬ t3 - t2 > cacheTTL := by omega
    simp [getCachedAnalysis, cacheAnalysis, h']
  have hsecond := (AnalyzeProject_of_resolved hres2
    (cacheAnalysis entries t2 path (scanDirectory fs path)) t3 t4).1 _ hget2
  rw [hfirst]
  simp only [hsecond]
  refine ⟨trivial, trivial, rfl, trivial, trivial, rfl, trivial, ?_⟩
  intro fs' cwd' entries' tGet tPut params' e he
  rcases AnalyzeProject_entries_cases fs' cwd' entries' tGet tPut params' with h | ⟨p, an, ho, -⟩
  · exact h
  · rw [ho] at he
    cases he

/-- Claim C23, witness: the sample project at `/proj`, analysed twice ten
seconds apart on an empty cache. -/
theorem AnalyzeProject_second_call_cached_witness :
    (AnalyzeProject sampleFS [] (fun _ => none) 0 1 ⟨"/proj".toList⟩).scanned = true ∧
    (AnalyzeProject sampleFS [] (fun _ => none) 0 1 ⟨"/proj".toList⟩).outcome =
      .success (formatAnalysisResult (scanDirectory sampleFS "/proj".toList) false) ∧
    (AnalyzeProject brokenApiFS []
      (AnalyzeProject sampleFS [] (fun _ => none) 0 1 ⟨"/proj".toList⟩).entries
      10000000000 10000000001 ⟨"/proj".toList⟩).scanned = false ∧
    (AnalyzeProject brokenApiFS []
      (AnalyzeProject sampleFS [] (fun _ => none) 0 1 ⟨"/proj".toList⟩).entries
      10000000000 10000000001 ⟨"/proj".toList⟩).outcome =
      .success { formatAnalysisResult (scanDirectory sampleFS "/proj".toList) false with
        from_cache := true } :=
  have h := AnalyzeProject_second_call_cached sampleFS brokenApiFS [] (fun _ => none)
    0 1 10000000000 10000000001 ⟨"/proj".toList⟩ "/proj".toList (by decide) (by decide)
    (by decide) (by decide) rfl (by decide)
  ⟨h.1, h.2.1, h.2.2.2.2.1, h.2.2.2.2.2.1⟩

/-- Claim C25: `ValidateServiceName` returns the nil error exactly for the
names of the accepted form: not empty, the first character an ASCII letter,
every other character an ASCII letter, a digit or an underscore. -/
theorem ValidateServiceName_iff (u : UnicodeTables) (name : Str) :
    ValidateServiceName u name = none ↔
      ∃ c rest, name = c :: rest ∧ isLetterAZ c = true ∧ ∀ a ∈ rest, isWord a = true := by
  constructor
  · intro h
    cases name with
    | nil => simp [ValidateServiceName] at h
    | cons c rest =>
      simp only [ValidateServiceName] at h
      split_ifs at h with h1 h2 h3
      simp only [Bool.not_eq_true, Bool.not_eq_false] at h3
      simpa using (validIdentifier_MatchString_iff (c :: rest)).mp (by simpa using h3)
  · rintro ⟨c, rest, rfl, hc, hrest⟩
    have hm := (validIdentifier_MatchString_iff (c :: rest)).mpr ⟨c, rest, rfl, hc, hrest⟩
    have hfirst := firstRune_of_ascii (isWord_lt_128 (isWord_of_isLetterAZ hc))
    have hlet := IsLetter_of_isLetterAZ u hc
    have hhy : Contains (c :: rest) ['-'] = false := by
      rw [Bool.eq_false_iff]
      intro hcon
      rcases List.mem_cons.mp ((Contains_singleton _ _).mp hcon) with h | h
      · exact isWord_ne_hyphen (isWord_of_isLetterAZ hc) h.symm
      · exact isWord_ne_hyphen (hrest _ h) rfl
    simp only [ValidateServiceName, hfirst, hlet, hhy, hm]
    simp

/-- Claim C25, witness: names of the test table. `userservice` and
`myService_v2` pass; the empty name, names that start with a digit or an
underscore, and names with a hyphen, a space, `@` or a dot are rejected. -/
theorem ValidateServiceName_iff_witness :
    ValidateServiceName emptyTables "userservice".toList = none ∧
    ValidateServiceName emptyTables "myService_v2".toList = none ∧
    ValidateServiceName emptyTables [] = some .empty ∧
    ValidateServiceName emptyTables "123service".toList = some (.notLetter '1') ∧
    ValidateServiceName emptyTables "_userservice".toList = some (.notLetter '_') ∧
    ValidateServiceName emptyTables "user-service".toList =
      some (.hyphen "user_service".toList) ∧
    ValidateServiceName emptyTables "user service".toList = some .notIdentifier ∧
    ValidateServiceName emptyTables "user@service".toList = some .notIdentifier ∧
    ValidateServiceName emptyTables "user.service".toList = some .notIdentifier :=
  ⟨(ValidateServiceName_iff emptyTables "userservice".toList).mpr
      ⟨'u', "serservice".toList, rfl, by decide, by decide⟩,
   (ValidateServiceName_iff emptyTables "myService_v2".toList).mpr
      ⟨'m', "yService_v2".toList, rfl, by decide, by decide⟩,
   by decide, by decide, by decide, by decide, by decide, by decide, by decide⟩

/-- Claim C26, failing input: the suggestion for the empty name is the empty
name, and the suggestion for `é` (U+00E9, a letter for `unicode.IsLetter`) is
`é`; `ValidateServiceName` rejects both suggestions. -/
theorem SuggestServiceName_not_valid :
    SuggestServiceName emptyTables [] = [] ∧
    ValidateServiceName emptyTables (SuggestServiceName emptyTables []) = some .empty ∧
    SuggestServiceName emptyTables [Char.ofNat 0xE9] = [Char.ofNat 0xE9] ∧
    ValidateServiceName emptyTables (SuggestServiceName emptyTables [Char.ofNat 0xE9]) =
      some .notIdentifier := by
  decide

/-- Claim C27: `SuggestServiceName` keeps valid names and is idempotent. A
name for which `ValidateServiceName` returns the nil error is returned as it
is, and for every text the suggestion for a suggestion is that suggestion. -/
theorem SuggestServiceName_idempotent (u : UnicodeTables) (name s : Str) :
    (ValidateServiceName u name = none → SuggestServiceName u name = name) ∧
    SuggestServiceName u (SuggestServiceName u s) = SuggestServiceName u s := by
  refine ⟨?_, SuggestServiceName_of_shape u (SuggestServiceName_shape u s)⟩
  intro h
  obtain ⟨c, rest, rfl, hc, hrest⟩ := (validIdentifier_MatchString_iff name).mp (by
    cases name with
    | nil => simp [ValidateServiceName] at h
    | cons c rest =>
      simp only [ValidateServiceName] at h
      split_ifs at h with h1 h2 h3
      simpa using h3)
  exact SuggestServiceName_of_shape u
    (Or.inr ⟨c, rest, rfl, IsLetter_of_isLetterAZ u hc, fun a ha => keepRune_of_isWord u (hrest a ha)⟩)

/-- Claim C27, witness: `userservice` is valid and is its own suggestion; the
suggestion for `1user-service!` is `s1user_service`, which is its own
suggestion. -/
theorem SuggestServiceName_idempotent_witness :
    ValidateServiceName emptyTables "userservice".toList = none ∧
    SuggestServiceName emptyTables "userservice".toList = "userservice".toList ∧
    SuggestServiceName emptyTables "1user-service!".toList = "s1user_service".toList ∧
    SuggestServiceName emptyTables (SuggestServiceName emptyTables "1user-service!".toList) =
      SuggestServiceName emptyTables "1user-service!".toList :=
  ⟨by decide,
   (SuggestServiceName_idempotent emptyTables "userservice".toList []).1 (by decide),
   by decide,
   (SuggestServiceName_idempotent emptyTables [] "1user-service!".toList).2⟩

/-- Claim C28: `ValidatePort` returns an error for every port below 1024 or
above 65535, whatever the network stack answers, and for a port from 1024 to
65535 it returns an error exactly when the port is in use, that is when
`isPortInUse` finds that listening on the port fails. -/
theorem ValidatePort_iff (net : Network) (port : Int) :
    (port < 1024 ∨ port > 65535 → ValidatePort net port = some (.outOfRange port)) ∧
    (1024 ≤ port → port ≤ 65535 →
      ((ValidatePort net port ≠ none ↔ isPortInUse net port = true) ∧
       (isPortInUse net port = true → ValidatePort net port = some (.inUse port)))) ∧
    (isPortInUse net port = true ↔ net.Listen port = false) := by
  refine ⟨?_, ?_, ?_⟩
  · intro h
    simp [ValidatePort, h]
  · intro h1 h2
    have hr : ¬ (port < 1024 ∨ port > 65535) := by omega
    cases hu : isPortInUse net port <;> simp [ValidatePort, hr, hu]
  · cases hl : net.Listen port <;> simp [isPortInUse, hl]

/-- Claim C28, witness: with port 8080 taken and the other ports free, ports
80 and 65536 are out of range, 8080 is in use, and 1024, 9000 and 65535
pass. -/
theorem ValidatePort_iff_witness :
    ValidatePort busy8080 80 = some (.outOfRange 80) ∧
    ValidatePort busy8080 65536 = some (.outOfRange 65536) ∧
    ValidatePort busy8080 8080 = some (.inUse 8080) ∧
    ValidatePort busy8080 1024 = none ∧ ValidatePort busy8080 9000 = none ∧
    ValidatePort busy8080 65535 = none :=
  ⟨(ValidatePort_iff busy8080 80).1 (by decide),
   (ValidatePort_iff busy8080 65536).1 (by decide),
   ((ValidatePort_iff busy8080 8080).2.1 (by decide) (by decide)).2 (by decide),
   by decide, by decide, by decide⟩

/-- Claim C29, failing input: the file `user.proto` of the sample project
declares `rpc M(stream Req) returns (Resp)`. `extractRPCMethods` computes the
direction "request" for it, and the scan reports the method with the `Stream`
flag false. -/
theorem ScanProject_stream_flag_lost :
    sampleFS.ReadFile "/proj/user.proto".toList =
      some "service Foo \x7b rpc M(stream Req) returns (Resp) \x7d".toList ∧
    extractRPCMethods "service Foo \x7b rpc M(stream Req) returns (Resp) \x7d".toList =
      [{ Name := "M".toList, Request := "stream Req".toList, Response := "Resp".toList,
         Stream := "request".toList }] ∧
    (ScanProject sampleFS "/proj".toList).toOption.map
        (fun a => a.Services.flatMap (fun s => s.RPCMethods)) =
      some [{ Name := "M".toList, Request := "stream Req".toList, Response := "Resp".toList,
              Stream := false }] := by
  decide

/-- Claim C30: in the result of `ValidateAPIConfig` and in the result of
`ValidateRPCConfig`, for every configuration map, `Valid` is true exactly when
the list `Errors` is empty; the sections that only add warnings leave `Valid`
and `Errors` as they are. -/
theorem Validate_valid_iff_no_errors (config : Config) :
    ((ValidateAPIConfig config).Valid = true ↔ (ValidateAPIConfig config).Errors = []) ∧
    ((ValidateRPCConfig config).Valid = true ↔ (ValidateRPCConfig config).Errors = []) ∧
    (∀ r, ((validateHostField config r).Valid = r.Valid ∧
            (validateHostField config r).Errors = r.Errors) ∧
          ((checkTimeout config r).Valid = r.Valid ∧ (checkTimeout config r).Errors = r.Errors) ∧
          ((checkLog config r).Valid = r.Valid ∧ (checkLog config r).Errors = r.Errors) ∧
          ((checkProduction config r).Valid = r.Valid ∧
            (checkProduction config r).Errors = r.Errors) ∧
          ((checkEtcd config r).Valid = r.Valid ∧ (checkEtcd config r).Errors = r.Errors)) := by
  have h0 : ValidIffNoErrors { Valid := true, Errors := [], Warnings := [] } := by
    simp [ValidIffNoErrors]
  refine ⟨?_, ?_, fun r => ⟨validateHostField_frame config r, checkTimeout_frame config r,
    checkLog_frame config r, checkProduction_frame config r, checkEtcd_frame config r⟩⟩
  · have h1 := checkRequiredFields_inv config ["Name".toList, "Host".toList, "Port".toList] _ h0
    have h2 := validateNameField_inv config h1
    have h3 := validIffNoErrors_of_frame (validateHostField_frame config _) h2
    have h4 := validatePortField_inv config h3
    have h5 := validIffNoErrors_of_frame (checkTimeout_frame config _) h4
    have h6 := validIffNoErrors_of_frame (checkLog_frame config _) h5
    exact validIffNoErrors_of_frame (checkProduction_frame config _) h6
  · have h1 := checkRequiredFields_inv config ["Name".toList, "ListenOn".toList] _ h0
    have h2 := validateListenOn_inv config h1
    exact validIffNoErrors_of_frame (checkEtcd_frame config _) h2

/-- Claim C30, witness: an HTTP configuration with an empty host and a zero
timeout gets two warnings and is valid, with no error; an RPC configuration
whose `ListenOn` has no colon gets one error and one warning and is not
valid. -/
theorem Validate_valid_iff_no_errors_witness :
    (ValidateAPIConfig warnedConfig).Warnings.length = 2 ∧
    (ValidateAPIConfig warnedConfig).Errors.length = 0 ∧
    (ValidateAPIConfig warnedConfig).Valid = true ∧
    (ValidateRPCConfig brokenRpcConfig).Warnings.length = 1 ∧
    (ValidateRPCConfig brokenRpcConfig).Errors.length = 1 ∧
    (ValidateRPCConfig brokenRpcConfig).Valid = false :=
  ⟨by decide, by decide,
   (Validate_valid_iff_no_errors warnedConfig).1.mpr
     (List.eq_nil_of_length_eq_zero (by decide)),
   by decide, by decide,
   by
     have h := (Validate_valid_iff_no_errors brokenRpcConfig).2.1
     cases hv : (ValidateRPCConfig brokenRpcConfig).Valid
     · rfl
     · exact absurd (congrArg List.length (h.mp hv)) (by decide)⟩

end Analyzer
